import Mathlib

set_option maxRecDepth 20000

/-!
Verification of the sokoban solver (`sokoban.py`).

The development shallowly embeds the program: the board class `skb_map`
becomes a structure, its methods become Lean functions, Python's
arbitrary-precision two's-complement bitwise operators become executable
functions on `Int`, Python list indexing (negative indices wrap from the
end, other out-of-range indices raise `IndexError`) becomes an
`Except String` read, and every `print(...)` + `exit(-1)` branch becomes an
`Except.error` carrying the printed message's fixed prefix.
-/

/-! ## Python two's-complement bitwise operations

A fueled structural bit recursion on `Nat`, then the standard
two's-complement case analysis for signed operands.  `nbitAnd f a b`,
`nbitDiff f a b` (and-not) and `nbitOr f a b` compute the bitwise
combination of the low `f` bits; taking `f = max a b + 1` covers every
set bit since a natural number `n` has fewer than `n + 1` bits. -/

def nbitAnd : Nat → Nat → Nat → Nat
  | 0, _, _ => 0
  | f + 1, a, b =>
    if a = 0 ∨ b = 0 then 0
    else (a % 2) * (b % 2) + 2 * nbitAnd f (a / 2) (b / 2)

def nbitDiff : Nat → Nat → Nat → Nat
  | 0, _, _ => 0
  | f + 1, a, b =>
    if a = 0 then 0
    else (a % 2) * (1 - b % 2) + 2 * nbitDiff f (a / 2) (b / 2)

def nbitOr : Nat → Nat → Nat → Nat
  | 0, _, _ => 0
  | f + 1, a, b =>
    if a = 0 then b
    else if b = 0 then a
    else (max (a % 2) (b % 2)) + 2 * nbitOr f (a / 2) (b / 2)

/-- Python `~a`: exact on arbitrary ints, `~a = -a - 1`. -/
def pynot (a : Int) : Int := -a - 1

/-- Python `a & b` on arbitrary-precision two's-complement integers.
For mixed signs, `a & b = a &ₙ ~(~b)` reduces to a natural and-not;
for two negatives, `a & b = ~(~a | ~b)`. -/
def pyland (a b : Int) : Int :=
  if 0 ≤ a then
    if 0 ≤ b then
      Int.ofNat (nbitAnd (max a.toNat b.toNat + 1) a.toNat b.toNat)
    else
      Int.ofNat (nbitDiff (max a.toNat (pynot b).toNat + 1) a.toNat (pynot b).toNat)
  else
    if 0 ≤ b then
      Int.ofNat (nbitDiff (max b.toNat (pynot a).toNat + 1) b.toNat (pynot a).toNat)
    else
      pynot (Int.ofNat (nbitOr (max (pynot a).toNat (pynot b).toNat + 1) (pynot a).toNat (pynot b).toNat))

/-- Python `a | b`, via De Morgan from `pyland` (exact on two's complement). -/
def pylor (a b : Int) : Int := pynot (pyland (pynot a) (pynot b))

example : pyland (-1) 0x20 = 0x20 := by decide
example : pyland (-1) 0x40 = 0x40 := by decide
example : pynot 0x71 = -114 := by decide
example : pyland (-5) 1 = 1 := by decide
example : pyland 0x41 (pynot 0x71) = 0 := by decide
example : pyland 0x31 (pynot 0x10) = 0x21 := by decide
example : pylor 0x21 0x40 = 0x61 := by decide
example : pyland (-1) (pynot 0x10) = -17 := by decide
example : pylor (-17) 0x40 = -17 := by decide

/-! ## Python list indexing

`array.array` (and list) indexing: a negative index wraps from the end,
an index outside `[-len, len)` raises `IndexError`. -/

def pyGet (l : List Int) (i : Int) : Except String Int :=
  if 0 ≤ i ∧ i < (l.length : Int) then .ok (l.getD i.toNat 0)
  else if -(l.length : Int) ≤ i ∧ i < 0 then .ok (l.getD ((l.length : Int) + i).toNat 0)
  else .error "IndexError"

def pySet (l : List Int) (i : Int) (v : Int) : Except String (List Int) :=
  if 0 ≤ i ∧ i < (l.length : Int) then .ok (l.set i.toNat v)
  else if -(l.length : Int) ≤ i ∧ i < 0 then .ok (l.set ((l.length : Int) + i).toNat v)
  else .error "IndexError"

/-! ## The data model

`skb_map` from the source: a flat row-major cell array with cached counts,
the character position and the derived reachability grid.  The cached
fields are set by `validate` at construction, so the structure is only
ever built through `skb_map.init` / `create_new_map_by_move`. -/

inductive Dir where
  | UP
  | RIGHT
  | DOWN
  | LEFT
deriving DecidableEq, Repr

structure skb_map where
  width : Nat
  height : Nat
  array : List Int
  box : Int
  dest : Int
  unsolved : Int
  character : Int × Int
  reachable : List Int
deriving DecidableEq, Repr

/-- `element` on a bare (width, flat array) pair: the form used while the
object is still under construction (`validate` runs before the cached
fields exist). `self.array[x + y * self.width]`. -/
def elemA (w : Nat) (a : List Int) (x y : Int) : Except String Int :=
  pyGet a (x + y * (w : Int))

def skb_map.element (b : skb_map) (x y : Int) : Except String Int :=
  elemA b.width b.array x y

def skb_map.update_element (b : skb_map) (x y : Int) (v : Int) : Except String skb_map := do
  let a ← pySet b.array (x + y * (b.width : Int)) v
  pure { b with array := a }

def skb_map.is_reachable (b : skb_map) (x y : Int) : Except String Bool := do
  let t ← pyGet b.reachable (x + y * (b.width : Int))
  pure (pyland t 0x80 == 0x80)

/-- `element == 0 or (element & 0x40) == 0x40`; the two Python reads hit the
same cell, so they are bound once. -/
def is_blockedA (w : Nat) (a : List Int) (x y : Int) : Except String Bool := do
  let e ← elemA w a x y
  pure (e == 0 || pyland e 0x40 == 0x40)

def skb_map.is_blocked (b : skb_map) (x y : Int) : Except String Bool :=
  is_blockedA b.width b.array x y

def is_wallA (w : Nat) (a : List Int) (x y : Int) : Except String Bool := do
  let e ← elemA w a x y
  pure (e == 0)

def skb_map.is_wall (b : skb_map) (x y : Int) : Except String Bool :=
  is_wallA b.width b.array x y

/-- `is_dead_corner`, transcribed with Python's left-to-right short-circuit
over the four corner configurations; repeated reads of the same pure cell
are bound once (the set of distinct cells consulted before the result is
exactly Python's). -/
def is_dead_cornerA (w : Nat) (a : List Int) (x y : Int) : Except String Bool := do
  let e ← elemA w a x y
  if pyland e 0x20 != 0 then pure false   -- a destination is not a dead corner
  else do
    let wr ← is_wallA w a (x+1) y
    if wr then do
      let wd ← is_wallA w a x (y+1)
      if wd then pure true
      else do
        let wu ← is_wallA w a x (y-1)
        if wu then pure true
        else do
          let _wl ← is_wallA w a (x-1) y
          pure false
    else do
      let wl ← is_wallA w a (x-1) y
      if wl then do
        let wd ← is_wallA w a x (y+1)
        if wd then pure true
        else is_wallA w a x (y-1)
      else pure false

def skb_map.is_dead_corner (b : skb_map) (x y : Int) : Except String Bool :=
  is_dead_cornerA b.width b.array x y

/-- `compare`: equivalence of two maps is equality of reachability grids. -/
def skb_map.compare (b another_map : skb_map) : Bool :=
  b.reachable == another_map.reachable

def skb_map.completed (b : skb_map) : Bool :=
  b.unsolved == 0

/-- Raster scan order: `for y in range(height): for x in range(width)`. -/
def rasterCoords (w h : Nat) : List (Int × Int) :=
  (List.range h).flatMap (fun (y : Nat) =>
    (List.range w).map (fun (x : Nat) => ((x : Int), (y : Int))))

/-! ## `validate`

Each `print(...); exit(-1)` branch becomes an `Except.error` with the fixed
prefix of the printed message.  The scan accumulates the totals in raster
order and remembers the last character cell, exactly as the source loop
does. -/

structure ScanAcc where
  total_box : Int
  total_dest : Int
  total_unsolved : Int
  total_character : Int
  character : Option (Int × Int)
deriving DecidableEq, Repr

def initScanAcc : ScanAcc :=
  { total_box := 0, total_dest := 0, total_unsolved := 0,
    total_character := 0, character := none }

/-- The common trailing check of the per-cell body (source line 167). -/
def charOnBoxCheck (e : Int) (acc : ScanAcc) : Except String ScanAcc :=
  if pyland e 0x10 != 0 && pyland e 0x40 != 0 then
    .error "character standing on the box"
  else pure acc

/-- One iteration of the `validate` scan body for the cell `(x, y)`.
The four neighbour reads of source line 148 are bound up front: the cell
has already passed the border check, so all four indices are in range and
Python's short-circuit cannot change which reads can fail. -/
def checkCell (w h : Nat) (a : List Int) (acc : ScanAcc) (x y : Int) :
    Except String ScanAcc := do
  let e ← elemA w a x y
  if e == 0 || e == -1 then pure acc   -- walls and invalid space are not interested
  else if pyland e 1 == 0 || pyland e (pynot 0x71) != 0 then
    .error "invalid element"
  else if x == 0 || x == (w : Int) - 1 || y == 0 || y == (h : Int) - 1 then
    .error "open space on the border"
  else do
    let nl ← elemA w a (x-1) y
    let nr ← elemA w a (x+1) y
    let nu ← elemA w a x (y-1)
    let nd ← elemA w a x (y+1)
    if pyland e 1 == 1 && (nl == -1 || nr == -1 || nu == -1 || nd == -1) then
      .error "open space adjacent to invalid"
    else do
      let acc := if pyland e 0x10 != 0 then
        { acc with total_character := acc.total_character + 1,
                   character := some (x, y) } else acc
      let acc := if pyland e 0x20 != 0 then
        { acc with total_dest := acc.total_dest + 1 } else acc
      if pyland e 0x40 != 0 then do
        let acc := { acc with total_box := acc.total_box + 1 }
        let acc := if pyland e 0x20 == 0 then
          { acc with total_unsolved := acc.total_unsolved + 1 } else acc
        let dc ← is_dead_cornerA w a x y
        if dc then .error "unmovable box"
        else charOnBoxCheck e acc
      else charOnBoxCheck e acc

def validateScan (w h : Nat) (a : List Int) : Except String ScanAcc :=
  (rasterCoords w h).foldlM (fun acc p => checkCell w h a acc p.1 p.2) initScanAcc

/-- The whole-board checks after the scan (source lines 171-181). -/
def validateTotals (acc : ScanAcc) : Except String Unit :=
  if acc.total_character != 1 then .error "number of characters incorrect"
  else if acc.total_box == 0 then .error "no boxes"
  else if acc.total_box != acc.total_dest then .error "boxes and destinations dont match"
  else pure ()

/-- `validate(no_update)`: on success returns the (possibly updated) map.
With `no_update = true` the recomputed totals must match the cached
fields; with `no_update = false` they become the cached fields.  The
`none` character case in the update branch is precluded by
`validateTotals` (`total_character == 1` forces a recorded position). -/
def skb_map.validate (b : skb_map) (no_update : Bool) : Except String skb_map := do
  let acc ← validateScan b.width b.height b.array
  validateTotals acc
  if no_update then
    if b.box != acc.total_box || b.dest != acc.total_dest ||
        b.unsolved != acc.total_unsolved then
      .error "inconsistent box and dest and unsolved count"
    else if some b.character != acc.character then
      .error "inconsistent character data"
    else pure b
  else
    match acc.character with
    | some c => pure { b with box := acc.total_box, dest := acc.total_dest,
                              unsolved := acc.total_unsolved, character := c }
    | none => .error "number of characters incorrect"

/-! ## `resolve_reachable`

The source empties a Python `set` in unspecified order.  The board stores
the result of the deterministic saturation below; the theorems for the
order-independence claim prove that every complete run of the source's
worklist loop (modelled as a step relation further down) produces exactly
this grid, so the choice of a canonical schedule loses nothing. -/

/-- Total cell read used by the deterministic saturation: out-of-grid
coordinates read as `0` (wall / unmarked), which the order-independence
proof shows is never consulted on a validated board. -/
def cellAt (w : Nat) (g : List Int) (x y : Int) : Int :=
  if 0 ≤ x ∧ x < (w : Int) ∧ 0 ≤ y then g.getD (x + y * (w : Int)).toNat 0 else 0

def isMarked (w : Nat) (g : List Int) (x y : Int) : Bool :=
  pyland (cellAt w g x y) 0x80 != 0

/-- Whether the worklist body would enqueue this cell value: not a wall,
not a box, not already marked reachable (`check_xy`, source line 207). -/
def floodEligible (t : Int) : Bool :=
  t != 0 && pyland t 0x40 == 0 && pyland t 0x80 == 0

/-- One monotone pass: mark every eligible cell adjacent to a marked one. -/
def floodPass (w h : Nat) (g : List Int) : List Int :=
  (rasterCoords w h).foldl (fun g p =>
    let t := cellAt w g p.1 p.2
    if floodEligible t &&
        (isMarked w g (p.1+1) p.2 || isMarked w g (p.1-1) p.2 ||
         isMarked w g p.1 (p.2+1) || isMarked w g p.1 (p.2-1)) then
      g.set (p.1 + p.2 * (w : Int)).toNat (pylor t 0x80)
    else g) g

/-- Iterate `floodPass` to its fixpoint (the passes are monotone, so a
pass that changes nothing ends the saturation); the fuel `w * h` always
suffices because each earlier pass marks at least one new cell. -/
def floodIter : Nat → Nat → Nat → List Int → List Int
  | 0, _, _, g => g
  | n + 1, w, h, g =>
    let g' := floodPass w h g
    if g' == g then g else floodIter n w h g'

/-- `resolve_reachable` on the raw fields: copy the array, clear the
character flag at the character cell, mark that cell (the first pop of the
worklist marks it unconditionally), then saturate. -/
def resolve_reachableA (w h : Nat) (a : List Int) (c : Int × Int) :
    Except String (List Int) := do
  let i := c.1 + c.2 * (w : Int)
  let v ← pyGet a i
  let g ← pySet a i (pyland v (pynot 0x10))
  let v1 ← pyGet g i
  let g ← pySet g i (pylor v1 0x80)
  pure (floodIter (w * h) w h g)

/-- `self.width`: the length of the widest row. -/
def gridWidth (mapl : List (List Int)) : Nat :=
  mapl.foldl (fun w r => max w r.length) 0

/-- The flattened cell array: every row right-padded to `gridWidth` with `-1`. -/
def gridFlat (mapl : List (List Int)) : List Int :=
  mapl.flatMap (fun r => r ++ List.replicate (gridWidth mapl - r.length) (-1))

/-- Board construction (`__init__`): derive the dimensions, right-pad the
short rows with `-1`, flatten, validate (populating the cached fields) and
resolve reachability. -/
def skb_map.init (mapl : List (List Int)) : Except String skb_map := do
  let height := mapl.length
  let width := gridWidth mapl
  let flat := gridFlat mapl
  let acc ← validateScan width height flat
  validateTotals acc
  match acc.character with
  | some c => do
      let reach ← resolve_reachableA width height flat c
      pure { width := width, height := height, array := flat,
             box := acc.total_box, dest := acc.total_dest,
             unsolved := acc.total_unsolved, character := c,
             reachable := reach }
  | none => .error "number of characters incorrect"

/-! ## `find_all_possible_moves` -/

/-- One direction's condition
`is_reachable(r) and not is_blocked(t) and not is_dead_corner(t)`,
with Python's short-circuit evaluation. -/
def moveChecks (b : skb_map) (rx ry tx ty : Int) : Except String Bool := do
  let r ← b.is_reachable rx ry
  if !r then pure false
  else do
    let bl ← b.is_blocked tx ty
    if bl then pure false
    else do
      let dc ← b.is_dead_corner tx ty
      pure !dc

/-- The body of the raster loop for one cell: skip unless the cell is a box
(`element == -1 or (element & 0x40) == 0` skips), then try the four
directions in UP, RIGHT, DOWN, LEFT order. -/
def cellMoves (b : skb_map) (x y : Int) : Except String (List (Int × Int × Dir)) := do
  let e ← b.element x y
  if e == -1 || pyland e 0x40 == 0 then pure []   -- not a box
  else do
    let u ← moveChecks b x (y+1) x (y-1)
    let r ← moveChecks b (x-1) y (x+1) y
    let d ← moveChecks b x (y-1) x (y+1)
    let l ← moveChecks b (x+1) y (x-1) y
    pure ((if u then [(x, y, Dir.UP)] else []) ++
          (if r then [(x, y, Dir.RIGHT)] else []) ++
          (if d then [(x, y, Dir.DOWN)] else []) ++
          (if l then [(x, y, Dir.LEFT)] else []))

def skb_map.find_all_possible_moves (b : skb_map) :
    Except String (List (Int × Int × Dir)) :=
  (rasterCoords b.width b.height).foldlM (fun ms p => do
    let cm ← cellMoves b p.1 p.2
    pure (ms ++ cm)) []

/-! ## `create_new_map_by_move`

`copy.deepcopy` duplicates every field by value, so the embedding starts
from the input record and threads the updates; the `else` arm of the
direction dispatch ("bad move direction") is unreachable here because
`Dir` has exactly the four constructors. -/

def skb_map.create_new_map_by_move (b : skb_map) (x y : Int) (direction : Dir) :
    Except String skb_map := do
  -- 0. minimal sanity check only
  let e ← b.element x y
  if pyland e 0x40 == 0 then .error "bad move attemp"
  else do
    -- 1. erase character
    let nm := b
    let ec ← nm.element nm.character.1 nm.character.2
    let nm ← nm.update_element nm.character.1 nm.character.2 (pyland ec (pynot 0x10))
    -- 2. clear the box; moving off a destination bumps unsolved
    let e2 ← nm.element x y
    let nm ← nm.update_element x y (pyland e2 (pynot 0x40))
    let e3 ← nm.element x y
    let nm := if pyland e3 0x20 != 0 then { nm with unsolved := nm.unsolved + 1 } else nm
    -- 3. place the box at the new location
    let nx := match direction with | .RIGHT => x + 1 | .LEFT => x - 1 | _ => x
    let ny := match direction with | .UP => y - 1 | .DOWN => y + 1 | _ => y
    let e4 ← nm.element nx ny
    let nm ← nm.update_element nx ny (pylor e4 0x40)
    let e5 ← nm.element nx ny
    let nm := if pyland e5 0x20 != 0 then { nm with unsolved := nm.unsolved - 1 } else nm
    -- 4. new character position, recompute reachability, re-validate
    let nm := { nm with character := (x, y) }
    let e6 ← nm.element x y
    let nm ← nm.update_element x y (pylor e6 0x10)
    let reach ← resolve_reachableA nm.width nm.height nm.array nm.character
    let nm := { nm with reachable := reach }
    nm.validate true

/-! Smoke tests on a minimal board: a 5x3 corridor with the character at
(1,1), a box at (2,1) and the destination at (3,1). -/

def tinyGrid : List (List Int) :=
  [[0, 0, 0, 0, 0],
   [0, 0x11, 0x41, 0x21, 0],
   [0, 0, 0, 0, 0]]

example : (skb_map.init tinyGrid).toOption.map skb_map.unsolved = some 1 := by decide

example : (skb_map.init tinyGrid).toOption.map skb_map.character = some (1, 1) := by decide

example : ((skb_map.init tinyGrid).bind skb_map.find_all_possible_moves).toOption =
    some [(2, 1, Dir.RIGHT)] := by decide

example : ((skb_map.init tinyGrid).bind
    (fun b => skb_map.create_new_map_by_move b 2 1 Dir.RIGHT)).toOption.map
    skb_map.completed = some true := by decide

/-! ## The search engine (`find_skb_map_solutions`)

Each level of the explicit stack is `[skbmap, all_moves, current move]`.
The stack grows at the Python list's end; here the top of the stack is the
head of `history`.  `produced` is ghost instrumentation recording every
child board the transition creates, in creation order, so that the final
`frames seen` counter can be compared against the distinct canonical
states produced; it influences nothing. -/

structure Frame where
  board : skb_map
  all_moves : List (Int × Int × Dir)
  cur : Int
deriving DecidableEq, Repr

structure SearchState where
  history : List Frame
  seen : List skb_map
  moves : Nat
  solutions : Nat
  produced : List skb_map
deriving DecidableEq, Repr

/-- One iteration of the `while history:` loop.  On an empty stack the loop
has exited and the step is the identity. -/
def searchStep (s : SearchState) : Except String SearchState :=
  match s.history with
  | [] => .ok s
  | h :: rest =>
    -- h[2] += 1: ready to try next move
    let cursor := h.cur + 1
    if (h.all_moves.length : Int) ≤ cursor then
      .ok { s with history := rest }   -- done with this layer: backtrack
    else
      match h.all_moves.getD cursor.toNat (0, 0, Dir.UP) with
      | (x, y, dir) => do
        let nm ← h.board.create_new_map_by_move x y dir
        let solutions := if nm.completed then s.solutions + 1 else s.solutions
        let hist1 := { h with cur := cursor } :: rest
        if s.seen.any (fun t => nm.compare t) then
          -- already seen this frame, not a valid path
          .ok { s with history := hist1, moves := s.moves + 1,
                       solutions := solutions, produced := s.produced ++ [nm] }
        else
          let seen1 := s.seen ++ [nm]
          if nm.completed then
            -- recorded as seen but not expanded further
            .ok { s with history := hist1, seen := seen1, moves := s.moves + 1,
                         solutions := solutions, produced := s.produced ++ [nm] }
          else do
            let ms ← nm.find_all_possible_moves
            .ok { s with history := { board := nm, all_moves := ms, cur := -1 } :: hist1,
                         seen := seen1, moves := s.moves + 1,
                         solutions := solutions, produced := s.produced ++ [nm] }

/-- The state just before the loop (the `already resolved` early return is
handled at theorem level by a `completed = false` hypothesis). -/
def initSearchState (skbmap : skb_map) : Except String SearchState := do
  let ms ← skbmap.find_all_possible_moves
  pure { history := [{ board := skbmap, all_moves := ms, cur := -1 }],
         seen := [skbmap], moves := 0, solutions := 0, produced := [] }

/-- Run `n` loop iterations (the loop stops by itself on an empty stack). -/
def searchRun : Nat → SearchState → Except String SearchState
  | 0, s => .ok s
  | n + 1, s => do searchRun n (← searchStep s)

/-! ## The worklist of `resolve_reachable` as a nondeterministic relation

`todo` is a Python `set`; `todo.pop()` removes an unspecified element, so
one loop iteration is a relation indexed by the popped coordinate. -/

structure FloodCfg where
  grid : List Int
  todo : Finset (Int × Int)
deriving DecidableEq

/-- `check_xy` (source lines 205-208): enqueue a neighbour that is not a
wall, not boxed and not already counted as reachable. -/
def checkXY (w : Nat) (g : List Int) (todo : Finset (Int × Int)) (x y : Int) :
    Except String (Finset (Int × Int)) := do
  let t ← pyGet g (x + y * (w : Int))
  if t != 0 && pyland t 0x40 == 0 && pyland t 0x80 == 0 then
    pure (insert (x, y) todo)
  else pure todo

/-- One worklist iteration popping the coordinate `p`: mark it reachable
and offer its four neighbours. -/
def floodStep (w : Nat) (cfg : FloodCfg) (p : Int × Int) :
    Except String FloodCfg := do
  let todo := cfg.todo.erase p
  let i := p.1 + p.2 * (w : Int)
  let t0 ← pyGet cfg.grid i
  let g ← pySet cfg.grid i (pylor t0 0x80)
  let todo ← checkXY w g todo (p.1 + 1) p.2
  let todo ← checkXY w g todo (p.1 - 1) p.2
  let todo ← checkXY w g todo p.1 (p.2 + 1)
  let todo ← checkXY w g todo p.1 (p.2 - 1)
  pure { grid := g, todo := todo }

/-- The configuration entering the loop: a copy of the cell array with the
character flag cleared at the character cell, and `todo = {character}`. -/
def floodInitCfg (w : Nat) (a : List Int) (c : Int × Int) :
    Except String FloodCfg := do
  let i := c.1 + c.2 * (w : Int)
  let v ← pyGet a i
  let g ← pySet a i (pyland v (pynot 0x10))
  pure { grid := g, todo := {c} }

/-- One loop iteration, popping some element of `todo`. -/
def FloodStepRel (w : Nat) (c c' : FloodCfg) : Prop :=
  ∃ p ∈ c.todo, floodStep w c p = .ok c'

/-- `CompleteRun w c₀ c`: the loop, scheduled somehow, runs from `c₀` to
`c` and exits (empty worklist). -/
def CompleteRun (w : Nat) (c₀ c : FloodCfg) : Prop :=
  Relation.ReflTransGen (FloodStepRel w) c₀ c ∧ c.todo = ∅

/-! ## Spec-side characterization of legal moves (claim C4)

Written from the spec's words: a raster scan, and per box cell the four
directions in UP, RIGHT, DOWN, LEFT order, a direction being legal iff the
opposite cell is reachable, the destination cell is not blocked and the
destination cell is not a dead corner. -/

def isOkTrue : Except String Bool → Bool
  | .ok true => true
  | _ => false

def isOkFalse : Except String Bool → Bool
  | .ok false => true
  | _ => false

/-- The cell the character must stand on to push in direction `d`. -/
def oppositeCell (x y : Int) (d : Dir) : Int × Int :=
  match d with
  | .UP => (x, y + 1)
  | .RIGHT => (x - 1, y)
  | .DOWN => (x, y - 1)
  | .LEFT => (x + 1, y)

/-- The cell the box is pushed into. -/
def targetCell (x y : Int) (d : Dir) : Int × Int :=
  match d with
  | .UP => (x, y - 1)
  | .RIGHT => (x + 1, y)
  | .DOWN => (x, y + 1)
  | .LEFT => (x - 1, y)

/-- The cell at `(x, y)` holds a box: a readable cell that is not the
invalid sentinel and carries the box flag. -/
def holdsBox (b : skb_map) (x y : Int) : Bool :=
  match b.element x y with
  | .ok e => e != -1 && pyland e 0x40 != 0
  | .error _ => false

def legalMoveSpec (b : skb_map) (x y : Int) (d : Dir) : Bool :=
  holdsBox b x y &&
  isOkTrue (b.is_reachable (oppositeCell x y d).1 (oppositeCell x y d).2) &&
  isOkFalse (b.is_blocked (targetCell x y d).1 (targetCell x y d).2) &&
  isOkFalse (b.is_dead_corner (targetCell x y d).1 (targetCell x y d).2)

def legalMovesSpec (b : skb_map) : List (Int × Int × Dir) :=
  (rasterCoords b.width b.height).flatMap (fun p =>
    ([Dir.UP, Dir.RIGHT, Dir.DOWN, Dir.LEFT].filter
      (fun d => legalMoveSpec b p.1 p.2 d)).map (fun d => (p.1, p.2, d)))

/-! ## Object-store model of the state transition (claim C9)

The frame-effect claim is about Python aliasing, so for it the transition
is replayed against an explicit object store: boards live at addresses,
`copy.deepcopy(self)` allocates a fresh object whose fields are copied by
value, and every subsequent write of the body goes through the new
object's address.  The claim's content is then that the object at the
original address is untouched and that the fresh object is exactly the
value the pure transition computes. -/

def defaultMap : skb_map :=
  { width := 0, height := 0, array := [], box := 0, dest := 0, unsolved := 0,
    character := (0, 0), reachable := [] }

def objGet (store : List skb_map) (r : Nat) : skb_map :=
  store.getD r defaultMap

/-- `create_new_map_by_move` replayed on an object store; returns the
updated store and the address of the new board. -/
def create_new_map_by_move_heap (store : List skb_map) (selfRef : Nat)
    (x y : Int) (direction : Dir) : Except String (List skb_map × Nat) := do
  -- 0. new_map = copy.deepcopy(self): a fresh object, fields copied by value
  let nmRef := store.length
  let store := store ++ [objGet store selfRef]
  let nm0 := objGet store nmRef
  let e ← nm0.element x y
  if pyland e 0x40 == 0 then .error "bad move attemp"
  else do
    -- 1. erase character
    let ec ← nm0.element nm0.character.1 nm0.character.2
    let nm1 ← nm0.update_element nm0.character.1 nm0.character.2 (pyland ec (pynot 0x10))
    let store := store.set nmRef nm1
    -- 2. clear the box
    let e2 ← nm1.element x y
    let nm2 ← nm1.update_element x y (pyland e2 (pynot 0x40))
    let e3 ← nm2.element x y
    let nm2 := if pyland e3 0x20 != 0 then
      { nm2 with unsolved := nm2.unsolved + 1 } else nm2
    let store := store.set nmRef nm2
    -- 3. place the box
    let nx := match direction with | .RIGHT => x + 1 | .LEFT => x - 1 | _ => x
    let ny := match direction with | .UP => y - 1 | .DOWN => y + 1 | _ => y
    let e4 ← nm2.element nx ny
    let nm3 ← nm2.update_element nx ny (pylor e4 0x40)
    let e5 ← nm3.element nx ny
    let nm3 := if pyland e5 0x20 != 0 then
      { nm3 with unsolved := nm3.unsolved - 1 } else nm3
    let store := store.set nmRef nm3
    -- 4. character position, reachability, re-validation
    let nm4 := { nm3 with character := (x, y) }
    let e6 ← nm4.element x y
    let nm5 ← nm4.update_element x y (pylor e6 0x10)
    let reach ← resolve_reachableA nm5.width nm5.height nm5.array nm5.character
    let nm5 := { nm5 with reachable := reach }
    let nm5 ← nm5.validate true
    let store := store.set nmRef nm5
    pure (store, nmRef)

/-! ## Concrete boards used as witnesses -/

/-- The board value `skb_map.init` builds from `tinyGrid`. -/
def tinyMap : skb_map :=
  { width := 5, height := 3,
    array := [0,0,0,0,0, 0,0x11,0x41,0x21,0, 0,0,0,0,0],
    box := 1, dest := 1, unsolved := 1, character := (1, 1),
    reachable := [0,0,0,0,0, 0,0x81,0x41,0x21,0, 0,0,0,0,0] }

theorem tinyMap_init : skb_map.init tinyGrid = .ok tinyMap := by rfl

/-- The board after pushing the tiny board's box onto its destination. -/
def solvedTiny : skb_map :=
  { width := 5, height := 3,
    array := [0,0,0,0,0, 0,1,0x11,0x61,0, 0,0,0,0,0],
    box := 1, dest := 1, unsolved := 0, character := (2, 1),
    reachable := [0,0,0,0,0, 0,0x81,0x81,0x61,0, 0,0,0,0,0] }

theorem tinyMap_move : tinyMap.create_new_map_by_move 2 1 Dir.RIGHT = .ok solvedTiny := by rfl

/-! ## Basic indexing lemmas -/

theorem pyGet_ok (l : List Int) (i : Int) (h0 : 0 ≤ i) (h1 : i < (l.length : Int)) :
    pyGet l i = .ok (l.getD i.toNat 0) := by
  unfold pyGet
  rw [if_pos ⟨h0, h1⟩]

theorem pySet_ok (l : List Int) (i : Int) (v : Int) (h0 : 0 ≤ i) (h1 : i < (l.length : Int)) :
    pySet l i v = .ok (l.set i.toNat v) := by
  unfold pySet
  rw [if_pos ⟨h0, h1⟩]

/-- In-bounds coordinates of a `w × h` grid. -/
def InB (w h : Nat) (x y : Int) : Prop :=
  0 ≤ x ∧ x < (w : Int) ∧ 0 ≤ y ∧ y < (h : Int)

theorem idx_nonneg {w h : Nat} {x y : Int} (hb : InB w h x y) : 0 ≤ x + y * w := by
  obtain ⟨h1, _, h3, _⟩ := hb
  have : 0 ≤ y * (w : Int) := mul_nonneg h3 (by positivity)
  omega

theorem idx_lt {w h : Nat} {x y : Int} (hb : InB w h x y) :
    x + y * w < ((w * h : Nat) : Int) := by
  obtain ⟨h1, h2, h3, h4⟩ := hb
  have hy : y ≤ (h : Int) - 1 := by omega
  have : y * (w : Int) ≤ ((h : Int) - 1) * w :=
    mul_le_mul_of_nonneg_right hy (by positivity)
  push_cast
  nlinarith

theorem idx_inj {w h : Nat} {x y x' y' : Int} (hb : InB w h x y) (hb' : InB w h x' y')
    (he : x + y * w = x' + y' * w) : x = x' ∧ y = y' := by
  obtain ⟨h1, h2, h3, h4⟩ := hb
  obtain ⟨h1', h2', h3', h4'⟩ := hb'
  have hw : (0 : Int) < w := lt_of_le_of_lt h1 h2
  have hx : (x + y * w) % w = x := by
    rw [Int.add_mul_emod_self]
    exact Int.emod_eq_of_lt h1 h2
  have hx' : (x' + y' * w) % w = x' := by
    rw [Int.add_mul_emod_self]
    exact Int.emod_eq_of_lt h1' h2'
  have hxx : x = x' := by rw [← hx, ← hx', he]
  refine ⟨hxx, ?_⟩
  have : y * w = y' * w := by omega
  exact mul_right_cancel₀ (by omega) this

/-! ## Claim C5 -/

/-- Claim C5, counterexample: on the tiny board (width 5), reading the
out-of-bounds coordinate `(5, 0)` does not return the invalid sentinel
`-1`; it succeeds and returns `0`, the wall value of the different cell
`(0, 1)` that lives at the same flat index. -/
theorem sokoban_C5_counterexample :
    tinyMap.element 5 0 = .ok 0 ∧ tinyMap.element 5 0 ≠ .ok (-1) := by
  refine ⟨by rfl, fun hcon => ?_⟩
  rw [show tinyMap.element 5 0 = Except.ok 0 from rfl] at hcon
  simp at hcon

/-- Claim C5 (amended): `element` performs no bounds check; it applies
Python list indexing to the flat index `x + y * width`.  Reading the
out-of-bounds coordinate `(width, 0)` on any board whose flat array has
the nominal `width * height` size with `width ≥ 1`, `height ≥ 2` therefore
succeeds and returns the value of the different cell `(0, 1)` — not the
invalid sentinel. -/
theorem sokoban_C5 (b : skb_map) (hlen : b.array.length = b.width * b.height)
    (hw : 1 ≤ b.width) (hh : 2 ≤ b.height) :
    b.element (b.width : Int) 0 = .ok (b.array.getD b.width 0) ∧
    b.element (b.width : Int) 0 = b.element 0 1 := by
  have hidx : ((b.width : Int) + 0 * (b.width : Int)) = ((b.width : Nat) : Int) := by ring
  have hlt : ((b.width : Nat) : Int) < (b.array.length : Int) := by
    rw [hlen]
    have : b.width * 1 < b.width * b.height := by
      apply Nat.mul_lt_mul_of_le_of_lt (le_refl _) (by omega)
      omega
    push_cast
    omega
  constructor
  · show pyGet b.array ((b.width : Int) + 0 * (b.width : Int)) = _
    rw [hidx, pyGet_ok _ _ (by positivity) hlt]
    simp
  · show pyGet b.array ((b.width : Int) + 0 * (b.width : Int)) =
      pyGet b.array (0 + 1 * (b.width : Int))
    congr 1
    ring

theorem sokoban_C5_witness :
    tinyMap.element (tinyMap.width : Int) 0 = .ok (tinyMap.array.getD tinyMap.width 0) ∧
    tinyMap.element (tinyMap.width : Int) 0 = tinyMap.element 0 1 :=
  sokoban_C5 tinyMap (by decide) (by decide) (by decide)

/-! ## Claim C6 -/

/-- Claim C6: for every board and every readable cell whose value carries
the destination flag `0x20`, `is_dead_corner` returns `false` no matter
what surrounds the cell. -/
theorem sokoban_C6 (b : skb_map) (x y e : Int) (he : b.element x y = .ok e)
    (hd : pyland e 0x20 ≠ 0) : b.is_dead_corner x y = .ok false := by
  have he' : elemA b.width b.array x y = .ok e := he
  simp [skb_map.is_dead_corner, is_dead_cornerA, he', hd, Bind.bind, Except.bind,
    pure, Except.pure]

theorem sokoban_C6_witness : tinyMap.is_dead_corner 3 1 = .ok false :=
  sokoban_C6 tinyMap 3 1 0x21 (by rfl) (by decide)

/-! ## Claim C9: the transition leaves its input untouched -/

theorem objGet_append_self (store : List skb_map) (o : skb_map) :
    objGet (store ++ [o]) store.length = o := by
  simp [objGet, List.getD, List.getElem?_append_right (le_refl store.length)]

theorem except_map_bind {α β γ : Type} (x : Except String α) (g : α → Except String β)
    (m : β → γ) : (x >>= g).map m = x >>= fun a => (g a).map m := by
  cases x <;> rfl

theorem except_bind_congr {α β : Type} {x : Except String α} {f g : α → Except String β}
    (h : ∀ a, f a = g a) : x >>= f = x >>= g := by
  cases x <;> simp [Bind.bind, Except.bind, h]

theorem except_bind_pure {α β : Type} (x : Except String α) (f : α → β) :
    (x >>= fun a => pure (f a)) = x.map f := by
  cases x <;> rfl

theorem except_map_congr {α β : Type} {x : Except String α} {f g : α → β}
    (h : ∀ a, f a = g a) : x.map f = x.map g := by
  cases x <;> simp [Except.map, h]

theorem create_heap_eq (store : List skb_map) (selfRef : Nat) (x y : Int) (d : Dir) :
    create_new_map_by_move_heap store selfRef x y d =
      ((objGet store selfRef).create_new_map_by_move x y d).map
        (fun nm => ((store ++ [objGet store selfRef]).set store.length nm, store.length)) := by
  unfold create_new_map_by_move_heap skb_map.create_new_map_by_move
  dsimp only
  rw [objGet_append_self]
  simp only [except_map_bind, apply_ite (Except.map _), Except.map_error]
  refine except_bind_congr fun e => ?_
  by_cases hc1 : (pyland e 0x40 == 0) = true
  · simp [hc1, Except.map]
  · simp only [Bool.not_eq_true] at hc1
    simp only [hc1, Bool.false_eq_true, if_false]
    refine except_bind_congr fun ec => ?_
    refine except_bind_congr fun nm1 => ?_
    refine except_bind_congr fun e2 => ?_
    refine except_bind_congr fun nm2 => ?_
    refine except_bind_congr fun e3 => ?_
    refine except_bind_congr fun e4 => ?_
    refine except_bind_congr fun nm3 => ?_
    refine except_bind_congr fun e5 => ?_
    refine except_bind_congr fun e6 => ?_
    refine except_bind_congr fun nm5 => ?_
    refine except_bind_congr fun reach => ?_
    rw [except_bind_pure]
    apply except_map_congr
    intro v
    simp [List.set_set]

theorem objGet_set_ne (s : List skb_map) (n m : Nat) (v : skb_map) (h : n ≠ m) :
    objGet (s.set n v) m = objGet s m := by
  simp [objGet, List.getD, List.getElem?_set_ne h]

theorem objGet_set_self (s : List skb_map) (n : Nat) (v : skb_map) (h : n < s.length) :
    objGet (s.set n v) n = v := by
  simp [objGet, List.getD, List.getElem?_set_eq_of_lt _ h]

theorem objGet_append_left (s t : List skb_map) (n : Nat) (h : n < s.length) :
    objGet (s ++ t) n = objGet s n := by
  simp [objGet, List.getD, List.getElem?_append_left h]

/-- Claim C9: replaying the transition against an explicit object store,
the object at the original board's address is untouched (its cell array,
cached counts, character position and reachability grid are all the ones
it had before the call), the returned address is a fresh one, and the
object there is exactly the value the pure transition computes. -/
theorem sokoban_C9 (store : List skb_map) (selfRef : Nat) (x y : Int) (d : Dir)
    (href : selfRef < store.length) (store' : List skb_map) (nmRef : Nat)
    (hok : create_new_map_by_move_heap store selfRef x y d = .ok (store', nmRef)) :
    objGet store' selfRef = objGet store selfRef ∧ nmRef ≠ selfRef ∧
    (objGet store selfRef).create_new_map_by_move x y d = .ok (objGet store' nmRef) := by
  rw [create_heap_eq] at hok
  cases hcv : (objGet store selfRef).create_new_map_by_move x y d with
  | error err => rw [hcv] at hok; simp [Except.map] at hok
  | ok nm =>
    rw [hcv] at hok
    simp only [Except.map, Except.ok.injEq, Prod.mk.injEq] at hok
    obtain ⟨hs, hr⟩ := hok
    refine ⟨?_, ?_, ?_⟩
    · rw [← hs, objGet_set_ne _ _ _ _ (by omega),
        objGet_append_left _ _ _ (by omega)]
    · omega
    · rw [← hs, ← hr, objGet_set_self _ _ _ (by simp)]

theorem sokoban_C9_witness :
    objGet [tinyMap, solvedTiny] 0 = objGet [tinyMap] 0 ∧ (1 : Nat) ≠ 0 ∧
    (objGet [tinyMap] 0).create_new_map_by_move 2 1 Dir.RIGHT =
      .ok (objGet [tinyMap, solvedTiny] 1) :=
  sokoban_C9 [tinyMap] 0 2 1 Dir.RIGHT (by decide) [tinyMap, solvedTiny] 1 (by rfl)

/-! ## The possible values of a cell that passes the flag checks -/

def validOpenVals : List Int := [0x01, 0x11, 0x21, 0x31, 0x41, 0x51, 0x61, 0x71]

theorem pyland_neg_negmask {a : Int} (ha : a < 0) : pyland a (pynot 0x71) ≠ 0 := by
  unfold pyland
  rw [if_neg (by omega)]
  rw [if_neg (by norm_num [pynot])]
  intro h
  have := Int.ofNat_nonneg (nbitOr (max (pynot a).toNat (pynot (pynot 0x71)).toNat + 1)
    (pynot a).toNat (pynot (pynot 0x71)).toNat)
  simp [pynot] at h ⊢
  omega

theorem nbitDiff_zero_le : ∀ (f a b : Nat), nbitDiff f a b = 0 → a < 2 ^ f → a ≤ b := by
  intro f
  induction f with
  | zero => intro a b _ ha; simp at ha; omega
  | succ n ih =>
    intro a b hd ha
    by_cases h0 : a = 0
    · omega
    · rw [nbitDiff, if_neg h0] at hd
      have h1 : a % 2 * (1 - b % 2) = 0 ∧ nbitDiff n (a / 2) (b / 2) = 0 := by omega
      have hp : 2 ^ (n + 1) = 2 * 2 ^ n := by rw [Nat.pow_succ]; ring
      have h2 : a / 2 ≤ b / 2 := ih (a / 2) (b / 2) h1.2 (by omega)
      have h3 : a % 2 ≤ b % 2 := by
        rcases Nat.mod_two_eq_zero_or_one a with h | h <;>
          rcases Nat.mod_two_eq_zero_or_one b with h' | h' <;>
            rw [h, h'] at h1 ⊢ <;> omega
      omega

theorem pyland_negmask_le {a : Int} (ha : 0 ≤ a) (h : pyland a (pynot 0x71) = 0) :
    a ≤ 0x71 := by
  unfold pyland at h
  rw [if_pos ha, if_neg (by norm_num [pynot])] at h
  have hd : nbitDiff (max a.toNat (pynot (pynot 0x71)).toNat + 1) a.toNat
      (pynot (pynot 0x71)).toNat = 0 := by
    simpa using h
  have hle : a.toNat ≤ (pynot (pynot 0x71)).toNat := by
    apply nbitDiff_zero_le _ _ _ hd
    calc a.toNat < 2 ^ a.toNat := Nat.lt_two_pow _
    _ ≤ 2 ^ (max a.toNat (pynot (pynot 0x71)).toNat + 1) :=
        Nat.pow_le_pow_right (by omega) (by omega)
  simp [pynot] at hle
  omega

theorem validOpen_mem_aux :
    ∀ e ∈ Finset.Icc (0 : Int) 0x71,
      pyland e 1 ≠ 0 → pyland e (pynot 0x71) = 0 → e ∈ validOpenVals := by
  decide

theorem validOpen_mem {e : Int} (h1 : pyland e 1 ≠ 0) (h2 : pyland e (pynot 0x71) = 0) :
    e ∈ validOpenVals := by
  by_cases hneg : e < 0
  · exact absurd h2 (pyland_neg_negmask hneg)
  · exact validOpen_mem_aux e (Finset.mem_Icc.mpr ⟨by omega, pyland_negmask_le (by omega) h2⟩) h1 h2

/-! ## Accumulator-free form of the scan body

`checkCell` factors as: an accumulator-independent classification of the
cell (`cellData`, which also carries every error branch) followed by a
pure update of the running totals (`applyCell`). -/

def cellData (w h : Nat) (a : List Int) (x y : Int) :
    Except String (Option (Bool × Bool × Bool)) := do
  let e ← elemA w a x y
  if e == 0 || e == -1 then pure none
  else if pyland e 1 == 0 || pyland e (pynot 0x71) != 0 then
    .error "invalid element"
  else if x == 0 || x == (w : Int) - 1 || y == 0 || y == (h : Int) - 1 then
    .error "open space on the border"
  else do
    let nl ← elemA w a (x-1) y
    let nr ← elemA w a (x+1) y
    let nu ← elemA w a x (y-1)
    let nd ← elemA w a x (y+1)
    if pyland e 1 == 1 && (nl == -1 || nr == -1 || nu == -1 || nd == -1) then
      .error "open space adjacent to invalid"
    else if pyland e 0x40 != 0 then do
      let dc ← is_dead_cornerA w a x y
      if dc then .error "unmovable box"
      else if pyland e 0x10 != 0 && pyland e 0x40 != 0 then
        .error "character standing on the box"
      else pure (some (pyland e 0x10 != 0, pyland e 0x20 != 0, true))
    else if pyland e 0x10 != 0 && pyland e 0x40 != 0 then
      .error "character standing on the box"
    else pure (some (pyland e 0x10 != 0, pyland e 0x20 != 0, false))

def applyCell (acc : ScanAcc) (x y : Int) : Option (Bool × Bool × Bool) → ScanAcc
  | none => acc
  | some (cf, df, bf) =>
    let acc := if cf then
      { acc with total_character := acc.total_character + 1,
                 character := some (x, y) } else acc
    let acc := if df then { acc with total_dest := acc.total_dest + 1 } else acc
    if bf then
      let acc := { acc with total_box := acc.total_box + 1 }
      if !df then { acc with total_unsolved := acc.total_unsolved + 1 } else acc
    else acc

theorem checkCell_eq (w h : Nat) (a : List Int) (acc : ScanAcc) (x y : Int) :
    checkCell w h a acc x y = (cellData w h a x y).map (applyCell acc x y) := by
  unfold checkCell cellData
  cases he : elemA w a x y with
  | error err => simp [Bind.bind, Except.bind, Except.map]
  | ok e =>
    simp only [Bind.bind, Except.bind]
    by_cases h1 : (e == 0 || e == -1) = true
    · simp [h1, Except.map, applyCell, pure, Except.pure]
    · simp only [Bool.not_eq_true] at h1
      simp only [h1, Bool.false_eq_true, if_false]
      by_cases h2 : (pyland e 1 == 0 || pyland e (pynot 0x71) != 0) = true
      · simp [h2, Except.map]
      · simp only [Bool.not_eq_true] at h2
        simp only [h2, Bool.false_eq_true, if_false]
        by_cases h3 : (x == 0 || x == (w : Int) - 1 || y == 0 || y == (h : Int) - 1) = true
        · simp [h3, Except.map]
        · simp only [Bool.not_eq_true] at h3
          simp only [h3, Bool.false_eq_true, if_false]
          cases hl : elemA w a (x-1) y with
          | error err => simp [Bind.bind, Except.bind, Except.map]
          | ok nl =>
            simp only [Bind.bind, Except.bind]
            cases hr : elemA w a (x+1) y with
            | error err => simp [Bind.bind, Except.bind, Except.map]
            | ok nr =>
              simp only [Bind.bind, Except.bind]
              cases hu : elemA w a x (y-1) with
              | error err => simp [Bind.bind, Except.bind, Except.map]
              | ok nu =>
                simp only [Bind.bind, Except.bind]
                cases hd : elemA w a x (y+1) with
                | error err => simp [Bind.bind, Except.bind, Except.map]
                | ok nd =>
                  simp only [Bind.bind, Except.bind]
                  by_cases h4 : (pyland e 1 == 1 &&
                      (nl == -1 || nr == -1 || nu == -1 || nd == -1)) = true
                  · simp [h4, Except.map]
                  · simp only [Bool.not_eq_true] at h4
                    simp only [h4, Bool.false_eq_true, if_false]
                    by_cases h5 : (pyland e 0x40 != 0) = true
                    · simp only [h5, if_true]
                      cases hdc : is_dead_cornerA w a x y with
                      | error err => simp [Bind.bind, Except.bind, Except.map]
                      | ok dc =>
                        simp only [Bind.bind, Except.bind]
                        by_cases h6 : dc = true
                        · simp [h6, Except.map]
                        · simp only [Bool.not_eq_true] at h6
                          simp only [h6, Bool.false_eq_true, if_false]
                          by_cases h7 : (pyland e 0x10 != 0 && pyland e 0x40 != 0) = true
                          · simp only [Bool.and_eq_true, bne_iff_ne] at h7
                            simp [charOnBoxCheck, Except.map, h7.1, h7.2]
                          · simp only [Bool.not_eq_true] at h7
                            simp only [charOnBoxCheck, h7, Bool.false_eq_true, if_false]
                            by_cases hdst : pyland e 0x20 = 0 <;>
                              by_cases hch : pyland e 0x10 = 0 <;>
                                simp_all [Except.map, applyCell, pure, Except.pure,
                                  bne_iff_ne]
                    · simp only [Bool.not_eq_true] at h5
                      simp only [h5, Bool.false_eq_true, if_false]
                      by_cases h7 : (pyland e 0x10 != 0 && pyland e 0x40 != 0) = true
                      · simp only [Bool.and_eq_true, bne_iff_ne] at h7
                        simp [bne_iff_ne] at h5
                        exact absurd h5 h7.2
                      · simp only [Bool.not_eq_true] at h7
                        simp only [charOnBoxCheck, h7, Bool.false_eq_true, if_false]
                        by_cases hdst : pyland e 0x20 = 0 <;>
                          by_cases hch : pyland e 0x10 = 0 <;>
                            simp [Except.map, applyCell, pure, Except.pure,
                              hdst, hch, bne_iff_ne]

/-! ## Generic lemmas for `foldlM` over `Except` -/

theorem foldlM_map_eq_ok {α β γ : Type} (l : List α) (dataF : α → Except String β)
    (g : γ → α → β → γ) (init : γ) (dv : α → β)
    (hall : ∀ p ∈ l, dataF p = .ok (dv p)) :
    l.foldlM (fun acc p => (dataF p).map (g acc p)) init =
      .ok (l.foldl (fun acc p => g acc p (dv p)) init) := by
  induction l generalizing init with
  | nil => rfl
  | cons a l ih =>
    have ha : dataF a = .ok (dv a) := hall a (List.mem_cons_self a l)
    simp only [List.foldlM_cons, ha, Except.map, List.foldl_cons]
    exact ih _ (fun p hp => hall p (List.mem_cons_of_mem a hp))

theorem foldlM_map_ok_forall {α β γ : Type} (l : List α) (dataF : α → Except String β)
    (g : γ → α → β → γ) (init : γ) (r : γ)
    (hok : l.foldlM (fun acc p => (dataF p).map (g acc p)) init = .ok r) :
    ∀ p ∈ l, ∃ v, dataF p = .ok v := by
  induction l generalizing init with
  | nil => simp
  | cons a l ih =>
    intro p hp
    rw [List.foldlM_cons] at hok
    cases ha : dataF a with
    | error err => rw [ha] at hok; simp [Except.map, Bind.bind, Except.bind] at hok
    | ok v =>
      rw [ha] at hok
      simp only [Except.map, Bind.bind, Except.bind] at hok
      rcases List.mem_cons.mp hp with h | h
      · exact ⟨v, h ▸ ha⟩
      · exact ih _ hok p h

/-! ## The scan totals as counts over the raster -/

def cellDataD (w h : Nat) (a : List Int) (x y : Int) : Option (Bool × Bool × Bool) :=
  (cellData w h a x y).toOption.getD none

def flagChar : Option (Bool × Bool × Bool) → Bool
  | some (cf, _, _) => cf
  | none => false

def flagDest : Option (Bool × Bool × Bool) → Bool
  | some (_, df, _) => df
  | none => false

def flagBox : Option (Bool × Bool × Bool) → Bool
  | some (_, _, bf) => bf
  | none => false

def flagUns : Option (Bool × Bool × Bool) → Bool
  | some (_, df, bf) => bf && !df
  | none => false

theorem applyCell_box (acc : ScanAcc) (x y : Int) (v : Option (Bool × Bool × Bool)) :
    (applyCell acc x y v).total_box = acc.total_box + (if flagBox v then 1 else 0) := by
  rcases v with _ | ⟨cf, df, bf⟩
  · simp [applyCell, flagBox]
  · cases cf <;> cases df <;> cases bf <;> simp [applyCell, flagBox]

theorem applyCell_dest (acc : ScanAcc) (x y : Int) (v : Option (Bool × Bool × Bool)) :
    (applyCell acc x y v).total_dest = acc.total_dest + (if flagDest v then 1 else 0) := by
  rcases v with _ | ⟨cf, df, bf⟩
  · simp [applyCell, flagDest]
  · cases cf <;> cases df <;> cases bf <;> simp [applyCell, flagDest]

theorem applyCell_uns (acc : ScanAcc) (x y : Int) (v : Option (Bool × Bool × Bool)) :
    (applyCell acc x y v).total_unsolved = acc.total_unsolved + (if flagUns v then 1 else 0) := by
  rcases v with _ | ⟨cf, df, bf⟩
  · simp [applyCell, flagUns]
  · cases cf <;> cases df <;> cases bf <;> simp [applyCell, flagUns]

theorem applyCell_char (acc : ScanAcc) (x y : Int) (v : Option (Bool × Bool × Bool)) :
    (applyCell acc x y v).total_character =
      acc.total_character + (if flagChar v then 1 else 0) := by
  rcases v with _ | ⟨cf, df, bf⟩
  · simp [applyCell, flagChar]
  · cases cf <;> cases df <;> cases bf <;> simp [applyCell, flagChar]

theorem applyCell_charpos (acc : ScanAcc) (x y : Int) (v : Option (Bool × Bool × Bool)) :
    (applyCell acc x y v).character =
      if flagChar v then some (x, y) else acc.character := by
  rcases v with _ | ⟨cf, df, bf⟩
  · simp [applyCell, flagChar]
  · cases cf <;> cases df <;> cases bf <;> simp [applyCell, flagChar]

theorem scanFoldl_count {dv : Int × Int → Option (Bool × Bool × Bool)}
    (fl : Option (Bool × Bool × Bool) → Bool)
    (proj : ScanAcc → Int)
    (hstep : ∀ acc x y v, proj (applyCell acc x y v) = proj acc + (if fl v then 1 else 0)) :
    ∀ (l : List (Int × Int)) (init : ScanAcc),
      proj (l.foldl (fun acc p => applyCell acc p.1 p.2 (dv p)) init) =
        proj init + (l.countP (fun p => fl (dv p)) : Int) := by
  intro l
  induction l with
  | nil => simp
  | cons a l ih =>
    intro init
    simp only [List.foldl_cons, ih, hstep, List.countP_cons]
    by_cases hq : fl (dv a) = true <;> simp only [hq, Bool.false_eq_true, if_true, if_false] <;> push_cast <;> omega

theorem scanFoldl_charpos {dv : Int × Int → Option (Bool × Bool × Bool)} :
    ∀ (l : List (Int × Int)) (init : ScanAcc),
      (l.foldl (fun acc p => applyCell acc p.1 p.2 (dv p)) init).character =
        match (l.filter (fun p => flagChar (dv p))).getLast? with
        | some p => some p
        | none => init.character := by
  intro l
  induction l with
  | nil => simp
  | cons a l ih =>
    intro init
    simp only [List.foldl_cons, ih, List.filter_cons]
    by_cases hq : flagChar (dv a) = true
    · simp only [hq, if_true, applyCell_charpos]
      cases hfl : (l.filter (fun p => flagChar (dv p))).getLast? with
      | some p => simp [List.getLast?_cons, hfl, Option.or]
      | none => simp [List.getLast?_cons, hfl, Option.or]
    · simp only [hq, Bool.false_eq_true, if_false, applyCell_charpos]

theorem ScanAcc.ext' (s t : ScanAcc) (h1 : s.total_box = t.total_box)
    (h2 : s.total_dest = t.total_dest) (h3 : s.total_unsolved = t.total_unsolved)
    (h4 : s.total_character = t.total_character) (h5 : s.character = t.character) :
    s = t := by
  cases s; cases t; simp_all

theorem validateScan_as_foldlM (w h : Nat) (a : List Int) :
    validateScan w h a = (rasterCoords w h).foldlM
      (fun acc p => (cellData w h a p.1 p.2).map (applyCell acc p.1 p.2)) initScanAcc := by
  unfold validateScan
  simp only [checkCell_eq]

theorem validateScan_cells_ok {w h : Nat} {a : List Int} {acc : ScanAcc}
    (hok : validateScan w h a = .ok acc) :
    ∀ p ∈ rasterCoords w h, ∃ v, cellData w h a p.1 p.2 = .ok v := by
  rw [validateScan_as_foldlM] at hok
  exact foldlM_map_ok_forall _ _ _ _ _ hok

theorem validateScan_eq {w h : Nat} {a : List Int}
    (hall : ∀ p ∈ rasterCoords w h, ∃ v, cellData w h a p.1 p.2 = .ok v) :
    validateScan w h a = .ok
      { total_box := ((rasterCoords w h).countP
          (fun p => flagBox (cellDataD w h a p.1 p.2)) : Int),
        total_dest := ((rasterCoords w h).countP
          (fun p => flagDest (cellDataD w h a p.1 p.2)) : Int),
        total_unsolved := ((rasterCoords w h).countP
          (fun p => flagUns (cellDataD w h a p.1 p.2)) : Int),
        total_character := ((rasterCoords w h).countP
          (fun p => flagChar (cellDataD w h a p.1 p.2)) : Int),
        character := match ((rasterCoords w h).filter
            (fun p => flagChar (cellDataD w h a p.1 p.2))).getLast? with
          | some p => some p
          | none => none } := by
  rw [validateScan_as_foldlM,
    foldlM_map_eq_ok _ _ _ _ (fun p => cellDataD w h a p.1 p.2) ?_]
  · apply congrArg
    apply ScanAcc.ext'
    · rw [scanFoldl_count flagBox ScanAcc.total_box applyCell_box]
      simp [initScanAcc]
    · rw [scanFoldl_count flagDest ScanAcc.total_dest applyCell_dest]
      simp [initScanAcc]
    · rw [scanFoldl_count flagUns ScanAcc.total_unsolved applyCell_uns]
      simp [initScanAcc]
    · rw [scanFoldl_count flagChar ScanAcc.total_character applyCell_char]
      simp [initScanAcc]
    · rw [scanFoldl_charpos]
      simp [initScanAcc]
  · intro p hp
    obtain ⟨v, hv⟩ := hall p hp
    rw [hv]
    simp [cellDataD, hv, Except.toOption]

/-! ## Reading an in-bounds cell -/

def cellVal (w : Nat) (a : List Int) (x y : Int) : Int :=
  a.getD (x + y * (w : Int)).toNat 0

theorem elemA_inb {w h : Nat} {a : List Int} {x y : Int}
    (hlen : a.length = w * h) (hb : InB w h x y) :
    elemA w a x y = .ok (cellVal w a x y) := by
  unfold elemA cellVal
  exact pyGet_ok _ _ (idx_nonneg hb) (by rw [hlen]; exact_mod_cast idx_lt hb)

/-- Everything the scan checks about a non-skipped (open) cell. -/
def OpenCellOK (w h : Nat) (a : List Int) (x y : Int) : Prop :=
  cellVal w a x y ∈ validOpenVals ∧
  0 < x ∧ x < (w : Int) - 1 ∧ 0 < y ∧ y < (h : Int) - 1 ∧
  cellVal w a (x-1) y ≠ -1 ∧ cellVal w a (x+1) y ≠ -1 ∧
  cellVal w a x (y-1) ≠ -1 ∧ cellVal w a x (y+1) ≠ -1 ∧
  (pyland (cellVal w a x y) 0x40 ≠ 0 → is_dead_cornerA w a x y = .ok false) ∧
  ¬(pyland (cellVal w a x y) 0x10 ≠ 0 ∧ pyland (cellVal w a x y) 0x40 ≠ 0)

theorem validOpenVals_flags :
    ∀ e ∈ validOpenVals, pyland e 1 = 1 ∧ pyland e (pynot 0x71) = 0 := by decide

theorem cellData_ok_elim {w h : Nat} {a : List Int} {x y : Int} {v}
    (hlen : a.length = w * h) (hb : InB w h x y)
    (hok : cellData w h a x y = .ok v) :
    ((cellVal w a x y = 0 ∨ cellVal w a x y = -1) ∧ v = none) ∨
    (OpenCellOK w h a x y ∧
     v = some (pyland (cellVal w a x y) 0x10 != 0, pyland (cellVal w a x y) 0x20 != 0,
               pyland (cellVal w a x y) 0x40 != 0)) := by
  set e := cellVal w a x y with he
  unfold cellData at hok
  rw [elemA_inb hlen hb] at hok
  simp only [Bind.bind, Except.bind] at hok
  by_cases h1 : (e == 0 || e == -1) = true
  · left
    simp only [h1, if_true, pure, Except.pure, Except.ok.injEq] at hok
    simp only [Bool.or_eq_true, beq_iff_eq] at h1
    exact ⟨h1, hok.symm⟩
  · right
    simp only [Bool.not_eq_true] at h1
    rw [h1] at hok
    simp only [Bool.false_eq_true, if_false] at hok
    by_cases h2 : (pyland e 1 == 0 || pyland e (pynot 0x71) != 0) = true
    · rw [h2] at hok; simp at hok
    · simp only [Bool.not_eq_true] at h2
      rw [h2] at hok
      simp only [Bool.false_eq_true, if_false] at hok
      simp only [Bool.or_eq_false_iff, beq_eq_false_iff_ne, ne_eq,
        bne_eq_false_iff_eq] at h2
      have hmem : e ∈ validOpenVals := validOpen_mem (by simpa using h2.1) h2.2
      by_cases h3 : (x == 0 || x == (w : Int) - 1 || y == 0 || y == (h : Int) - 1) = true
      · rw [h3] at hok; simp at hok
      · simp only [Bool.not_eq_true] at h3
        rw [h3] at hok
        simp only [Bool.false_eq_true, if_false] at hok
        simp only [Bool.or_eq_false_iff, beq_eq_false_iff_ne, ne_eq] at h3
        obtain ⟨hb1, hb2, hb3, hb4⟩ := hb
        have hbx : 0 < x ∧ x < (w : Int) - 1 ∧ 0 < y ∧ y < (h : Int) - 1 := by
          rcases h3 with ⟨⟨⟨g1, g2⟩, g3⟩, g4⟩
          omega
        have hbl : InB w h (x-1) y := by unfold InB; omega
        have hbr : InB w h (x+1) y := by unfold InB; omega
        have hbu : InB w h x (y-1) := by unfold InB; omega
        have hbd : InB w h x (y+1) := by unfold InB; omega
        rw [elemA_inb hlen hbl, elemA_inb hlen hbr, elemA_inb hlen hbu,
          elemA_inb hlen hbd] at hok
        simp only [Bind.bind, Except.bind] at hok
        by_cases h4 : (pyland e 1 == 1 && (cellVal w a (x-1) y == -1 ||
            cellVal w a (x+1) y == -1 || cellVal w a x (y-1) == -1 ||
            cellVal w a x (y+1) == -1)) = true
        · rw [h4] at hok; simp at hok
        · simp only [Bool.not_eq_true] at h4
          rw [h4] at hok
          simp only [Bool.false_eq_true, if_false] at hok
          have hone : pyland e 1 = 1 := (validOpenVals_flags e hmem).1
          simp only [Bool.and_eq_false_iff, bne_eq_false_iff_eq] at h4
          have hnbr : cellVal w a (x-1) y ≠ -1 ∧ cellVal w a (x+1) y ≠ -1 ∧
              cellVal w a x (y-1) ≠ -1 ∧ cellVal w a x (y+1) ≠ -1 := by
            rcases h4 with h4 | h4
            · exfalso
              simp [hone] at h4
            · simp only [Bool.or_eq_false_iff, beq_eq_false_iff_ne, ne_eq] at h4
              tauto
          by_cases h5 : (pyland e 0x40 != 0) = true
          · rw [h5] at hok
            simp only [if_true] at hok
            cases hdc : is_dead_cornerA w a x y with
            | error err => rw [hdc] at hok; simp [Except.bind] at hok
            | ok dc =>
              rw [hdc] at hok
              simp only [Except.bind] at hok
              by_cases h6 : dc = true
              · rw [h6] at hok; simp at hok
              · simp only [Bool.not_eq_true] at h6
                rw [h6] at hok
                simp only [Bool.false_eq_true, if_false, Bool.and_true, ← he] at hok
                by_cases h7 : (pyland e 0x10 != 0) = true
                · rw [h7] at hok; simp at hok
                · simp only [Bool.not_eq_true] at h7
                  rw [h7] at hok
                  simp only [Bool.false_eq_true, if_false, pure, Except.pure,
                    Except.ok.injEq] at hok
                  simp only [bne_eq_false_iff_eq] at h7
                  refine ⟨⟨hmem, hbx.1, hbx.2.1, hbx.2.2.1, hbx.2.2.2,
                    hnbr.1, hnbr.2.1, hnbr.2.2.1, hnbr.2.2.2,
                    fun _ => h6 ▸ hdc, ?_⟩, ?_⟩
                  · intro hcb
                    exact hcb.1 h7
                  · rw [← hok, h5]
                    congr 2
                    simp [h7]
          · simp only [Bool.not_eq_true] at h5
            rw [h5] at hok
            simp only [Bool.false_eq_true, if_false, Bool.and_false, ← he] at hok
            simp only [pure, Except.pure, Except.ok.injEq] at hok
            simp only [bne_eq_false_iff_eq] at h5
            refine ⟨⟨hmem, hbx.1, hbx.2.1, hbx.2.2.1, hbx.2.2.2,
              hnbr.1, hnbr.2.1, hnbr.2.2.1, hnbr.2.2.2,
              fun hc => absurd h5 hc, ?_⟩, ?_⟩
            · intro hcb
              exact hcb.2 h5
            · rw [← hok]
              congr 2
              simp [h5]

/-! ## Claim C7: a cornered box is rejected at construction -/

theorem foldl_max_seed_le (l : List (List Int)) :
    ∀ n : Nat, n ≤ l.foldl (fun w r => max w r.length) n := by
  induction l with
  | nil => simp
  | cons a t ih =>
    intro n
    simp only [List.foldl_cons]
    calc n ≤ max n a.length := le_max_left _ _
    _ ≤ _ := ih _

theorem gridWidth_row_le (mapl : List (List Int)) :
    ∀ r ∈ mapl, r.length ≤ gridWidth mapl := by
  unfold gridWidth
  suffices h : ∀ (n : Nat), ∀ r ∈ mapl, r.length ≤ mapl.foldl (fun w r => max w r.length) n by
    exact h 0
  induction mapl with
  | nil => simp
  | cons a l ih =>
    intro n r hr
    rcases List.mem_cons.mp hr with h | h
    · subst h
      simp only [List.foldl_cons]
      calc r.length ≤ max n r.length := le_max_right _ _
      _ ≤ _ := foldl_max_seed_le _ _
    · exact ih _ r h

theorem gridFlat_length (mapl : List (List Int)) :
    (gridFlat mapl).length = gridWidth mapl * mapl.length := by
  unfold gridFlat
  rw [List.length_flatMap]
  have h : ∀ r ∈ mapl, (r ++ List.replicate (gridWidth mapl - r.length) (-1 : Int)).length
      = gridWidth mapl := by
    intro r hr
    have := gridWidth_row_le mapl r hr
    simp only [List.length_append, List.length_replicate]
    omega
  rw [show (List.length ∘ fun r : List Int =>
      r ++ List.replicate (gridWidth mapl - r.length) (-1 : Int)) =
      (fun r : List Int =>
        (r ++ List.replicate (gridWidth mapl - r.length) (-1 : Int)).length) from rfl,
    List.map_congr_left h]
  simp [List.map_const', mul_comm]

theorem mem_rasterCoords {w h : Nat} {x y : Int} :
    (x, y) ∈ rasterCoords w h ↔ InB w h x y := by
  unfold rasterCoords InB
  rw [List.mem_flatMap]
  constructor
  · rintro ⟨yn, hyn, hmem⟩
    obtain ⟨xn, hxn, he⟩ := List.mem_map.mp hmem
    rw [List.mem_range] at hyn hxn
    have hx : (xn : Int) = x := congrArg Prod.fst he
    have hy : (yn : Int) = y := congrArg Prod.snd he
    have hx2 : (xn : Int) < (w : Int) := by exact_mod_cast hxn
    have hy2 : (yn : Int) < (h : Int) := by exact_mod_cast hyn
    have hx0 : (0 : Int) ≤ (xn : Int) := Int.ofNat_nonneg _
    have hy0 : (0 : Int) ≤ (yn : Int) := Int.ofNat_nonneg _
    omega
  · rintro ⟨h1, h2, h3, h4⟩
    refine ⟨y.toNat, List.mem_range.mpr (by omega),
      List.mem_map.mpr ⟨x.toNat, List.mem_range.mpr (by omega), ?_⟩⟩
    rw [Int.toNat_of_nonneg h1, Int.toNat_of_nonneg h3]

/-- The four corner-wall configurations of the dead-corner detector. -/
def CornerWalls (w : Nat) (a : List Int) (x y : Int) : Prop :=
  (is_wallA w a (x+1) y = .ok true ∧ is_wallA w a x (y+1) = .ok true) ∨
  (is_wallA w a (x+1) y = .ok true ∧ is_wallA w a x (y-1) = .ok true) ∨
  (is_wallA w a (x-1) y = .ok true ∧ is_wallA w a x (y+1) = .ok true) ∨
  (is_wallA w a (x-1) y = .ok true ∧ is_wallA w a x (y-1) = .ok true)

theorem dead_corner_not_false {w h : Nat} {a : List Int} {x y : Int}
    (hlen : a.length = w * h) (hb : InB w h x y)
    (hnd : pyland (cellVal w a x y) 0x20 = 0)
    (hwalls : CornerWalls w a x y) :
    is_dead_cornerA w a x y ≠ .ok false := by
  intro hdc
  unfold CornerWalls at hwalls
  unfold is_dead_cornerA at hdc
  rw [elemA_inb hlen hb] at hdc
  simp only [Bind.bind, Except.bind, hnd, bne_self_eq_false, Bool.false_eq_true,
    if_false] at hdc
  cases hr : is_wallA w a (x+1) y with
  | error e => rw [hr] at hdc; simp at hdc
  | ok wr =>
    rw [hr] at hdc
    simp only [Except.bind] at hdc
    by_cases hwr : wr = true
    · rw [hwr] at hdc
      simp only [if_true] at hdc
      cases hd : is_wallA w a x (y+1) with
      | error e => rw [hd] at hdc; simp at hdc
      | ok wd =>
        rw [hd] at hdc
        simp only [Except.bind] at hdc
        by_cases hwd : wd = true
        · rw [hwd] at hdc; simp [pure, Except.pure] at hdc
        · simp only [Bool.not_eq_true] at hwd
          rw [hwd] at hdc
          simp only [Bool.false_eq_true, if_false] at hdc
          cases hu : is_wallA w a x (y-1) with
          | error e => rw [hu] at hdc; simp at hdc
          | ok wu =>
            rw [hu] at hdc
            simp only [Except.bind] at hdc
            by_cases hwu : wu = true
            · rw [hwu] at hdc; simp [pure, Except.pure] at hdc
            · simp only [Bool.not_eq_true] at hwu
              rw [hwu] at hdc
              -- both vertical walls absent: every corner configuration
              -- needs one of them
              rcases hwalls with ⟨_, hw⟩ | ⟨_, hw⟩ | ⟨_, hw⟩ | ⟨_, hw⟩ <;>
                first
                | (rw [hd] at hw; simp_all)
                | (rw [hu] at hw; simp_all)
    · simp only [Bool.not_eq_true] at hwr
      rw [hwr] at hdc
      simp only [Bool.false_eq_true, if_false] at hdc
      cases hl : is_wallA w a (x-1) y with
      | error e => rw [hl] at hdc; simp at hdc
      | ok wl =>
        rw [hl] at hdc
        simp only [Except.bind] at hdc
        by_cases hwl : wl = true
        · rw [hwl] at hdc
          simp only [if_true] at hdc
          cases hd : is_wallA w a x (y+1) with
          | error e => rw [hd] at hdc; simp at hdc
          | ok wd =>
            rw [hd] at hdc
            simp only [Except.bind] at hdc
            by_cases hwd : wd = true
            · rw [hwd] at hdc; simp [pure, Except.pure] at hdc
            · simp only [Bool.not_eq_true] at hwd
              rw [hwd] at hdc
              simp only [Bool.false_eq_true, if_false] at hdc
              -- the result is then the up-wall read, forced `ok false`
              rcases hwalls with ⟨hw, hw2⟩ | ⟨hw, hw2⟩ | ⟨hw, hw2⟩ | ⟨hw, hw2⟩ <;>
                first
                | (rw [hr] at hw; simp_all)
                | (rw [hd] at hw2; simp_all)
                | (rw [hdc] at hw2; simp_all)
        · simp only [Bool.not_eq_true] at hwl
          rw [hwl] at hdc
          simp only [Bool.false_eq_true, if_false, pure, Except.pure] at hdc
          -- neither horizontal wall: every corner configuration needs one
          rcases hwalls with ⟨hw, _⟩ | ⟨hw, _⟩ | ⟨hw, _⟩ | ⟨hw, _⟩ <;>
            first
            | (rw [hr] at hw; simp_all)
            | (rw [hl] at hw; simp_all)

/-- Claim C7: an input grid with a box on a non-destination cell enclosed
by two perpendicular walls (any of the four corner configurations) is
rejected by board construction: `skb_map.init` returns an error and no
board value. -/
theorem sokoban_C7 (mapl : List (List Int)) (x y : Int)
    (hb : InB (gridWidth mapl) mapl.length x y)
    (hbox : pyland (cellVal (gridWidth mapl) (gridFlat mapl) x y) 0x40 ≠ 0)
    (hnd : pyland (cellVal (gridWidth mapl) (gridFlat mapl) x y) 0x20 = 0)
    (hwalls : CornerWalls (gridWidth mapl) (gridFlat mapl) x y) :
    ∃ err, skb_map.init mapl = .error err := by
  cases hres : skb_map.init mapl with
  | error err => exact ⟨err, rfl⟩
  | ok b =>
    exfalso
    unfold skb_map.init at hres
    dsimp only at hres
    cases hscan : validateScan (gridWidth mapl) mapl.length (gridFlat mapl) with
    | error e => rw [hscan] at hres; simp [Bind.bind, Except.bind] at hres
    | ok acc =>
      obtain ⟨v, hv⟩ := validateScan_cells_ok hscan (x, y) (mem_rasterCoords.mpr hb)
      have hlen : (gridFlat mapl).length = gridWidth mapl * mapl.length :=
        gridFlat_length mapl
      rcases cellData_ok_elim hlen hb hv with ⟨he0, _⟩ | ⟨hopen, _⟩
      · rcases he0 with h0 | h0
        · rw [h0] at hbox; exact hbox (by decide)
        · rw [h0] at hnd; exact absurd hnd (by decide)
      · obtain ⟨_, _, _, _, _, _, _, _, _, hdcf, _⟩ := hopen
        exact dead_corner_not_false hlen hb hnd hwalls (hdcf hbox)

/-- A box at (1,1) cornered by the left and top walls, not on a destination. -/
def badGrid : List (List Int) :=
  [[0, 0, 0, 0],
   [0, 0x41, 0x11, 0],
   [0, 0, 0, 0]]

theorem sokoban_C7_witness : ∃ err, skb_map.init badGrid = .error err :=
  sokoban_C7 badGrid 1 1 ⟨by decide, by decide, by decide, by decide⟩ (by decide) (by decide)
    (Or.inr (Or.inr (Or.inr ⟨by rfl, by rfl⟩)))

/-! ## Validated boards -/

/-- The shape facts a constructed board enjoys: nominal array sizes plus a
successful `validate`. -/
def skb_map.Validated (b : skb_map) : Prop :=
  b.array.length = b.width * b.height ∧
  b.reachable.length = b.width * b.height ∧
  ∃ acc, validateScan b.width b.height b.array = .ok acc ∧ validateTotals acc = .ok () ∧
    b.box = acc.total_box ∧ b.dest = acc.total_dest ∧ b.unsolved = acc.total_unsolved ∧
    acc.character = some b.character

/-- What `validate` guarantees about every in-bounds cell. -/
def ValidatedArr (w h : Nat) (a : List Int) : Prop :=
  ∀ x y : Int, InB w h x y →
    cellVal w a x y = 0 ∨ cellVal w a x y = -1 ∨ OpenCellOK w h a x y

theorem validateScan_validatedArr {w h : Nat} {a : List Int} {acc : ScanAcc}
    (hlen : a.length = w * h) (hok : validateScan w h a = .ok acc) :
    ValidatedArr w h a := by
  intro x y hb
  obtain ⟨v, hv⟩ := validateScan_cells_ok hok (x, y) (mem_rasterCoords.mpr hb)
  rcases cellData_ok_elim hlen hb hv with ⟨he0, _⟩ | ⟨hopen, _⟩
  · tauto
  · tauto

theorem skb_map.Validated.validatedArr {b : skb_map} (h : b.Validated) :
    ValidatedArr b.width b.height b.array := by
  obtain ⟨hlen, _, acc, hacc, _⟩ := h
  exact validateScan_validatedArr hlen hacc

/-! ## The primitive reads succeed on in-bounds coordinates -/

theorem is_wallA_inb {w h : Nat} {a : List Int} {x y : Int}
    (hlen : a.length = w * h) (hb : InB w h x y) :
    is_wallA w a x y = .ok (cellVal w a x y == 0) := by
  unfold is_wallA
  rw [elemA_inb hlen hb]
  rfl

theorem is_blockedA_inb {w h : Nat} {a : List Int} {x y : Int}
    (hlen : a.length = w * h) (hb : InB w h x y) :
    is_blockedA w a x y =
      .ok (cellVal w a x y == 0 || pyland (cellVal w a x y) 0x40 == 0x40) := by
  unfold is_blockedA
  rw [elemA_inb hlen hb]
  rfl

theorem is_reachable_inb {b : skb_map} {x y : Int}
    (hlen : b.reachable.length = b.width * b.height) (hb : InB b.width b.height x y) :
    b.is_reachable x y =
      .ok (pyland (cellVal b.width b.reachable x y) 0x80 == 0x80) := by
  unfold skb_map.is_reachable
  rw [show pyGet b.reachable (x + y * (b.width : Int)) = elemA b.width b.reachable x y from rfl,
    elemA_inb hlen hb]
  rfl

/-- On an interior cell (all four neighbours in bounds) the dead-corner
detector always returns a value. -/
theorem is_dead_cornerA_interior {w h : Nat} {a : List Int} {x y : Int}
    (hlen : a.length = w * h) (hb : InB w h x y)
    (hbl : InB w h (x-1) y) (hbr : InB w h (x+1) y)
    (hbu : InB w h x (y-1)) (hbd : InB w h x (y+1)) :
    ∃ dc, is_dead_cornerA w a x y = .ok dc := by
  unfold is_dead_cornerA
  rw [elemA_inb hlen hb]
  simp only [Bind.bind, Except.bind]
  by_cases hdst : (pyland (cellVal w a x y) 0x20 != 0) = true
  · rw [hdst]
    exact ⟨false, rfl⟩
  · simp only [Bool.not_eq_true] at hdst
    rw [hdst]
    simp only [Bool.false_eq_true, if_false]
    rw [is_wallA_inb hlen hbr, is_wallA_inb hlen hbd, is_wallA_inb hlen hbu,
      is_wallA_inb hlen hbl]
    simp only [Except.bind]
    by_cases h1 : (cellVal w a (x+1) y == 0) = true <;> simp only [h1] <;>
      by_cases h2 : (cellVal w a x (y+1) == 0) = true <;> simp only [h2] <;>
        by_cases h3 : (cellVal w a x (y-1) == 0) = true <;> simp only [h3] <;>
          by_cases h4 : (cellVal w a (x-1) y == 0) = true <;> simp only [h4] <;>
            simp_all [pure, Except.pure]

/-- A non-blocked in-bounds cell of a validated array is a valid open
interior cell. -/
theorem target_open {w h : Nat} {a : List Int} (hva : ValidatedArr w h a)
    {tx ty : Int} (hbt : InB w h tx ty)
    (hnb : (cellVal w a tx ty == 0 || pyland (cellVal w a tx ty) 0x40 == 0x40) = false) :
    OpenCellOK w h a tx ty := by
  simp only [Bool.or_eq_false_iff, beq_eq_false_iff_ne, ne_eq] at hnb
  rcases hva tx ty hbt with h0 | h0 | h0
  · exact absurd h0 hnb.1
  · exfalso
    apply hnb.2
    rw [h0]
    decide
  · exact h0

theorem OpenCellOK.interior_nbrs {w h : Nat} {a : List Int} {x y : Int}
    (ho : OpenCellOK w h a x y) :
    InB w h (x-1) y ∧ InB w h (x+1) y ∧ InB w h x (y-1) ∧ InB w h x (y+1) := by
  obtain ⟨_, h1, h2, h3, h4, _⟩ := ho
  refine ⟨⟨by omega, by omega, by omega, by omega⟩, ⟨by omega, by omega, by omega, by omega⟩,
    ⟨by omega, by omega, by omega, by omega⟩, ⟨by omega, by omega, by omega, by omega⟩⟩

theorem moveChecks_eq {b : skb_map} (hval : b.Validated) {rx ry tx ty : Int}
    (hbr : InB b.width b.height rx ry) (hbt : InB b.width b.height tx ty) :
    moveChecks b rx ry tx ty =
      .ok (isOkTrue (b.is_reachable rx ry) &&
           (isOkFalse (b.is_blocked tx ty) && isOkFalse (b.is_dead_corner tx ty))) := by
  have hva := skb_map.Validated.validatedArr hval
  obtain ⟨hlena, hlenr, _⟩ := hval
  have hre := is_reachable_inb hlenr hbr
  have hbl : b.is_blocked tx ty = is_blockedA b.width b.array tx ty := rfl
  unfold moveChecks
  rw [hre]
  simp only [Bind.bind, Except.bind]
  by_cases hr : (pyland (cellVal b.width b.reachable rx ry) 0x80 == 0x80) = true
  · rw [hr]
    simp only [Bool.not_true, Bool.false_eq_true, if_false]
    rw [hbl, is_blockedA_inb hlena hbt]
    simp only [Except.bind]
    by_cases hblv : (cellVal b.width b.array tx ty == 0 ||
        pyland (cellVal b.width b.array tx ty) 0x40 == 0x40) = true
    · rw [hblv]
      simp [hre, hr, isOkTrue, isOkFalse, pure, Except.pure,
        is_blockedA_inb hlena hbt, hblv, hbl]
    · simp only [Bool.not_eq_true] at hblv
      rw [hblv]
      simp only [Bool.false_eq_true, if_false]
      have hopen := target_open hva hbt hblv
      obtain ⟨hnl, hnr, hnu, hnd⟩ := hopen.interior_nbrs
      obtain ⟨dc, hdc⟩ := is_dead_cornerA_interior hlena hbt hnl hnr hnu hnd
      have hdcb : b.is_dead_corner tx ty = is_dead_cornerA b.width b.array tx ty := rfl
      rw [hdcb, hdc]
      cases dc <;>
        simp [hre, hr, isOkTrue, isOkFalse, pure, Except.pure, hbl,
          is_blockedA_inb hlena hbt, hblv, hdcb, hdc]
  · simp only [Bool.not_eq_true] at hr
    rw [hr]
    simp [hre, hr, isOkTrue, isOkFalse, pure, Except.pure]

theorem cellMoves_eq {b : skb_map} (hval : b.Validated) {x y : Int}
    (hb : InB b.width b.height x y) :
    cellMoves b x y = .ok (([Dir.UP, Dir.RIGHT, Dir.DOWN, Dir.LEFT].filter
      (fun d => legalMoveSpec b x y d)).map (fun d => (x, y, d))) := by
  have hva := hval.validatedArr
  have helem : b.element x y = .ok (cellVal b.width b.array x y) := elemA_inb hval.1 hb
  unfold cellMoves
  rw [helem]
  simp only [Bind.bind, Except.bind]
  by_cases hskip : (cellVal b.width b.array x y == -1 ||
      pyland (cellVal b.width b.array x y) 0x40 == 0) = true
  · rw [hskip]
    have hhb : holdsBox b x y = false := by
      unfold holdsBox
      rw [helem]
      simp only [Bool.or_eq_true, beq_iff_eq] at hskip
      rcases hskip with h | h <;> simp [h]
    simp [legalMoveSpec, hhb, pure, Except.pure, List.filter]
  · simp only [Bool.not_eq_true] at hskip
    rw [hskip]
    simp only [Bool.false_eq_true, if_false]
    have hskip' := hskip
    simp only [Bool.or_eq_false_iff, beq_eq_false_iff_ne, ne_eq] at hskip'
    have hopen : OpenCellOK b.width b.height b.array x y := by
      rcases hva x y hb with h0 | h0 | h0
      · exfalso
        apply hskip'.2
        rw [h0]
        decide
      · exact absurd h0 hskip'.1
      · exact h0
    obtain ⟨hnl, hnr, hnu, hnd⟩ := hopen.interior_nbrs
    have hhb : holdsBox b x y = true := by
      unfold holdsBox
      rw [helem]
      simp [bne_iff_ne, hskip'.1, hskip'.2]
    rw [moveChecks_eq hval hnd hnu, moveChecks_eq hval hnl hnr,
      moveChecks_eq hval hnu hnd, moveChecks_eq hval hnr hnl]
    simp only [Except.bind, pure, Except.pure]
    simp only [legalMoveSpec, oppositeCell, targetCell, hhb, Bool.true_and,
      List.filter, List.map, Bool.and_assoc]
    by_cases hu : (isOkTrue (b.is_reachable x (y+1)) &&
        (isOkFalse (b.is_blocked x (y-1)) && isOkFalse (b.is_dead_corner x (y-1)))) = true <;>
      by_cases hr : (isOkTrue (b.is_reachable (x-1) y) &&
        (isOkFalse (b.is_blocked (x+1) y) && isOkFalse (b.is_dead_corner (x+1) y))) = true <;>
      by_cases hd : (isOkTrue (b.is_reachable x (y-1)) &&
        (isOkFalse (b.is_blocked x (y+1)) && isOkFalse (b.is_dead_corner x (y+1)))) = true <;>
      by_cases hl : (isOkTrue (b.is_reachable (x+1) y) &&
        (isOkFalse (b.is_blocked (x-1) y) && isOkFalse (b.is_dead_corner (x-1) y))) = true <;>
      simp [hu, hr, hd, hl]

theorem foldlM_append_flat {α β : Type} (l : List α) (dataF : α → Except String (List β))
    (f : α → List β) (hall : ∀ p ∈ l, dataF p = .ok (f p)) :
    ∀ init : List β,
      l.foldlM (fun ms p => do
        let cm ← dataF p
        pure (ms ++ cm)) init = .ok (init ++ l.flatMap f) := by
  induction l with
  | nil => intro init; simp [pure, Except.pure]
  | cons a t ih =>
    intro init
    have ha : dataF a = .ok (f a) := hall a (List.mem_cons_self a t)
    rw [List.foldlM_cons]
    have step : (do
        let cm ← dataF a
        pure (init ++ cm) : Except String (List β)) = .ok (init ++ f a) := by
      rw [ha]; rfl
    rw [step]
    have hbind : (Except.ok (init ++ f a) >>= fun b' =>
        List.foldlM (fun ms p => do
          let cm ← dataF p
          pure (ms ++ cm)) b' t) =
        List.foldlM (fun ms p => do
          let cm ← dataF p
          pure (ms ++ cm)) (init ++ f a) t := rfl
    rw [hbind, ih (fun p hp => hall p (List.mem_cons_of_mem a hp)) (init ++ f a),
      List.flatMap_cons, List.append_assoc]

/-- On a validated board the move generator succeeds and returns exactly
the spec-side list. -/
theorem find_all_eq {b : skb_map} (hval : b.Validated) :
    b.find_all_possible_moves = .ok (legalMovesSpec b) := by
  unfold skb_map.find_all_possible_moves legalMovesSpec
  rw [foldlM_append_flat _ _
    (fun p => (([Dir.UP, Dir.RIGHT, Dir.DOWN, Dir.LEFT].filter
      (fun d => legalMoveSpec b p.1 p.2 d)).map (fun d => (p.1, p.2, d))))
    (fun p hp => cellMoves_eq hval (mem_rasterCoords.mp (by
      obtain ⟨px, py⟩ := p
      exact hp)))]
  simp

theorem isOkFalse_iff (z : Except String Bool) : isOkFalse z = true ↔ z = .ok false := by
  cases z with
  | error e => simp [isOkFalse]
  | ok v => cases v <;> simp [isOkFalse]

theorem isOkTrue_iff (z : Except String Bool) : isOkTrue z = true ↔ z = .ok true := by
  cases z with
  | error e => simp [isOkTrue]
  | ok v => cases v <;> simp [isOkTrue]

theorem mem_legalMovesSpec {b : skb_map} {m : Int × Int × Dir}
    (hm : m ∈ legalMovesSpec b) : legalMoveSpec b m.1 m.2.1 m.2.2 = true := by
  unfold legalMovesSpec at hm
  rw [List.mem_flatMap] at hm
  obtain ⟨p, hp, hmm⟩ := hm
  rw [List.mem_map] at hmm
  obtain ⟨d, hd, he⟩ := hmm
  rw [List.mem_filter] at hd
  subst he
  exact hd.2

/-- Claim C4: on every validated board the move generator returns exactly
the list described by the spec: a raster scan over the grid, and per box
cell the directions UP, RIGHT, DOWN, LEFT in that order, keeping a
direction iff the opposite cell is reachable, the push target is not
blocked, and the push target is not a dead corner. -/
theorem sokoban_C4 (b : skb_map) (hval : b.Validated) :
    b.find_all_possible_moves = .ok (legalMovesSpec b) := find_all_eq hval

theorem tinyMap_validated : tinyMap.Validated :=
  ⟨by decide, by decide,
   ⟨{ total_box := 1, total_dest := 1, total_unsolved := 1,
      total_character := 1, character := some (1, 1) },
    by rfl, by rfl, by rfl, by rfl, by rfl, by rfl⟩⟩

theorem sokoban_C4_witness :
    tinyMap.find_all_possible_moves = .ok (legalMovesSpec tinyMap) :=
  sokoban_C4 tinyMap tinyMap_validated

/-- Claim C10: the generator never returns a move whose box cell or push
target reads as the invalid sentinel `-1` — even though `-1` carries the
box flag bit in the signed encoding (`-1 & 0x40 = 0x40`), the raster scan
skips sentinel cells explicitly and a sentinel target counts as blocked. -/
theorem sokoban_C10 (b : skb_map) (hval : b.Validated) (ms : List (Int × Int × Dir))
    (hms : b.find_all_possible_moves = .ok ms) :
    pyland (-1) 0x40 = 0x40 ∧
    ∀ m ∈ ms, b.element m.1 m.2.1 ≠ .ok (-1) ∧
      b.element (targetCell m.1 m.2.1 m.2.2).1 (targetCell m.1 m.2.1 m.2.2).2 ≠ .ok (-1) := by
  refine ⟨by decide, ?_⟩
  intro m hm
  rw [find_all_eq hval] at hms
  have hmsp : ms = legalMovesSpec b := by
    injection hms with h
    exact h.symm
  subst hmsp
  have hls := mem_legalMovesSpec hm
  unfold legalMoveSpec at hls
  simp only [Bool.and_eq_true] at hls
  obtain ⟨⟨⟨hhb, _⟩, hbl⟩, _⟩ := hls
  constructor
  · unfold holdsBox at hhb
    cases helem : b.element m.1 m.2.1 with
    | error e => rw [helem] at hhb; simp at hhb
    | ok e =>
      rw [helem] at hhb
      simp only [Bool.and_eq_true, bne_iff_ne, ne_eq] at hhb
      intro hcon
      injection hcon with h
      exact hhb.1 h
  · rw [isOkFalse_iff] at hbl
    have hbl' : is_blockedA b.width b.array (targetCell m.1 m.2.1 m.2.2).1
        (targetCell m.1 m.2.1 m.2.2).2 = .ok false := hbl
    unfold is_blockedA at hbl'
    cases helem : elemA b.width b.array (targetCell m.1 m.2.1 m.2.2).1
        (targetCell m.1 m.2.1 m.2.2).2 with
    | error e => rw [helem] at hbl'; simp [Bind.bind, Except.bind] at hbl'
    | ok t =>
      rw [helem] at hbl'
      simp only [Bind.bind, Except.bind, pure, Except.pure, Except.ok.injEq] at hbl'
      intro hcon
      have hcon' : elemA b.width b.array (targetCell m.1 m.2.1 m.2.2).1
          (targetCell m.1 m.2.1 m.2.2).2 = .ok (-1) := hcon
      rw [helem] at hcon'
      injection hcon' with h
      subst h
      simp at hbl'
      exact hbl' (by decide)

theorem sokoban_C10_witness :
    pyland (-1) 0x40 = 0x40 ∧
    ∀ m ∈ [((2 : Int), (1 : Int), Dir.RIGHT)],
      tinyMap.element m.1 m.2.1 ≠ .ok (-1) ∧
      tinyMap.element (targetCell m.1 m.2.1 m.2.2).1 (targetCell m.1 m.2.1 m.2.2).2 ≠ .ok (-1) :=
  sokoban_C10 tinyMap tinyMap_validated [(2, 1, Dir.RIGHT)] (by rfl)

/-! ## Introduction lemmas for `cellData` -/

theorem cellData_skip_intro {w h : Nat} {a : List Int} {x y : Int}
    (hlen : a.length = w * h) (hb : InB w h x y)
    (h0 : cellVal w a x y = 0 ∨ cellVal w a x y = -1) :
    cellData w h a x y = .ok none := by
  unfold cellData
  rw [elemA_inb hlen hb]
  have : (cellVal w a x y == 0 || cellVal w a x y == -1) = true := by
    rcases h0 with h | h <;> simp [h]
  simp [Bind.bind, Except.bind, this, pure, Except.pure]

theorem cellData_open_intro {w h : Nat} {a : List Int} {x y : Int}
    (hlen : a.length = w * h) (hb : InB w h x y)
    (ho : OpenCellOK w h a x y) :
    cellData w h a x y = .ok (some (pyland (cellVal w a x y) 0x10 != 0,
      pyland (cellVal w a x y) 0x20 != 0, pyland (cellVal w a x y) 0x40 != 0)) := by
  obtain ⟨hmem, hx1, hx2, hy1, hy2, hnl, hnr, hnu, hnd, hdc, hcb⟩ := ho
  have hflags := validOpenVals_flags _ hmem
  have hne : (cellVal w a x y == 0 || cellVal w a x y == -1) = false := by
    have h1 : cellVal w a x y ≠ 0 := by
      intro hc
      rw [hc] at hflags
      exact absurd hflags.1 (by decide)
    have h2 : cellVal w a x y ≠ -1 := by
      intro hc
      rw [hc] at hflags
      exact absurd hflags.2 (by decide)
    simp [h1, h2]
  unfold cellData
  rw [elemA_inb hlen hb]
  simp only [Bind.bind, Except.bind, hne, Bool.false_eq_true, if_false]
  have hvalid : (pyland (cellVal w a x y) 1 == 0 ||
      pyland (cellVal w a x y) (pynot 0x71) != 0) = false := by
    simp [hflags.1, hflags.2]
  rw [hvalid]
  simp only [Bool.false_eq_true, if_false]
  have hbord : (x == 0 || x == (w : Int) - 1 || y == 0 || y == (h : Int) - 1) = false := by
    have w1 : x ≠ 0 := by omega
    have w2 : x ≠ (w : Int) - 1 := by omega
    have w3 : y ≠ 0 := by omega
    have w4 : y ≠ (h : Int) - 1 := by omega
    simp [w1, w2, w3, w4]
  rw [hbord]
  simp only [Bool.false_eq_true, if_false]
  have hbl : InB w h (x-1) y := by unfold InB at hb ⊢; omega
  have hbr : InB w h (x+1) y := by unfold InB at hb ⊢; omega
  have hbu : InB w h x (y-1) := by unfold InB at hb ⊢; omega
  have hbd : InB w h x (y+1) := by unfold InB at hb ⊢; omega
  rw [elemA_inb hlen hbl, elemA_inb hlen hbr, elemA_inb hlen hbu, elemA_inb hlen hbd]
  simp only [Bind.bind, Except.bind]
  have hadj : (pyland (cellVal w a x y) 1 == 1 && (cellVal w a (x-1) y == -1 ||
      cellVal w a (x+1) y == -1 || cellVal w a x (y-1) == -1 ||
      cellVal w a x (y+1) == -1)) = false := by
    simp [hnl, hnr, hnu, hnd]
  rw [hadj]
  simp only [Bool.false_eq_true, if_false]
  by_cases hbox : (pyland (cellVal w a x y) 0x40 != 0) = true
  · have hbox' : pyland (cellVal w a x y) 0x40 ≠ 0 := by simpa [bne_iff_ne] using hbox
    have hch : (pyland (cellVal w a x y) 0x10 != 0) = false := by
      by_cases h1 : pyland (cellVal w a x y) 0x10 = 0
      · simp [h1]
      · exact absurd ⟨h1, hbox'⟩ hcb
    rw [hbox]
    simp only [if_true]
    rw [hdc hbox']
    simp only [Except.bind, Bool.false_eq_true, if_false]
    rw [Bool.and_true, hch]
    simp [pure, Except.pure, hbox]
  · simp only [Bool.not_eq_true] at hbox
    rw [hbox]
    simp [pure, Except.pure, hbox]

/-! ## Value-level facts about the flag updates of a move -/

theorem clearChar_mem : ∀ e ∈ validOpenVals, pyland e (pynot 0x10) ∈ validOpenVals ∧
    pyland (pyland e (pynot 0x10)) 0x10 = 0 ∧
    pyland (pyland e (pynot 0x10)) 0x20 = pyland e 0x20 ∧
    pyland (pyland e (pynot 0x10)) 0x40 = pyland e 0x40 := by decide

theorem clearBox_mem : ∀ e ∈ validOpenVals, pyland e (pynot 0x40) ∈ validOpenVals ∧
    pyland (pyland e (pynot 0x40)) 0x40 = 0 ∧
    pyland (pyland e (pynot 0x40)) 0x20 = pyland e 0x20 ∧
    pyland (pyland e (pynot 0x40)) 0x10 = pyland e 0x10 := by decide

theorem setBox_mem : ∀ e ∈ validOpenVals, pylor e 0x40 ∈ validOpenVals ∧
    pyland (pylor e 0x40) 0x40 = 0x40 ∧
    pyland (pylor e 0x40) 0x20 = pyland e 0x20 ∧
    pyland (pylor e 0x40) 0x10 = pyland e 0x10 := by decide

theorem setChar_mem : ∀ e ∈ validOpenVals, pylor e 0x10 ∈ validOpenVals ∧
    pyland (pylor e 0x10) 0x10 = 0x10 ∧
    pyland (pylor e 0x10) 0x20 = pyland e 0x20 ∧
    pyland (pylor e 0x10) 0x40 = pyland e 0x40 := by decide

theorem validOpen_ne_wall : ∀ e ∈ validOpenVals, e ≠ 0 ∧ e ≠ -1 := by decide

/-! ## Updating one cell of the flat array -/

theorem cellVal_set_self {w h : Nat} {a : List Int} {x y : Int} (v : Int)
    (hlen : a.length = w * h) (hb : InB w h x y) :
    cellVal w (a.set (x + y * (w : Int)).toNat v) x y = v := by
  unfold cellVal
  have hlt : (x + y * (w : Int)).toNat < a.length := by
    rw [hlen]
    have h1 := idx_nonneg hb
    have h2 := idx_lt hb
    omega
  simp [List.getD, List.getElem?_set_eq_of_lt, hlt]

theorem cellVal_set_other {w h : Nat} {a : List Int} {x y x' y' : Int} (v : Int)
    (hb : InB w h x y) (hb' : InB w h x' y') (hne : (x, y) ≠ (x', y')) :
    cellVal w (a.set (x + y * (w : Int)).toNat v) x' y' = cellVal w a x' y' := by
  unfold cellVal
  have hidx : (x + y * (w : Int)).toNat ≠ (x' + y' * (w : Int)).toNat := by
    intro hc
    have h1 := idx_nonneg hb
    have h2 := idx_nonneg hb'
    have : x + y * (w : Int) = x' + y' * (w : Int) := by omega
    obtain ⟨hx, hy⟩ := idx_inj hb hb' this
    exact hne (by rw [hx, hy])
  simp [List.getD, List.getElem?_set_ne hidx]

theorem pySet_inb {w h : Nat} {a : List Int} {x y : Int} (v : Int)
    (hlen : a.length = w * h) (hb : InB w h x y) :
    pySet a (x + y * (w : Int)) v = .ok (a.set (x + y * (w : Int)).toNat v) := by
  apply pySet_ok
  · exact idx_nonneg hb
  · rw [hlen]; exact_mod_cast idx_lt hb

/-! ## Counting over the raster after one cell update -/

theorem countP_one_change {α : Type} [DecidableEq α] :
    ∀ (l : List α) (f g : α → Bool) (p0 : α), l.Nodup → p0 ∈ l →
      (∀ p ∈ l, p ≠ p0 → f p = g p) →
      l.countP f + (if g p0 then 1 else 0) = l.countP g + (if f p0 then 1 else 0) := by
  intro l
  induction l with
  | nil => intro f g p0 _ hm; simp at hm
  | cons b t ih =>
    intro f g p0 hnd hm hsame
    rcases List.mem_cons.mp hm with h | h
    · subst h
      have ht : ∀ p ∈ t, f p = g p := by
        intro p hp
        apply hsame p (List.mem_cons_of_mem _ hp)
        intro hc
        subst hc
        exact (List.nodup_cons.mp hnd).1 hp
      rw [List.countP_cons, List.countP_cons,
        List.countP_congr (fun p hp => by rw [ht p hp])]
      by_cases hf : f p0 = true <;> by_cases hg : g p0 = true <;>
        simp [hf, hg]
    · have hfa : f b = g b := by
        apply hsame b (List.mem_cons_self _ _)
        intro hc
        subst hc
        exact (List.nodup_cons.mp hnd).1 h
      rw [List.countP_cons, List.countP_cons, hfa] at *
      have := ih f g p0 (List.nodup_cons.mp hnd).2 h
        (fun p hp hne => hsame p (List.mem_cons_of_mem _ hp) hne)
      omega

theorem rasterCoords_nodup (w h : Nat) : (rasterCoords w h).Nodup := by
  unfold rasterCoords
  rw [List.nodup_flatMap]
  constructor
  · intro yn _
    apply List.Nodup.map
    · intro a b he
      have := congrArg Prod.fst he
      simpa using this
    · exact List.nodup_range w
  · apply List.Pairwise.imp ?_ (List.pairwise_lt_range h)
    intro y1 y2 hlt
    rw [Function.onFun, List.disjoint_left]
    intro p hp1 hp2
    rw [List.mem_map] at hp1 hp2
    obtain ⟨x1, _, he1⟩ := hp1
    obtain ⟨x2, _, he2⟩ := hp2
    have h1 : ((y1 : Int)) = p.2 := by rw [← he1]
    have h2 : ((y2 : Int)) = p.2 := by rw [← he2]
    omega

/-! ## The scan flags as functions of the cell value alone -/

def valChar (v : Int) : Bool := v != -1 && pyland v 0x10 != 0

def valDest (v : Int) : Bool := v != -1 && pyland v 0x20 != 0

def valBox (v : Int) : Bool := v != -1 && pyland v 0x40 != 0

def valUns (v : Int) : Bool := valBox v && pyland v 0x20 == 0

theorem flag_of_cellData {w h : Nat} {a : List Int} {x y : Int} {v}
    (hlen : a.length = w * h) (hb : InB w h x y)
    (hok : cellData w h a x y = .ok v) :
    flagChar v = valChar (cellVal w a x y) ∧ flagDest v = valDest (cellVal w a x y) ∧
    flagBox v = valBox (cellVal w a x y) ∧ flagUns v = valUns (cellVal w a x y) := by
  rcases cellData_ok_elim hlen hb hok with ⟨h0, hv⟩ | ⟨hopen, hv⟩
  · subst hv
    rcases h0 with h | h <;> rw [h] <;>
      refine ⟨by decide, by decide, by decide, by decide⟩
  · subst hv
    have hne := (validOpen_ne_wall _ hopen.1).2
    have hb1 : (cellVal w a x y != -1) = true := by simp [hne]
    refine ⟨?_, ?_, ?_, ?_⟩
    · simp [flagChar, valChar, hb1]
    · simp [flagDest, valDest, hb1]
    · simp [flagBox, valBox, hb1]
    · simp only [flagUns, valBox, valUns, hb1, Bool.true_and]
      by_cases h2 : pyland (cellVal w a x y) 0x20 = 0
      · simp [h2]
      · have h2a : (pyland (cellVal w a x y) 0x20 != 0) = true := by simp [bne_iff_ne, h2]
        have h2b : (pyland (cellVal w a x y) 0x20 == 0) = false := by simp [h2]
        rw [h2a, h2b]
        simp

/-- `validateScan` as pure counts of the per-value flags. -/
theorem validateScan_val_eq {w h : Nat} {a : List Int}
    (hlen : a.length = w * h)
    (hall : ∀ p ∈ rasterCoords w h, ∃ v, cellData w h a p.1 p.2 = .ok v) :
    validateScan w h a = .ok
      { total_box := ((rasterCoords w h).countP (fun p => valBox (cellVal w a p.1 p.2)) : Int),
        total_dest := ((rasterCoords w h).countP (fun p => valDest (cellVal w a p.1 p.2)) : Int),
        total_unsolved := ((rasterCoords w h).countP (fun p => valUns (cellVal w a p.1 p.2)) : Int),
        total_character := ((rasterCoords w h).countP (fun p => valChar (cellVal w a p.1 p.2)) : Int),
        character := match ((rasterCoords w h).filter
            (fun p => valChar (cellVal w a p.1 p.2))).getLast? with
          | some p => some p
          | none => none } := by
  have hflags : ∀ p ∈ rasterCoords w h,
      flagChar (cellDataD w h a p.1 p.2) = valChar (cellVal w a p.1 p.2) ∧
      flagDest (cellDataD w h a p.1 p.2) = valDest (cellVal w a p.1 p.2) ∧
      flagBox (cellDataD w h a p.1 p.2) = valBox (cellVal w a p.1 p.2) ∧
      flagUns (cellDataD w h a p.1 p.2) = valUns (cellVal w a p.1 p.2) := by
    intro p hp
    obtain ⟨v, hv⟩ := hall p hp
    have hb : InB w h p.1 p.2 := mem_rasterCoords.mp (by obtain ⟨p1, p2⟩ := p; exact hp)
    have := flag_of_cellData hlen hb hv
    rwa [show cellDataD w h a p.1 p.2 = v by simp [cellDataD, hv, Except.toOption]]
  rw [validateScan_eq hall]
  congr 1
  apply ScanAcc.ext' <;> simp only
  · exact_mod_cast congrArg Nat.cast
      (List.countP_congr (fun p hp => by rw [(hflags p hp).2.2.1]))
  · exact_mod_cast congrArg Nat.cast
      (List.countP_congr (fun p hp => by rw [(hflags p hp).2.1]))
  · exact_mod_cast congrArg Nat.cast
      (List.countP_congr (fun p hp => by rw [(hflags p hp).2.2.2]))
  · exact_mod_cast congrArg Nat.cast
      (List.countP_congr (fun p hp => by rw [(hflags p hp).1]))
  · rw [List.filter_congr (fun p hp => by rw [(hflags p hp).1])]

theorem filter_eq_singleton {α : Type} [DecidableEq α] :
    ∀ (l : List α) (q : α → Bool) (p0 : α), l.Nodup → p0 ∈ l →
      (∀ p ∈ l, (q p = true ↔ p = p0)) → l.filter q = [p0] := by
  intro l
  induction l with
  | nil => intro q p0 _ hm; simp at hm
  | cons b t ih =>
    intro q p0 hnd hm hiff
    rcases List.mem_cons.mp hm with h | h
    · subst h
      rw [List.filter_cons]
      have hq : q p0 = true := (hiff p0 (List.mem_cons_self _ _)).mpr rfl
      have ht : t.filter q = [] := by
        rw [List.filter_eq_nil_iff]
        intro p hp hqq
        have := (hiff p (List.mem_cons_of_mem _ hp)).mp hqq
        subst this
        exact (List.nodup_cons.mp hnd).1 hp
      simp [hq, ht]
    · have hb : q b = false := by
        by_cases hq : q b = true
        · exfalso
          have := (hiff b (List.mem_cons_self _ _)).mp hq
          subst this
          exact (List.nodup_cons.mp hnd).1 h
        · simpa using hq
      rw [List.filter_cons, if_neg (by simp [hb])]
      exact ih q p0 (List.nodup_cons.mp hnd).2 h
        (fun p hp => hiff p (List.mem_cons_of_mem _ hp))

theorem validateTotals_elim {acc : ScanAcc} (h : validateTotals acc = .ok ()) :
    acc.total_character = 1 ∧ acc.total_box ≠ 0 ∧ acc.total_box = acc.total_dest := by
  unfold validateTotals at h
  by_cases h1 : (acc.total_character != 1) = true
  · rw [if_pos h1] at h
    exact absurd h (by simp)
  · rw [if_neg h1] at h
    by_cases h2 : (acc.total_box == 0) = true
    · rw [if_pos h2] at h
      exact absurd h (by simp)
    · rw [if_neg h2] at h
      by_cases h3 : (acc.total_box != acc.total_dest) = true
      · rw [if_pos h3] at h
        exact absurd h (by simp)
      · simp only [Bool.not_eq_true, bne_eq_false_iff_eq] at h1 h3
        simp only [Bool.not_eq_true, beq_eq_false_iff_ne, ne_eq] at h2
        exact ⟨h1, h2, h3⟩

/-- The facts `validate` gives about the character cell of a validated
board: it is in bounds, open, carries the character flag and no box flag,
and no other cell carries the character flag. -/
theorem validated_char_facts {b : skb_map} (hval : b.Validated) :
    InB b.width b.height b.character.1 b.character.2 ∧
    valChar (cellVal b.width b.array b.character.1 b.character.2) = true ∧
    OpenCellOK b.width b.height b.array b.character.1 b.character.2 ∧
    pyland (cellVal b.width b.array b.character.1 b.character.2) 0x40 = 0 ∧
    (∀ p ∈ rasterCoords b.width b.height, p ≠ b.character →
      valChar (cellVal b.width b.array p.1 p.2) = false) := by
  obtain ⟨hlen, hlenr, acc, hacc, htot, hbox, hdest, huns, hchar⟩ := hval
  have hall := validateScan_cells_ok hacc
  have hveq := validateScan_val_eq hlen hall
  rw [hacc] at hveq
  have hacc' := (Except.ok.injEq _ _).mp hveq
  have hcharacc : acc.character = some b.character := hchar
  rw [hacc'] at hcharacc
  simp only at hcharacc
  have hmemfil : b.character ∈ (rasterCoords b.width b.height).filter
      (fun p => valChar (cellVal b.width b.array p.1 p.2)) := by
    cases hgl : ((rasterCoords b.width b.height).filter
        (fun p => valChar (cellVal b.width b.array p.1 p.2))).getLast? with
    | none => rw [hgl] at hcharacc; simp at hcharacc
    | some p =>
      rw [hgl] at hcharacc
      simp only [Option.some.injEq] at hcharacc
      subst hcharacc
      exact List.mem_of_mem_getLast? hgl
  have hmemr : b.character ∈ rasterCoords b.width b.height :=
    (List.mem_filter.mp hmemfil).1
  have hvc : valChar (cellVal b.width b.array b.character.1 b.character.2) = true :=
    (List.mem_filter.mp hmemfil).2
  have hb : InB b.width b.height b.character.1 b.character.2 := by
    have hm2 := hmemr
    rw [show b.character = (b.character.1, b.character.2) from rfl] at hm2
    exact mem_rasterCoords.mp hm2
  have hcount1 : (rasterCoords b.width b.height).countP
      (fun p => valChar (cellVal b.width b.array p.1 p.2)) = 1 := by
    have h1 := (validateTotals_elim htot).1
    rw [hacc'] at h1
    simp only at h1
    exact_mod_cast h1
  have hlen1 : ((rasterCoords b.width b.height).filter
      (fun p => valChar (cellVal b.width b.array p.1 p.2))).length = 1 := by
    rw [← List.countP_eq_length_filter]
    exact hcount1
  obtain ⟨q, hq1⟩ := List.length_eq_one.mp hlen1
  have hbq : b.character = q := by
    rw [hq1] at hmemfil
    simpa using hmemfil
  have huniq : ∀ p ∈ rasterCoords b.width b.height, p ≠ b.character →
      valChar (cellVal b.width b.array p.1 p.2) = false := by
    intro p hp hne
    by_cases hq : valChar (cellVal b.width b.array p.1 p.2) = true
    · exfalso
      have hpfil : p ∈ (rasterCoords b.width b.height).filter
          (fun p => valChar (cellVal b.width b.array p.1 p.2)) :=
        List.mem_filter.mpr ⟨hp, hq⟩
      rw [hq1] at hpfil
      simp only [List.mem_singleton] at hpfil
      exact hne (by rw [hpfil, hbq])
    · simpa using hq
  obtain ⟨v, hv⟩ := hall b.character hmemr
  rcases cellData_ok_elim hlen hb hv with ⟨h0, _⟩ | ⟨hopen, _⟩
  · exfalso
    rcases h0 with h0 | h0 <;> rw [h0] at hvc <;> exact absurd hvc (by decide)
  · have hnb : pyland (cellVal b.width b.array b.character.1 b.character.2) 0x40 = 0 := by
      have hcb := hopen.2.2.2.2.2.2.2.2.2.2
      have hch : pyland (cellVal b.width b.array b.character.1 b.character.2) 0x10 ≠ 0 := by
        unfold valChar at hvc
        simp only [Bool.and_eq_true, bne_iff_ne, ne_eq] at hvc
        exact hvc.2
      by_cases h40 : pyland (cellVal b.width b.array b.character.1 b.character.2) 0x40 = 0
      · exact h40
      · exact absurd ⟨hch, h40⟩ hcb
    exact ⟨hb, hvc, hopen, hnb, huniq⟩

/-! ## The dead-corner detector only sees walls and destination bits -/

/-- Two arrays with the same walls (`= 0` cells) and the same destination
bits; other open-value flag differences are allowed. -/
def SameWallsDest (a a' : List Int) : Prop :=
  a'.length = a.length ∧
  ∀ n : Nat, n < a.length →
    a'.getD n 0 = a.getD n 0 ∨
    (a.getD n 0 ∈ validOpenVals ∧ a'.getD n 0 ∈ validOpenVals ∧
     pyland (a'.getD n 0) 0x20 = pyland (a.getD n 0) 0x20)

theorem pyGet_rel {a a' : List Int} (h : SameWallsDest a a') (i : Int) :
    (pyGet a i = .error "IndexError" ∧ pyGet a' i = .error "IndexError") ∨
    (∃ v v', pyGet a i = .ok v ∧ pyGet a' i = .ok v' ∧
      (v' = v ∨ (v ∈ validOpenVals ∧ v' ∈ validOpenVals ∧
        pyland v' 0x20 = pyland v 0x20))) := by
  obtain ⟨hlen, hrel⟩ := h
  unfold pyGet
  rw [hlen]
  by_cases h1 : 0 ≤ i ∧ i < (a.length : Int)
  · rw [if_pos h1, if_pos h1]
    right
    refine ⟨_, _, rfl, rfl, ?_⟩
    have := hrel i.toNat (by omega)
    tauto
  · rw [if_neg h1, if_neg h1]
    by_cases h2 : -(a.length : Int) ≤ i ∧ i < 0
    · rw [if_pos h2, if_pos h2]
      right
      refine ⟨_, _, rfl, rfl, ?_⟩
      have := hrel ((a.length : Int) + i).toNat (by omega)
      tauto
    · rw [if_neg h2, if_neg h2]
      left
      exact ⟨rfl, rfl⟩

theorem is_wallA_congr {w : Nat} {a a' : List Int} (h : SameWallsDest a a') (x y : Int) :
    is_wallA w a' x y = is_wallA w a x y := by
  unfold is_wallA elemA
  rcases pyGet_rel h (x + y * (w : Int)) with ⟨h1, h2⟩ | ⟨v, v', h1, h2, h3⟩
  · rw [h1, h2]
  · rw [h1, h2]
    rcases h3 with h3 | ⟨hm, hm', _⟩
    · rw [h3]
    · have hv := (validOpen_ne_wall _ hm).1
      have hv' := (validOpen_ne_wall _ hm').1
      simp [Bind.bind, Except.bind, pure, Except.pure, hv, hv']

theorem is_dead_cornerA_congr {w : Nat} {a a' : List Int} (h : SameWallsDest a a')
    (x y : Int) : is_dead_cornerA w a' x y = is_dead_cornerA w a x y := by
  unfold is_dead_cornerA
  rw [is_wallA_congr h (x+1) y, is_wallA_congr h x (y+1), is_wallA_congr h x (y-1),
    is_wallA_congr h (x-1) y]
  rcases pyGet_rel h (x + y * (w : Int)) with ⟨h1, h2⟩ | ⟨v, v', h1, h2, h3⟩
  · unfold elemA
    rw [h1, h2]
  · unfold elemA
    rw [h1, h2]
    rcases h3 with h3 | ⟨_, _, hdst⟩
    · rw [h3]
    · simp only [Bind.bind, Except.bind, hdst]

/-! ## `resolve_reachable` succeeds and preserves the grid size -/

theorem floodPass_length (w h : Nat) (g : List Int) :
    (floodPass w h g).length = g.length := by
  unfold floodPass
  generalize rasterCoords w h = l
  induction l generalizing g with
  | nil => rfl
  | cons p t ih =>
    rw [List.foldl_cons]
    by_cases hc : (floodEligible (cellAt w g p.1 p.2) &&
        (isMarked w g (p.1+1) p.2 || isMarked w g (p.1-1) p.2 ||
         isMarked w g p.1 (p.2+1) || isMarked w g p.1 (p.2-1))) = true
    · rw [if_pos hc, ih]
      exact List.length_set ..
    · rw [if_neg hc, ih]

theorem floodIter_length (n w h : Nat) (g : List Int) :
    (floodIter n w h g).length = g.length := by
  induction n generalizing g with
  | zero => rfl
  | succ m ih =>
    unfold floodIter
    by_cases hc : (floodPass w h g == g) = true
    · rw [if_pos hc]
    · rw [if_neg hc, ih, floodPass_length]

theorem resolve_reachableA_ok {w h : Nat} {a : List Int} (hlen : a.length = w * h)
    {c : Int × Int} (hb : InB w h c.1 c.2) :
    ∃ r, resolve_reachableA w h a c = .ok r ∧ r.length = w * h := by
  unfold resolve_reachableA
  dsimp only
  have hnn := idx_nonneg hb
  have hlt : c.1 + c.2 * (w : Int) < (a.length : Int) := by
    rw [hlen]; exact_mod_cast idx_lt hb
  rw [pyGet_ok a _ hnn hlt]
  simp only [Bind.bind, Except.bind]
  rw [pySet_ok a _ _ hnn hlt]
  simp only [Bind.bind, Except.bind]
  have hlen1 : (a.set (c.1 + c.2 * (w : Int)).toNat
      (pyland (a.getD (c.1 + c.2 * (w : Int)).toNat 0) (pynot 0x10))).length = a.length :=
    List.length_set ..
  rw [pyGet_ok _ _ hnn (by rw [hlen1]; exact hlt)]
  simp only [Bind.bind, Except.bind]
  rw [pySet_ok _ _ _ hnn (by rw [hlen1]; exact hlt)]
  simp only [Bind.bind, Except.bind, pure, Except.pure]
  refine ⟨_, rfl, ?_⟩
  rw [floodIter_length, List.length_set, hlen1, hlen]

/-! ## Flat indices versus coordinates -/

theorem flat_coords {w h n : Nat} (hn : n < w * h) :
    InB w h ((n % w : Nat) : Int) ((n / w : Nat) : Int) ∧
    (((n % w : Nat) : Int) + ((n / w : Nat) : Int) * (w : Int)).toNat = n := by
  have hw : 0 < w := by
    rcases Nat.eq_zero_or_pos w with h0 | h0
    · rw [h0] at hn; simp at hn
    · exact h0
  have h1 : n % w < w := Nat.mod_lt _ hw
  have h2 : n / w < h := (Nat.div_lt_iff_lt_mul hw).mpr (by rw [Nat.mul_comm]; exact hn)
  refine ⟨⟨by positivity, by exact_mod_cast h1, by positivity, by exact_mod_cast h2⟩, ?_⟩
  have : ((n % w : Nat) : Int) + ((n / w : Nat) : Int) * (w : Int) = ((n % w + n / w * w : Nat) : Int) := by
    push_cast
    ring
  rw [this, Int.toNat_ofNat]
  rw [Nat.mod_add_div']

theorem cellVal_flat {w h : Nat} {a : List Int} {n : Nat} (hn : n < w * h) :
    cellVal w a ((n % w : Nat) : Int) ((n / w : Nat) : Int) = a.getD n 0 := by
  unfold cellVal
  rw [(flat_coords hn).2]

theorem update_element_inb {b : skb_map} {x y : Int} (v : Int)
    (hlen : b.array.length = b.width * b.height) (hb : InB b.width b.height x y) :
    b.update_element x y v =
      .ok { b with array := b.array.set (x + y * (b.width : Int)).toNat v } := by
  unfold skb_map.update_element
  rw [pySet_inb v hlen hb]
  rfl

theorem mem_legalMovesSpec_raster {b : skb_map} {m : Int × Int × Dir}
    (hm : m ∈ legalMovesSpec b) : (m.1, m.2.1) ∈ rasterCoords b.width b.height := by
  unfold legalMovesSpec at hm
  rw [List.mem_flatMap] at hm
  obtain ⟨p, hp, hmm⟩ := hm
  rw [List.mem_map] at hmm
  obtain ⟨d, _, he⟩ := hmm
  subst he
  simpa using hp

theorem box40_cases : ∀ e ∈ validOpenVals, pyland e 0x40 = 0 ∨ pyland e 0x40 = 0x40 := by
  decide

theorem box20_cases : ∀ e ∈ validOpenVals, pyland e 0x20 = 0 ∨ pyland e 0x20 = 0x20 := by
  decide

/-! ## The pure value of the board after a move

`createSteps` is `create_new_map_by_move` with the direction dispatch
already resolved to the target coordinates `(nx, ny)`; the `arrK`
definitions name the successive cell arrays the body writes, and
`moveBoard` the resulting record, so that the success of the whole chain
can be stated as one equation. -/

def createSteps (b : skb_map) (x y nx ny : Int) : Except String skb_map := do
  let ec ← b.element b.character.1 b.character.2
  let nm ← b.update_element b.character.1 b.character.2 (pyland ec (pynot 0x10))
  let e2 ← nm.element x y
  let nm ← nm.update_element x y (pyland e2 (pynot 0x40))
  let e3 ← nm.element x y
  let nm := if pyland e3 0x20 != 0 then { nm with unsolved := nm.unsolved + 1 } else nm
  let e4 ← nm.element nx ny
  let nm ← nm.update_element nx ny (pylor e4 0x40)
  let e5 ← nm.element nx ny
  let nm := if pyland e5 0x20 != 0 then { nm with unsolved := nm.unsolved - 1 } else nm
  let nm := { nm with character := (x, y) }
  let e6 ← nm.element x y
  let nm ← nm.update_element x y (pylor e6 0x10)
  let reach ← resolve_reachableA nm.width nm.height nm.array nm.character
  let nm := { nm with reachable := reach }
  nm.validate true

theorem create_unfold (b : skb_map) (x y : Int) (d : Dir) :
    b.create_new_map_by_move x y d = (do
      let e ← b.element x y
      if pyland e 0x40 == 0 then .error "bad move attemp"
      else createSteps b x y (targetCell x y d).1 (targetCell x y d).2) := by
  cases d <;> rfl

def arr1 (b : skb_map) : List Int :=
  b.array.set (b.character.1 + b.character.2 * (b.width : Int)).toNat
    (pyland (cellVal b.width b.array b.character.1 b.character.2) (pynot 0x10))

def arr2 (b : skb_map) (x y : Int) : List Int :=
  (arr1 b).set (x + y * (b.width : Int)).toNat
    (pyland (cellVal b.width (arr1 b) x y) (pynot 0x40))

def arr3 (b : skb_map) (x y nx ny : Int) : List Int :=
  (arr2 b x y).set (nx + ny * (b.width : Int)).toNat
    (pylor (cellVal b.width (arr2 b x y) nx ny) 0x40)

def arr4 (b : skb_map) (x y nx ny : Int) : List Int :=
  (arr3 b x y nx ny).set (x + y * (b.width : Int)).toNat
    (pylor (cellVal b.width (arr3 b x y nx ny) x y) 0x10)

def uns1 (b : skb_map) (x y : Int) : Int :=
  if pyland (cellVal b.width (arr2 b x y) x y) 0x20 != 0 then b.unsolved + 1
  else b.unsolved

def uns2 (b : skb_map) (x y nx ny : Int) : Int :=
  if pyland (cellVal b.width (arr3 b x y nx ny) nx ny) 0x20 != 0 then uns1 b x y - 1
  else uns1 b x y

def moveBoard (b : skb_map) (x y nx ny : Int) (reach : List Int) : skb_map :=
  { width := b.width, height := b.height, array := arr4 b x y nx ny,
    box := b.box, dest := b.dest, unsolved := uns2 b x y nx ny,
    character := (x, y), reachable := reach }

theorem validate_true_of_validated {b : skb_map} (hval : b.Validated) :
    b.validate true = .ok b := by
  obtain ⟨hlen, hlenr, acc, hacc, htot, hbx, hds, hus, hch⟩ := hval
  unfold skb_map.validate
  rw [hacc]
  simp only [Bind.bind, Except.bind]
  rw [htot]
  simp only [Except.bind, if_true]
  have h1 : (b.box != acc.total_box || b.dest != acc.total_dest ||
      b.unsolved != acc.total_unsolved) = false := by
    simp [hbx, hds, hus]
  rw [h1]
  simp only [Bool.false_eq_true, if_false]
  have h2 : (some b.character != acc.character) = false := by
    simp [hch]
  rw [h2]
  simp [pure, Except.pure]

theorem createSteps_eq (b : skb_map) (x y nx ny : Int)
    (hw : b.array.length = b.width * b.height)
    (hbxy : InB b.width b.height x y)
    (hc : InB b.width b.height b.character.1 b.character.2)
    (ht : InB b.width b.height nx ny) :
    ∃ reach, resolve_reachableA b.width b.height (arr4 b x y nx ny) (x, y) = .ok reach ∧
      reach.length = b.width * b.height ∧
      createSteps b x y nx ny = (moveBoard b x y nx ny reach).validate true := by
  have hl1 : (arr1 b).length = b.width * b.height := by
    unfold arr1; rw [List.length_set]; exact hw
  have hl2 : (arr2 b x y).length = b.width * b.height := by
    unfold arr2; rw [List.length_set]; exact hl1
  have hl3 : (arr3 b x y nx ny).length = b.width * b.height := by
    unfold arr3; rw [List.length_set]; exact hl2
  have hl4 : (arr4 b x y nx ny).length = b.width * b.height := by
    unfold arr4; rw [List.length_set]; exact hl3
  obtain ⟨reach, hres, hrlen⟩ := resolve_reachableA_ok hl4 (c := (x, y)) hbxy
  refine ⟨reach, hres, hrlen, ?_⟩
  unfold arr4 arr3 arr2 arr1 at hres
  unfold arr1 at hl1
  unfold arr2 arr1 at hl2
  unfold arr3 arr2 arr1 at hl3
  unfold createSteps moveBoard uns2 uns1 arr4 arr3 arr2 arr1
  simp only [skb_map.element, skb_map.update_element]
  rw [elemA_inb hw hc]
  simp only [Bind.bind, Except.bind, pure, Except.pure]
  rw [pySet_inb _ hw hc]
  simp only [Except.bind]
  rw [elemA_inb hl1 hbxy]
  dsimp only
  rw [pySet_inb _ hl1 hbxy]
  dsimp only
  rw [elemA_inb hl2 hbxy]
  dsimp only
  simp only [apply_ite skb_map.width, apply_ite skb_map.height, apply_ite skb_map.array,
    apply_ite skb_map.box, apply_ite skb_map.dest, apply_ite skb_map.unsolved,
    apply_ite skb_map.character, apply_ite skb_map.reachable, ite_self]
  rw [elemA_inb hl2 ht]
  dsimp only
  rw [pySet_inb _ hl2 ht]
  dsimp only
  rw [elemA_inb hl3 ht]
  dsimp only
  rw [elemA_inb hl3 hbxy]
  dsimp only
  rw [pySet_inb _ hl3 hbxy]
  dsimp only
  rw [hres]

/-! ## Counting and flag helpers for the preservation proof -/

theorem countP_swap {α : Type} [DecidableEq α] (l : List α) (f g : α → Bool)
    (p q : α) (hnd : l.Nodup) (hp : p ∈ l) (hq : q ∈ l) (hpq : p ≠ q)
    (hsame : ∀ r ∈ l, r ≠ p → r ≠ q → f r = g r)
    (hfp : f p = true) (hgp : g p = false) (hfq : f q = false) (hgq : g q = true) :
    l.countP f = l.countP g := by
  have e1 := countP_one_change l f (fun r => if r = p then false else f r) p hnd hp
    (fun r _ hr => by
      show f r = if r = p then false else f r
      rw [if_neg hr])
  have e2 := countP_one_change l (fun r => if r = p then false else f r) g q hnd hq
    (fun r hrl hr => by
      show (if r = p then false else f r) = g r
      by_cases hc : r = p
      · rw [if_pos hc, hc, hgp]
      · rw [if_neg hc]
        exact hsame r hrl hc hr)
  have hmidp : (fun r => if r = p then false else f r) p = false := by simp
  have hmidq : (fun r => if r = p then false else f r) q = false := by
    simp only
    rw [if_neg (fun hc => hpq hc.symm)]
    exact hfq
  rw [hmidp, hfp] at e1
  rw [hgq, hmidq] at e2
  simp at e1 e2
  omega

theorem validateTotals_intro {acc : ScanAcc} (h1 : acc.total_character = 1)
    (h2 : acc.total_box ≠ 0) (h3 : acc.total_box = acc.total_dest) :
    validateTotals acc = .ok () := by
  unfold validateTotals
  have c1 : (acc.total_character != 1) = false := by simp [h1]
  rw [c1]
  simp only [Bool.false_eq_true, if_false]
  have c2 : (acc.total_box == 0) = false := by simp [h2]
  rw [c2]
  simp only [Bool.false_eq_true, if_false]
  have c3 : (acc.total_box != acc.total_dest) = false := by simp [h3]
  rw [c3]
  simp only [Bool.false_eq_true, if_false]
  rfl

theorem valBox_zero {v : Int} (h : pyland v 0x40 = 0) : valBox v = false := by
  unfold valBox
  rw [h]
  simp

theorem valBox_one {v : Int} (h1 : v ≠ -1) (h2 : pyland v 0x40 ≠ 0) : valBox v = true := by
  unfold valBox
  simp [h1, h2]

theorem valChar_zero {v : Int} (h : pyland v 0x10 = 0) : valChar v = false := by
  unfold valChar
  rw [h]
  simp

theorem valChar_one {v : Int} (h1 : v ≠ -1) (h2 : pyland v 0x10 ≠ 0) : valChar v = true := by
  unfold valChar
  simp [h1, h2]

theorem char_bit_zero {v : Int} (h : valChar v = false) (h1 : v ≠ -1) :
    pyland v 0x10 = 0 := by
  by_cases h2 : pyland v 0x10 = 0
  · exact h2
  · rw [valChar_one h1 h2] at h
    exact absurd h (by simp)

theorem valUns_zero {v : Int} (h : pyland v 0x40 = 0) : valUns v = false := by
  unfold valUns
  rw [valBox_zero h]
  simp

theorem valUns_box {v : Int} (h1 : v ≠ -1) (h2 : pyland v 0x40 ≠ 0) :
    valUns v = (pyland v 0x20 == 0) := by
  unfold valUns
  rw [valBox_one h1 h2]
  simp

theorem valDest_congr2 {u v : Int} (hu : u ∈ validOpenVals) (hv : v ∈ validOpenVals)
    (h20 : pyland v 0x20 = pyland u 0x20) : valDest v = valDest u := by
  unfold valDest
  rw [h20]
  have h1 : (u != -1) = true := by simp [(validOpen_ne_wall _ hu).2]
  have h2 : (v != -1) = true := by simp [(validOpen_ne_wall _ hv).2]
  rw [h1, h2]

/-- The board produced by a legal move still satisfies every invariant that
`validate` checks, with the cached counts matching the recomputed ones. -/
theorem moveBoard_validated {b : skb_map} (hval : b.Validated) {x y nx ny : Int}
    (hbxy : InB b.width b.height x y)
    (hopenb : OpenCellOK b.width b.height b.array x y)
    (he40 : pyland (cellVal b.width b.array x y) 0x40 = 0x40)
    (ht : InB b.width b.height nx ny)
    (hopent : OpenCellOK b.width b.height b.array nx ny)
    (ht40 : pyland (cellVal b.width b.array nx ny) 0x40 = 0)
    (hdct : is_dead_cornerA b.width b.array nx ny = .ok false)
    (hne_tb : (nx, ny) ≠ (x, y))
    (reach : List Int) (hrlen : reach.length = b.width * b.height) :
    (moveBoard b x y nx ny reach).Validated := by
  have hva := hval.validatedArr
  obtain ⟨hcIn, hvcE, hopenc, hc40, huniq⟩ := validated_char_facts hval
  obtain ⟨hlen, hlenr, acc, hacc, htot, hbx, hds, hus, hch⟩ := hval
  have hall := validateScan_cells_ok hacc
  have hveq := validateScan_val_eq hlen hall
  rw [hacc] at hveq
  have hacc2 := (Except.ok.injEq _ _).mp hveq
  subst hacc2
  obtain ⟨htc, htb, htbd⟩ := validateTotals_elim htot
  dsimp only at hbx hds hus htc htb htbd
  set e := cellVal b.width b.array x y with he_def
  set t := cellVal b.width b.array nx ny with ht_def
  set ec := cellVal b.width b.array b.character.1 b.character.2 with hec_def
  have hBC : (b.character.1, b.character.2) ≠ (x, y) := by
    intro hc
    rw [Prod.mk.injEq] at hc
    rw [hec_def, hc.1, hc.2, ← he_def] at hc40
    exact absurd (hc40.symm.trans he40) (by decide)
  have hl1 : (arr1 b).length = b.width * b.height := by
    unfold arr1
    rw [List.length_set]
    exact hlen
  have hl2 : (arr2 b x y).length = b.width * b.height := by
    unfold arr2
    rw [List.length_set]
    exact hl1
  have hl3 : (arr3 b x y nx ny).length = b.width * b.height := by
    unfold arr3
    rw [List.length_set]
    exact hl2
  have hl4 : (arr4 b x y nx ny).length = b.width * b.height := by
    unfold arr4
    rw [List.length_set]
    exact hl3
  have hA1c : cellVal b.width (arr1 b) b.character.1 b.character.2 =
      pyland ec (pynot 0x10) := by
    unfold arr1
    rw [cellVal_set_self _ hlen hcIn, ← hec_def]
  have hA1o : ∀ x' y', InB b.width b.height x' y' →
      (x', y') ≠ (b.character.1, b.character.2) →
      cellVal b.width (arr1 b) x' y' = cellVal b.width b.array x' y' := by
    intro x' y' hb' hne
    unfold arr1
    exact cellVal_set_other _ hcIn hb' (fun hc => hne hc.symm)
  have hA1B : cellVal b.width (arr1 b) x y = e :=
    (hA1o x y hbxy (fun hc => hBC hc.symm)).trans he_def.symm
  have hA2B : cellVal b.width (arr2 b x y) x y = pyland e (pynot 0x40) := by
    unfold arr2
    rw [cellVal_set_self _ hl1 hbxy, hA1B]
  have hA2o : ∀ x' y', InB b.width b.height x' y' → (x', y') ≠ (x, y) →
      cellVal b.width (arr2 b x y) x' y' = cellVal b.width (arr1 b) x' y' := by
    intro x' y' hb' hne
    unfold arr2
    exact cellVal_set_other _ hbxy hb' (fun hc => hne hc.symm)
  set d4 := cellVal b.width (arr2 b x y) nx ny with hd4_def
  obtain ⟨mc1, mc2, mc3, mc4⟩ := clearChar_mem ec hopenc.1
  have hd4 : d4 ∈ validOpenVals ∧ pyland d4 0x40 = 0 ∧ pyland d4 0x10 = 0 ∧
      pyland d4 0x20 = pyland t 0x20 := by
    by_cases hTC : (nx, ny) = (b.character.1, b.character.2)
    · rw [Prod.mk.injEq] at hTC
      have htec : t = ec := by rw [ht_def, hec_def, hTC.1, hTC.2]
      have hvd : d4 = pyland ec (pynot 0x10) := by
        rw [hd4_def, hA2o nx ny ht hne_tb, hTC.1, hTC.2, hA1c]
      refine ⟨hvd ▸ mc1, ?_, hvd ▸ mc2, ?_⟩
      · rw [hvd, mc4]
        exact hc40
      · rw [hvd, mc3, htec]
    · have hvd : d4 = t := by
        rw [hd4_def, hA2o nx ny ht hne_tb, hA1o nx ny ht hTC, ht_def]
      have h10 : pyland t 0x10 = 0 := by
        apply char_bit_zero ?vf (validOpen_ne_wall _ hopent.1).2
        have hmem : (nx, ny) ∈ rasterCoords b.width b.height := mem_rasterCoords.mpr ht
        have hnep : (nx, ny) ≠ b.character := by
          intro hc
          exact hTC (by rw [hc])
        have hu := huniq (nx, ny) hmem hnep
        dsimp only at hu
        rw [← ht_def] at hu
        exact hu
      rw [hvd]
      exact ⟨hopent.1, ht40, h10, rfl⟩
  have hA3T : cellVal b.width (arr3 b x y nx ny) nx ny = pylor d4 0x40 := by
    unfold arr3
    rw [cellVal_set_self _ hl2 ht, ← hd4_def]
  have hA3o : ∀ x' y', InB b.width b.height x' y' → (x', y') ≠ (nx, ny) →
      cellVal b.width (arr3 b x y nx ny) x' y' = cellVal b.width (arr2 b x y) x' y' := by
    intro x' y' hb' hne
    unfold arr3
    exact cellVal_set_other _ ht hb' (fun hc => hne hc.symm)
  have hA3B : cellVal b.width (arr3 b x y nx ny) x y = pyland e (pynot 0x40) := by
    rw [hA3o x y hbxy (fun hc => hne_tb hc.symm), hA2B]
  have hA4B : cellVal b.width (arr4 b x y nx ny) x y =
      pylor (pyland e (pynot 0x40)) 0x10 := by
    unfold arr4
    rw [cellVal_set_self _ hl3 hbxy, hA3B]
  have hA4o : ∀ x' y', InB b.width b.height x' y' → (x', y') ≠ (x, y) →
      cellVal b.width (arr4 b x y nx ny) x' y' =
        cellVal b.width (arr3 b x y nx ny) x' y' := by
    intro x' y' hb' hne
    unfold arr4
    exact cellVal_set_other _ hbxy hb' (fun hc => hne hc.symm)
  have hA4T : cellVal b.width (arr4 b x y nx ny) nx ny = pylor d4 0x40 := by
    rw [hA4o nx ny ht hne_tb, hA3T]
  have hA4c : (b.character.1, b.character.2) ≠ (nx, ny) →
      cellVal b.width (arr4 b x y nx ny) b.character.1 b.character.2 =
        pyland ec (pynot 0x10) := by
    intro hne
    rw [hA4o _ _ hcIn hBC, hA3o _ _ hcIn hne, hA2o _ _ hcIn hBC, hA1c]
  have hA4oo : ∀ x' y', InB b.width b.height x' y' → (x', y') ≠ (x, y) →
      (x', y') ≠ (nx, ny) → (x', y') ≠ (b.character.1, b.character.2) →
      cellVal b.width (arr4 b x y nx ny) x' y' = cellVal b.width b.array x' y' := by
    intro x' y' hb' h1 h2 h3
    rw [hA4o _ _ hb' h1, hA3o _ _ hb' h2, hA2o _ _ hb' h1, hA1o _ _ hb' h3]
  obtain ⟨hcbVO, hcb40, hcb20, hcb10⟩ := clearBox_mem e hopenb.1
  obtain ⟨hvBVO, hvB10, hvB20, hvB40⟩ := setChar_mem _ hcbVO
  obtain ⟨hvTVO, hvT40, hvT20, hvT10⟩ := setBox_mem d4 hd4.1
  have hvB40z : pyland (pylor (pyland e (pynot 0x40)) 0x10) 0x40 = 0 := by
    rw [hvB40, hcb40]
  have hvB20e : pyland (pylor (pyland e (pynot 0x40)) 0x10) 0x20 = pyland e 0x20 := by
    rw [hvB20, hcb20]
  have hvB10n : pyland (pylor (pyland e (pynot 0x40)) 0x10) 0x10 ≠ 0 := by
    rw [hvB10]
    decide
  have hvT20t : pyland (pylor d4 0x40) 0x20 = pyland t 0x20 := by
    rw [hvT20, hd4.2.2.2]
  have hvT10z : pyland (pylor d4 0x40) 0x10 = 0 := by
    rw [hvT10, hd4.2.2.1]
  have hvT40n : pyland (pylor d4 0x40) 0x40 ≠ 0 := by
    rw [hvT40]
    decide
  have he40n : pyland e 0x40 ≠ 0 := by
    rw [he40]
    decide
  have hc40z : pyland (pyland ec (pynot 0x10)) 0x40 = 0 := by
    rw [mc4]
    exact hc40
  have hrelP : ∀ x' y', InB b.width b.height x' y' →
      cellVal b.width (arr4 b x y nx ny) x' y' = cellVal b.width b.array x' y' ∨
      (cellVal b.width b.array x' y' ∈ validOpenVals ∧
       cellVal b.width (arr4 b x y nx ny) x' y' ∈ validOpenVals ∧
       pyland (cellVal b.width (arr4 b x y nx ny) x' y') 0x20 =
         pyland (cellVal b.width b.array x' y') 0x20) := by
    intro x' y' hb'
    by_cases hB : (x', y') = (x, y)
    · right
      rw [Prod.mk.injEq] at hB
      rw [hB.1, hB.2, hA4B, ← he_def]
      exact ⟨hopenb.1, hvBVO, hvB20e⟩
    · by_cases hT : (x', y') = (nx, ny)
      · right
        rw [Prod.mk.injEq] at hT
        rw [hT.1, hT.2, hA4T, ← ht_def]
        exact ⟨hopent.1, hvTVO, hvT20t⟩
      · by_cases hC : (x', y') = (b.character.1, b.character.2)
        · right
          rw [Prod.mk.injEq] at hC
          have hcT : (b.character.1, b.character.2) ≠ (nx, ny) := by
            intro hcc
            exact hT (by rw [hC.1, hC.2, hcc])
          rw [hC.1, hC.2, hA4c hcT, ← hec_def]
          exact ⟨hopenc.1, mc1, mc3⟩
        · left
          exact hA4oo x' y' hb' hB hT hC
  have hne1 : ∀ x' y', InB b.width b.height x' y' → cellVal b.width b.array x' y' ≠ -1 →
      cellVal b.width (arr4 b x y nx ny) x' y' ≠ -1 := by
    intro x' y' hb' hold
    rcases hrelP x' y' hb' with h | ⟨_, hmem, _⟩
    · rw [h]
      exact hold
    · exact (validOpen_ne_wall _ hmem).2
  have hswd : SameWallsDest b.array (arr4 b x y nx ny) := by
    refine ⟨by rw [hl4, hlen], ?_⟩
    intro n hn
    have hn2 : n < b.width * b.height := by
      rw [← hlen]
      exact hn
    obtain ⟨hbco, _⟩ := flat_coords hn2
    have hr := hrelP _ _ hbco
    rw [cellVal_flat hn2, cellVal_flat hn2] at hr
    exact hr
  have hdcc : ∀ x' y', is_dead_cornerA b.width (arr4 b x y nx ny) x' y' =
      is_dead_cornerA b.width b.array x' y' := fun x' y' => is_dead_cornerA_congr hswd x' y'
  obtain ⟨hbVO, hbu1, hbu2, hbu3, hbu4, hbnl, hbnr, hbnu, hbnd, _, _⟩ := hopenb
  obtain ⟨htVO, htu1, htu2, htu3, htu4, htnl, htnr, htnu, htnd, _, _⟩ := hopent
  obtain ⟨hcVO, hcu1, hcu2, hcu3, hcu4, hcnl, hcnr, hcnu, hcnd, _, _⟩ := hopenc
  have hclass : ∀ x' y', InB b.width b.height x' y' →
      cellVal b.width (arr4 b x y nx ny) x' y' = 0 ∨
      cellVal b.width (arr4 b x y nx ny) x' y' = -1 ∨
      OpenCellOK b.width b.height (arr4 b x y nx ny) x' y' := by
    intro x' y' hb'
    by_cases hB : (x', y') = (x, y)
    · right
      right
      rw [Prod.mk.injEq] at hB
      obtain ⟨h1, h2⟩ := hB
      subst h1
      subst h2
      refine ⟨?_, hbu1, hbu2, hbu3, hbu4, ?_, ?_, ?_, ?_, ?_, ?_⟩
      · rw [hA4B]
        exact hvBVO
      · exact hne1 (x'-1) y' (by unfold InB at hb' ⊢; omega) hbnl
      · exact hne1 (x'+1) y' (by unfold InB at hb' ⊢; omega) hbnr
      · exact hne1 x' (y'-1) (by unfold InB at hb' ⊢; omega) hbnu
      · exact hne1 x' (y'+1) (by unfold InB at hb' ⊢; omega) hbnd
      · intro h40
        rw [hA4B] at h40
        exact absurd hvB40z h40
      · rw [hA4B]
        intro hcon
        exact hcon.2 hvB40z
    · by_cases hT : (x', y') = (nx, ny)
      · right
        right
        rw [Prod.mk.injEq] at hT
        obtain ⟨h1, h2⟩ := hT
        subst h1
        subst h2
        refine ⟨?_, htu1, htu2, htu3, htu4, ?_, ?_, ?_, ?_, ?_, ?_⟩
        · rw [hA4T]
          exact hvTVO
        · exact hne1 (x'-1) y' (by unfold InB at hb' ⊢; omega) htnl
        · exact hne1 (x'+1) y' (by unfold InB at hb' ⊢; omega) htnr
        · exact hne1 x' (y'-1) (by unfold InB at hb' ⊢; omega) htnu
        · exact hne1 x' (y'+1) (by unfold InB at hb' ⊢; omega) htnd
        · intro h40
          rw [hdcc]
          exact hdct
        · rw [hA4T]
          intro hcon
          exact hcon.1 hvT10z
      · by_cases hC : (x', y') = (b.character.1, b.character.2)
        · right
          right
          rw [Prod.mk.injEq] at hC
          obtain ⟨h1, h2⟩ := hC
          subst h1
          subst h2
          have hcT : (b.character.1, b.character.2) ≠ (nx, ny) := fun hcc => hT hcc
          refine ⟨?_, hcu1, hcu2, hcu3, hcu4, ?_, ?_, ?_, ?_, ?_, ?_⟩
          · rw [hA4c hcT]
            exact mc1
          · exact hne1 _ _ (by unfold InB at hb' ⊢; omega) hcnl
          · exact hne1 _ _ (by unfold InB at hb' ⊢; omega) hcnr
          · exact hne1 _ _ (by unfold InB at hb' ⊢; omega) hcnu
          · exact hne1 _ _ (by unfold InB at hb' ⊢; omega) hcnd
          · intro h40
            rw [hA4c hcT] at h40
            exact absurd hc40z h40
          · rw [hA4c hcT]
            intro hcon
            exact hcon.2 hc40z
        · have hsv : cellVal b.width (arr4 b x y nx ny) x' y' =
              cellVal b.width b.array x' y' := hA4oo x' y' hb' hB hT hC
          rcases hva x' y' hb' with h0 | h0 | h0
          · left
            rw [hsv]
            exact h0
          · right
            left
            rw [hsv]
            exact h0
          · obtain ⟨oVO, ou1, ou2, ou3, ou4, onl, onr, onu, ond, odc, ocb⟩ := h0
            right
            right
            refine ⟨?_, ou1, ou2, ou3, ou4, ?_, ?_, ?_, ?_, ?_, ?_⟩
            · rw [hsv]
              exact oVO
            · exact hne1 (x'-1) y' (by unfold InB at hb' ⊢; omega) onl
            · exact hne1 (x'+1) y' (by unfold InB at hb' ⊢; omega) onr
            · exact hne1 x' (y'-1) (by unfold InB at hb' ⊢; omega) onu
            · exact hne1 x' (y'+1) (by unfold InB at hb' ⊢; omega) ond
            · intro h40
              rw [hdcc]
              apply odc
              rw [hsv] at h40
              exact h40
            · rw [hsv]
              exact ocb
  have hall4 : ∀ p ∈ rasterCoords b.width b.height,
      ∃ v, cellData b.width b.height (arr4 b x y nx ny) p.1 p.2 = .ok v := by
    intro p hp
    have hb' : InB b.width b.height p.1 p.2 := by
      rw [show p = (p.1, p.2) from rfl] at hp
      exact mem_rasterCoords.mp hp
    rcases hclass p.1 p.2 hb' with h | h | h
    · exact ⟨none, cellData_skip_intro hl4 hb' (Or.inl h)⟩
    · exact ⟨none, cellData_skip_intro hl4 hb' (Or.inr h)⟩
    · exact ⟨_, cellData_open_intro hl4 hb' h⟩
  have hveq4 := validateScan_val_eq hl4 hall4
  have hnd := rasterCoords_nodup b.width b.height
  have hmB : (x, y) ∈ rasterCoords b.width b.height := mem_rasterCoords.mpr hbxy
  have hmT : (nx, ny) ∈ rasterCoords b.width b.height := mem_rasterCoords.mpr ht
  have hBoxEq : (rasterCoords b.width b.height).countP
        (fun p => valBox (cellVal b.width (arr4 b x y nx ny) p.1 p.2)) =
      (rasterCoords b.width b.height).countP
        (fun p => valBox (cellVal b.width b.array p.1 p.2)) := by
    apply countP_swap (rasterCoords b.width b.height) _ _ (nx, ny) (x, y) hnd hmT hmB hne_tb
    · intro r hr h1 h2
      obtain ⟨r1, r2⟩ := r
      have hbr : InB b.width b.height r1 r2 := mem_rasterCoords.mp hr
      show valBox (cellVal b.width (arr4 b x y nx ny) r1 r2) =
        valBox (cellVal b.width b.array r1 r2)
      by_cases hC : (r1, r2) = (b.character.1, b.character.2)
      · rw [Prod.mk.injEq] at hC
        obtain ⟨q1, q2⟩ := hC
        subst q1
        subst q2
        have hcT : (b.character.1, b.character.2) ≠ (nx, ny) := fun hcc => h1 hcc
        rw [hA4c hcT, ← hec_def, valBox_zero hc40z, valBox_zero hc40]
      · rw [hA4oo r1 r2 hbr h2 h1 hC]
    · show valBox (cellVal b.width (arr4 b x y nx ny) nx ny) = true
      rw [hA4T]
      exact valBox_one (validOpen_ne_wall _ hvTVO).2 hvT40n
    · show valBox (cellVal b.width b.array nx ny) = false
      rw [← ht_def]
      exact valBox_zero ht40
    · show valBox (cellVal b.width (arr4 b x y nx ny) x y) = false
      rw [hA4B]
      exact valBox_zero hvB40z
    · show valBox (cellVal b.width b.array x y) = true
      rw [← he_def]
      exact valBox_one (validOpen_ne_wall _ hbVO).2 he40n
  have hDestEq : (rasterCoords b.width b.height).countP
        (fun p => valDest (cellVal b.width (arr4 b x y nx ny) p.1 p.2)) =
      (rasterCoords b.width b.height).countP
        (fun p => valDest (cellVal b.width b.array p.1 p.2)) := by
    apply List.countP_congr
    intro r hr
    obtain ⟨r1, r2⟩ := r
    have hbr := mem_rasterCoords.mp hr
    show valDest (cellVal b.width (arr4 b x y nx ny) r1 r2) = true ↔
      valDest (cellVal b.width b.array r1 r2) = true
    have hbq : valDest (cellVal b.width (arr4 b x y nx ny) r1 r2) =
        valDest (cellVal b.width b.array r1 r2) := by
      rcases hrelP r1 r2 hbr with h | ⟨hmo, hmn, h20⟩
      · rw [h]
      · exact valDest_congr2 hmo hmn h20
    rw [hbq]
  have hCharIff : ∀ p ∈ rasterCoords b.width b.height,
      ((fun p => valChar (cellVal b.width (arr4 b x y nx ny) p.1 p.2)) p = true ↔
        p = (x, y)) := by
    intro p hp
    obtain ⟨r1, r2⟩ := p
    have hbr := mem_rasterCoords.mp hp
    show valChar (cellVal b.width (arr4 b x y nx ny) r1 r2) = true ↔ (r1, r2) = (x, y)
    constructor
    · intro hvc
      by_contra hne
      by_cases hT2 : (r1, r2) = (nx, ny)
      · rw [Prod.mk.injEq] at hT2
        obtain ⟨q1, q2⟩ := hT2
        subst q1
        subst q2
        rw [hA4T, valChar_zero hvT10z] at hvc
        exact absurd hvc (by simp)
      · by_cases hC : (r1, r2) = (b.character.1, b.character.2)
        · rw [Prod.mk.injEq] at hC
          obtain ⟨q1, q2⟩ := hC
          subst q1
          subst q2
          have hcT : (b.character.1, b.character.2) ≠ (nx, ny) := fun hcc => hT2 hcc
          rw [hA4c hcT, valChar_zero mc2] at hvc
          exact absurd hvc (by simp)
        · rw [hA4oo r1 r2 hbr hne hT2 hC] at hvc
          have hu := huniq (r1, r2) hp (fun hcc => hC (by rw [hcc]))
          dsimp only at hu
          rw [hu] at hvc
          exact absurd hvc (by simp)
    · intro hre
      rw [Prod.mk.injEq] at hre
      obtain ⟨q1, q2⟩ := hre
      subst q1
      subst q2
      rw [hA4B]
      exact valChar_one (validOpen_ne_wall _ hvBVO).2 hvB10n
  have hfil : (rasterCoords b.width b.height).filter
      (fun p => valChar (cellVal b.width (arr4 b x y nx ny) p.1 p.2)) = [(x, y)] :=
    filter_eq_singleton _ _ (x, y) hnd hmB hCharIff
  have hchar1 : (rasterCoords b.width b.height).countP
      (fun p => valChar (cellVal b.width (arr4 b x y nx ny) p.1 p.2)) = 1 := by
    rw [List.countP_eq_length_filter, hfil]
    rfl
  have hunsB_old : valUns (cellVal b.width b.array x y) = (pyland e 0x20 == 0) := by
    rw [← he_def]
    exact valUns_box (validOpen_ne_wall _ hbVO).2 he40n
  have hunsT_old : valUns (cellVal b.width b.array nx ny) = false := by
    rw [← ht_def]
    exact valUns_zero ht40
  have hunsB_new : valUns (cellVal b.width (arr4 b x y nx ny) x y) = false := by
    rw [hA4B]
    exact valUns_zero hvB40z
  have hunsT_new : valUns (cellVal b.width (arr4 b x y nx ny) nx ny) =
      (pyland t 0x20 == 0) := by
    rw [hA4T, valUns_box (validOpen_ne_wall _ hvTVO).2 hvT40n, hvT20t]
  have e1 := countP_one_change (rasterCoords b.width b.height)
    (fun p => valUns (cellVal b.width b.array p.1 p.2))
    (fun p => if p = (x, y) then false else valUns (cellVal b.width b.array p.1 p.2))
    (x, y) hnd hmB
    (fun r _ hrne => by
      show valUns (cellVal b.width b.array r.1 r.2) =
        if r = (x, y) then false else valUns (cellVal b.width b.array r.1 r.2)
      rw [if_neg hrne])
  have e2 := countP_one_change (rasterCoords b.width b.height)
    (fun p => if p = (x, y) then false else valUns (cellVal b.width b.array p.1 p.2))
    (fun p => valUns (cellVal b.width (arr4 b x y nx ny) p.1 p.2))
    (nx, ny) hnd hmT
    (fun r hr hrne => by
      obtain ⟨r1, r2⟩ := r
      show (if ((r1, r2) : Int × Int) = (x, y) then false
          else valUns (cellVal b.width b.array r1 r2)) =
        valUns (cellVal b.width (arr4 b x y nx ny) r1 r2)
      by_cases hB2 : ((r1, r2) : Int × Int) = (x, y)
      · rw [if_pos hB2]
        rw [Prod.mk.injEq] at hB2
        obtain ⟨q1, q2⟩ := hB2
        subst q1
        subst q2
        rw [hunsB_new]
      · rw [if_neg hB2]
        have hbr := mem_rasterCoords.mp hr
        by_cases hC : (r1, r2) = (b.character.1, b.character.2)
        · rw [Prod.mk.injEq] at hC
          obtain ⟨q1, q2⟩ := hC
          subst q1
          subst q2
          have hcT : (b.character.1, b.character.2) ≠ (nx, ny) := fun hcc => hrne hcc
          rw [hA4c hcT, ← hec_def, valUns_zero hc40, valUns_zero hc40z]
        · rw [hA4oo r1 r2 hbr hB2 hrne hC])
  have hFmB : (fun p => if p = (x, y) then false
      else valUns (cellVal b.width b.array p.1 p.2)) ((x, y) : Int × Int) = false := by
    show (if ((x, y) : Int × Int) = (x, y) then false
      else valUns (cellVal b.width b.array x y)) = false
    rw [if_pos rfl]
  have hFoB : (fun p => valUns (cellVal b.width b.array p.1 p.2)) ((x, y) : Int × Int) =
      (pyland e 0x20 == 0) := by
    show valUns (cellVal b.width b.array x y) = _
    exact hunsB_old
  have hFmT : (fun p => if p = (x, y) then false
      else valUns (cellVal b.width b.array p.1 p.2)) ((nx, ny) : Int × Int) = false := by
    show (if ((nx, ny) : Int × Int) = (x, y) then false
      else valUns (cellVal b.width b.array nx ny)) = false
    rw [if_neg hne_tb]
    exact hunsT_old
  have hFnT : (fun p => valUns (cellVal b.width (arr4 b x y nx ny) p.1 p.2))
      ((nx, ny) : Int × Int) = (pyland t 0x20 == 0) := by
    show valUns (cellVal b.width (arr4 b x y nx ny) nx ny) = _
    exact hunsT_new
  rw [hFmB, hFoB] at e1
  rw [hFmT, hFnT] at e2
  have hUnsEq : (↑((rasterCoords b.width b.height).countP
        (fun p => valUns (cellVal b.width (arr4 b x y nx ny) p.1 p.2))) : Int) =
      uns2 b x y nx ny := by
    have hc1 : pyland (cellVal b.width (arr2 b x y) x y) 0x20 = pyland e 0x20 := by
      rw [hA2B, hcb20]
    have hc2 : pyland (cellVal b.width (arr3 b x y nx ny) nx ny) 0x20 = pyland t 0x20 := by
      rw [hA3T, hvT20t]
    unfold uns2 uns1
    rw [hc1, hc2, hus]
    by_cases hb20 : pyland e 0x20 = 0 <;> by_cases ht20 : pyland t 0x20 = 0
    · have hbb : (pyland e 0x20 != 0) = false := by simp [hb20]
      have htt : (pyland t 0x20 != 0) = false := by simp [ht20]
      have heb : (pyland e 0x20 == 0) = true := by simp [hb20]
      have het : (pyland t 0x20 == 0) = true := by simp [ht20]
      rw [heb] at e1
      rw [het] at e2
      simp only [if_pos rfl] at e1 e2
      simp at e1 e2
      simp [hbb, htt]
      omega
    · have hbb : (pyland e 0x20 != 0) = false := by simp [hb20]
      have htt : (pyland t 0x20 != 0) = true := by simp [ht20]
      have heb : (pyland e 0x20 == 0) = true := by simp [hb20]
      have het : (pyland t 0x20 == 0) = false := by simp [ht20]
      rw [heb] at e1
      rw [het] at e2
      simp at e1 e2
      simp [hbb, htt]
      omega
    · have hbb : (pyland e 0x20 != 0) = true := by simp [hb20]
      have htt : (pyland t 0x20 != 0) = false := by simp [ht20]
      have heb : (pyland e 0x20 == 0) = false := by simp [hb20]
      have het : (pyland t 0x20 == 0) = true := by simp [ht20]
      rw [heb] at e1
      rw [het] at e2
      simp at e1 e2
      simp [hbb, htt]
      omega
    · have hbb : (pyland e 0x20 != 0) = true := by simp [hb20]
      have htt : (pyland t 0x20 != 0) = true := by simp [ht20]
      have heb : (pyland e 0x20 == 0) = false := by simp [hb20]
      have het : (pyland t 0x20 == 0) = false := by simp [ht20]
      rw [heb] at e1
      rw [het] at e2
      simp at e1 e2
      simp [hbb, htt]
      omega
  refine ⟨hl4, hrlen, _, hveq4, ?_, ?_, ?_, ?_, ?_⟩
  · apply validateTotals_intro
    · show (↑((rasterCoords b.width b.height).countP
        (fun p => valChar (cellVal b.width (arr4 b x y nx ny) p.1 p.2))) : Int) = 1
      rw [hchar1]
      rfl
    · show (↑((rasterCoords b.width b.height).countP
        (fun p => valBox (cellVal b.width (arr4 b x y nx ny) p.1 p.2))) : Int) ≠ 0
      rw [hBoxEq]
      exact htb
    · show (↑((rasterCoords b.width b.height).countP
          (fun p => valBox (cellVal b.width (arr4 b x y nx ny) p.1 p.2))) : Int) =
        ↑((rasterCoords b.width b.height).countP
          (fun p => valDest (cellVal b.width (arr4 b x y nx ny) p.1 p.2)))
      rw [hBoxEq, hDestEq]
      exact htbd
  · show b.box = (↑((rasterCoords b.width b.height).countP
        (fun p => valBox (cellVal b.width (arr4 b x y nx ny) p.1 p.2))) : Int)
    rw [hBoxEq]
    exact hbx
  · show b.dest = (↑((rasterCoords b.width b.height).countP
        (fun p => valDest (cellVal b.width (arr4 b x y nx ny) p.1 p.2))) : Int)
    rw [hDestEq]
    exact hds
  · show uns2 b x y nx ny = (↑((rasterCoords b.width b.height).countP
        (fun p => valUns (cellVal b.width (arr4 b x y nx ny) p.1 p.2))) : Int)
    exact hUnsEq.symm
  · show (match ((rasterCoords b.width b.height).filter
        (fun p => valChar (cellVal b.width (arr4 b x y nx ny) p.1 p.2))).getLast? with
      | some p => some p
      | none => none) = some ((x, y) : Int × Int)
    rw [hfil]
    rfl

/-- Everything `legalMoveSpec` guarantees about a generated move, at the
level of cell values. -/
theorem legalMove_facts {b : skb_map} (hval : b.Validated) {x y : Int} {d : Dir}
    (hm : (x, y, d) ∈ legalMovesSpec b) :
    InB b.width b.height x y ∧
    OpenCellOK b.width b.height b.array x y ∧
    pyland (cellVal b.width b.array x y) 0x40 = 0x40 ∧
    InB b.width b.height (targetCell x y d).1 (targetCell x y d).2 ∧
    OpenCellOK b.width b.height b.array (targetCell x y d).1 (targetCell x y d).2 ∧
    pyland (cellVal b.width b.array (targetCell x y d).1 (targetCell x y d).2) 0x40 = 0 ∧
    is_dead_cornerA b.width b.array (targetCell x y d).1 (targetCell x y d).2 = .ok false ∧
    ((targetCell x y d).1, (targetCell x y d).2) ≠ (x, y) := by
  have hls := mem_legalMovesSpec hm
  have hraster := mem_legalMovesSpec_raster hm
  have hb : InB b.width b.height x y := mem_rasterCoords.mp hraster
  unfold legalMoveSpec at hls
  simp only [Bool.and_eq_true] at hls
  obtain ⟨⟨⟨hhb, hrch⟩, hbl⟩, hdc⟩ := hls
  have helem : b.element x y = .ok (cellVal b.width b.array x y) := elemA_inb hval.1 hb
  unfold holdsBox at hhb
  rw [helem] at hhb
  simp only [Bool.and_eq_true, bne_iff_ne, ne_eq] at hhb
  have hva := hval.validatedArr
  have hopenb : OpenCellOK b.width b.height b.array x y := by
    rcases hva x y hb with h0 | h0 | h0
    · exfalso
      apply hhb.2
      rw [h0]
      decide
    · exact absurd h0 hhb.1
    · exact h0
  have he40 : pyland (cellVal b.width b.array x y) 0x40 = 0x40 := by
    rcases box40_cases _ hopenb.1 with h | h
    · exact absurd h hhb.2
    · exact h
  obtain ⟨hnl, hnr, hnu, hnd2⟩ := hopenb.interior_nbrs
  have htin : InB b.width b.height (targetCell x y d).1 (targetCell x y d).2 := by
    cases d
    · exact hnu
    · exact hnr
    · exact hnd2
    · exact hnl
  rw [isOkFalse_iff] at hbl hdc
  have hblA : is_blockedA b.width b.array (targetCell x y d).1 (targetCell x y d).2 =
      .ok false := hbl
  rw [is_blockedA_inb hval.1 htin] at hblA
  have hblB : (cellVal b.width b.array (targetCell x y d).1 (targetCell x y d).2 == 0 ||
      pyland (cellVal b.width b.array (targetCell x y d).1 (targetCell x y d).2) 0x40 ==
        0x40) = false := by
    injection hblA
  have hopent := target_open hva htin hblB
  have ht40 : pyland (cellVal b.width b.array (targetCell x y d).1
      (targetCell x y d).2) 0x40 = 0 := by
    rcases box40_cases _ hopent.1 with h | h
    · exact h
    · exfalso
      simp only [Bool.or_eq_false_iff] at hblB
      rw [h] at hblB
      simp at hblB
  have hne : ((targetCell x y d).1, (targetCell x y d).2) ≠ (x, y) := by
    cases d <;> (intro hc; simp only [targetCell] at hc; rw [Prod.mk.injEq] at hc; omega)
  exact ⟨hb, hopenb, he40, htin, hopent, ht40, hdc, hne⟩

/-- Applying a generated move succeeds, and the result re-validates with
the cached counts. -/
theorem create_preserves {b : skb_map} (hval : b.Validated) {x y : Int} {d : Dir}
    (hm : (x, y, d) ∈ legalMovesSpec b) :
    ∃ nm, b.create_new_map_by_move x y d = .ok nm ∧ nm.Validated ∧
      nm.validate true = .ok nm := by
  obtain ⟨hb, hopenb, he40, htin, hopent, ht40, hdcA, hne⟩ := legalMove_facts hval hm
  obtain ⟨hcIn, _, _, _, _⟩ := validated_char_facts hval
  obtain ⟨reach, hres, hrlen, hsteps⟩ := createSteps_eq b x y (targetCell x y d).1
    (targetCell x y d).2 hval.1 hb hcIn htin
  have hmv := moveBoard_validated hval hb hopenb he40 htin hopent ht40 hdcA hne reach hrlen
  have hvt := validate_true_of_validated hmv
  refine ⟨moveBoard b x y (targetCell x y d).1 (targetCell x y d).2 reach, ?_, hmv, hvt⟩
  rw [create_unfold,
    show b.element x y = .ok (cellVal b.width b.array x y) from elemA_inb hval.1 hb]
  simp only [Bind.bind, Except.bind]
  have hcond : (pyland (cellVal b.width b.array x y) 0x40 == 0) = false := by
    rw [he40]
    decide
  rw [hcond]
  simp only [Bool.false_eq_true, if_false]
  rw [hsteps, hvt]

/-- Claim C1: on a validated board, every move returned by the generator
can be applied: `create_new_map_by_move` reaches no fatal-error branch,
and the board it returns passes `validate true` — the recomputed box,
dest and unsolved counts and the recorded character position all match
the new board's cached fields, and every structural invariant of the
scan holds again. -/
theorem sokoban_C1 (b : skb_map) (hval : b.Validated) (ms : List (Int × Int × Dir))
    (hms : b.find_all_possible_moves = .ok ms) :
    ∀ m ∈ ms, ∃ nm, b.create_new_map_by_move m.1 m.2.1 m.2.2 = .ok nm ∧
      nm.Validated ∧ nm.validate true = .ok nm := by
  intro m hm
  rw [find_all_eq hval] at hms
  injection hms with h
  subst h
  have hm2 : (m.1, m.2.1, m.2.2) ∈ legalMovesSpec b := by
    rw [show (m.1, m.2.1, m.2.2) = m from rfl]
    exact hm
  exact create_preserves hval hm2

theorem sokoban_C1_witness :
    ∃ nm, tinyMap.create_new_map_by_move 2 1 Dir.RIGHT = .ok nm ∧
      nm.Validated ∧ nm.validate true = .ok nm :=
  sokoban_C1 tinyMap tinyMap_validated [(2, 1, Dir.RIGHT)] (by rfl) (2, 1, Dir.RIGHT)
    (by simp)

/-! ## Order-independence of the reachability worklist (claim C3)

Any complete run of the loop — whatever order `todo.pop()` chooses —
ends in the same configuration: the grid marks exactly the closure of the
character cell under eligible adjacency, and the worklist is empty. -/

def floodNbrs (p : Int × Int) : List (Int × Int) :=
  [(p.1 + 1, p.2), (p.1 - 1, p.2), (p.1, p.2 + 1), (p.1, p.2 - 1)]

/-- The order-stable part of the enqueue condition: the cell value in the
initial grid is not a wall and not boxed (marking only ever sets `0x80`,
so this part never changes during the run). -/
def Elig0 (w : Nat) (g : List Int) (q : Int × Int) : Bool :=
  cellVal w g q.1 q.2 != 0 && pyland (cellVal w g q.1 q.2) 0x40 == 0

/-- The closure the loop computes: cells connected to the start through
eligible cells. -/
inductive FloodReach (w : Nat) (g0 : List Int) (c : Int × Int) : Int × Int → Prop where
  | base : FloodReach w g0 c c
  | step {p q : Int × Int} : FloodReach w g0 c p → q ∈ floodNbrs p →
      Elig0 w g0 q = true → FloodReach w g0 c q

def InteriorCell (w h : Nat) (p : Int × Int) : Prop :=
  0 < p.1 ∧ p.1 < (w : Int) - 1 ∧ 0 < p.2 ∧ p.2 < (h : Int) - 1

theorem interior_inb {w h : Nat} {p : Int × Int} (hp : InteriorCell w h p) :
    InB w h p.1 p.2 := by
  obtain ⟨h1, h2, h3, h4⟩ := hp
  exact ⟨by omega, by omega, by omega, by omega⟩

theorem interior_nbr_inb {w h : Nat} {p : Int × Int} (hp : InteriorCell w h p)
    {q : Int × Int} (hq : q ∈ floodNbrs p) : InB w h q.1 q.2 := by
  obtain ⟨h1, h2, h3, h4⟩ := hp
  simp only [floodNbrs, List.mem_cons, List.not_mem_nil, or_false] at hq
  rcases hq with h | h | h | h
  · subst h
    exact (⟨by omega, by omega, by omega, by omega⟩ : InB w h (p.1 + 1) p.2)
  · subst h
    exact (⟨by omega, by omega, by omega, by omega⟩ : InB w h (p.1 - 1) p.2)
  · subst h
    exact (⟨by omega, by omega, by omega, by omega⟩ : InB w h p.1 (p.2 + 1))
  · subst h
    exact (⟨by omega, by omega, by omega, by omega⟩ : InB w h p.1 (p.2 - 1))

/-- The loop invariant: the grid is the initial grid with `0x80` OR-ed onto
a set `M` of visited cells; visited and pending cells lie in the closure;
every eligible neighbour of a visited cell is visited or pending. -/
def FloodInv (w h : Nat) (g0 : List Int) (c : Int × Int) (cfg : FloodCfg) : Prop :=
  ∃ M : Finset (Int × Int),
    cfg.grid.length = w * h ∧
    (∀ q ∈ M, FloodReach w g0 c q ∧ InteriorCell w h q) ∧
    (∀ q ∈ cfg.todo, FloodReach w g0 c q ∧ InteriorCell w h q ∧ q ∉ M) ∧
    (∀ q : Int × Int, InB w h q.1 q.2 →
      cellVal w cfg.grid q.1 q.2 =
        if q ∈ M then pylor (cellVal w g0 q.1 q.2) 0x80 else cellVal w g0 q.1 q.2) ∧
    (∀ p ∈ M, ∀ q ∈ floodNbrs p, Elig0 w g0 q = true → q ∈ M ∨ q ∈ cfg.todo) ∧
    (c ∈ M ∨ c ∈ cfg.todo)

/-- A well-formed initial grid: every in-bounds cell is a wall, the
invalid sentinel, or a valid open interior cell. -/
def Grid0OK (w h : Nat) (g0 : List Int) : Prop :=
  ∀ q : Int × Int, InB w h q.1 q.2 →
    cellVal w g0 q.1 q.2 = 0 ∨ cellVal w g0 q.1 q.2 = -1 ∨
    (cellVal w g0 q.1 q.2 ∈ validOpenVals ∧ InteriorCell w h q)

theorem mark_keeps_80 : ∀ v ∈ (0 : Int) :: (-1) :: validOpenVals,
    pyland (pylor v 0x80) 0x80 ≠ 0 := by decide

theorem vo_80_clear : ∀ v ∈ validOpenVals, pyland v 0x80 = 0 := by decide

theorem neg1_not_elig : ((- 1 : Int) != 0 && pyland (-1) 0x40 == 0) = false := by decide

theorem checkXY_inb {w h : Nat} {g : List Int} (todo : Finset (Int × Int)) {x y : Int}
    (hlen : g.length = w * h) (hb : InB w h x y) :
    checkXY w g todo x y =
      .ok (if floodEligible (cellVal w g x y) then insert (x, y) todo else todo) := by
  unfold checkXY floodEligible
  rw [show pyGet g (x + y * (w : Int)) = elemA w g x y from rfl, elemA_inb hlen hb]
  simp only [Bind.bind, Except.bind]
  by_cases hc : (cellVal w g x y != 0 && pyland (cellVal w g x y) 0x40 == 0 &&
      pyland (cellVal w g x y) 0x80 == 0) = true
  · rw [hc]
    rfl
  · simp only [Bool.not_eq_true] at hc
    rw [hc]
    simp only [Bool.false_eq_true, if_false]
    rfl

theorem elig_props {w h : Nat} {g0 : List Int} (hg0 : Grid0OK w h g0) :
    ∀ q : Int × Int, InB w h q.1 q.2 → Elig0 w g0 q = true →
      cellVal w g0 q.1 q.2 ∈ validOpenVals ∧ InteriorCell w h q ∧
      pyland (cellVal w g0 q.1 q.2) 0x80 = 0 := by
  intro q hq hel
  simp only [Elig0, Bool.and_eq_true, bne_iff_ne, ne_eq, beq_iff_eq] at hel
  rcases hg0 q hq with h0 | h0 | h0
  · exact absurd h0 hel.1
  · rw [h0] at hel
    exact absurd hel.2 (by decide)
  · exact ⟨h0.1, h0.2, vo_80_clear _ h0.1⟩

theorem val0_mem {w h : Nat} {g0 : List Int} (hg0 : Grid0OK w h g0) :
    ∀ q : Int × Int, InB w h q.1 q.2 →
      cellVal w g0 q.1 q.2 ∈ (0 : Int) :: (-1) :: validOpenVals := by
  intro q hq
  rcases hg0 q hq with h0 | h0 | h0
  · rw [h0]
    exact List.mem_cons_self _ _
  · rw [h0]
    exact List.mem_cons_of_mem _ (List.mem_cons_self _ _)
  · exact List.mem_cons_of_mem _ (List.mem_cons_of_mem _ h0.1)

set_option maxHeartbeats 1000000 in
theorem floodStep_inv {w h : Nat} {g0 : List Int} {c : Int × Int} {cfg cfg' : FloodCfg}
    (hg0 : Grid0OK w h g0) (hinv : FloodInv w h g0 c cfg) {p : Int × Int}
    (hp : p ∈ cfg.todo) (hstep : floodStep w cfg p = .ok cfg') :
    FloodInv w h g0 c cfg' := by
  obtain ⟨M, hlen, hM, hT, hG, hF, hS⟩ := hinv
  obtain ⟨hpR, hpInt, hpM⟩ := hT p hp
  have hpInB : InB w h p.1 p.2 := interior_inb hpInt
  unfold floodStep at hstep
  dsimp only at hstep
  rw [show pyGet cfg.grid (p.1 + p.2 * (w : Int)) = elemA w cfg.grid p.1 p.2 from rfl,
    elemA_inb hlen hpInB] at hstep
  simp only [Bind.bind, Except.bind] at hstep
  rw [pySet_inb _ hlen hpInB] at hstep
  dsimp only at hstep
  set g1 : List Int := cfg.grid.set (p.1 + p.2 * (w : Int)).toNat
    (pylor (cellVal w cfg.grid p.1 p.2) 0x80) with hg1_def
  have hlen1 : g1.length = w * h := by
    rw [hg1_def, List.length_set, hlen]
  have hn1 : InB w h (p.1 + 1) p.2 :=
    @interior_nbr_inb w h p hpInt (p.1 + 1, p.2) (by simp [floodNbrs])
  have hn2 : InB w h (p.1 - 1) p.2 :=
    @interior_nbr_inb w h p hpInt (p.1 - 1, p.2) (by simp [floodNbrs])
  have hn3 : InB w h p.1 (p.2 + 1) :=
    @interior_nbr_inb w h p hpInt (p.1, p.2 + 1) (by simp [floodNbrs])
  have hn4 : InB w h p.1 (p.2 - 1) :=
    @interior_nbr_inb w h p hpInt (p.1, p.2 - 1) (by simp [floodNbrs])
  rw [checkXY_inb _ hlen1 hn1] at hstep
  dsimp only at hstep
  rw [checkXY_inb _ hlen1 hn2] at hstep
  dsimp only at hstep
  rw [checkXY_inb _ hlen1 hn3] at hstep
  dsimp only at hstep
  rw [checkXY_inb _ hlen1 hn4] at hstep
  dsimp only at hstep
  rw [show ∀ z : FloodCfg, (pure z : Except String FloodCfg) = Except.ok z from fun z => rfl]
    at hstep
  injection hstep with hstep
  have hgq := congrArg FloodCfg.todo hstep
  have hgg := congrArg FloodCfg.grid hstep
  dsimp only at hgq hgg
  have hstepmem : ∀ (s : Finset (Int × Int)) (x2 y2 : Int) (q : Int × Int),
      (q ∈ (if floodEligible (cellVal w g1 x2 y2) then insert (x2, y2) s else s)) ↔
      (q ∈ s ∨ (q = (x2, y2) ∧ floodEligible (cellVal w g1 x2 y2) = true)) := by
    intro s x2 y2 q
    by_cases hc : floodEligible (cellVal w g1 x2 y2) = true
    · rw [if_pos hc, Finset.mem_insert]
      constructor
      · rintro (hh | hh)
        · exact Or.inr ⟨hh, hc⟩
        · exact Or.inl hh
      · rintro (hh | ⟨hh, _⟩)
        · exact Or.inr hh
        · exact Or.inl hh
    · rw [if_neg hc]
      constructor
      · intro hh
        exact Or.inl hh
      · rintro (hh | ⟨_, hh⟩)
        · exact hh
        · exact absurd hh hc
  have hmem4 : ∀ q : Int × Int, q ∈ cfg'.todo ↔
      (q ∈ cfg.todo.erase p ∨
        (q = (p.1 + 1, p.2) ∧ floodEligible (cellVal w g1 (p.1 + 1) p.2) = true) ∨
        (q = (p.1 - 1, p.2) ∧ floodEligible (cellVal w g1 (p.1 - 1) p.2) = true) ∨
        (q = (p.1, p.2 + 1) ∧ floodEligible (cellVal w g1 p.1 (p.2 + 1)) = true) ∨
        (q = (p.1, p.2 - 1) ∧ floodEligible (cellVal w g1 p.1 (p.2 - 1)) = true)) := by
    intro q
    rw [← hgq, hstepmem, hstepmem, hstepmem, hstepmem]
    tauto
  have hG1 : ∀ q : Int × Int, InB w h q.1 q.2 →
      cellVal w g1 q.1 q.2 =
        if q ∈ insert p M then pylor (cellVal w g0 q.1 q.2) 0x80
        else cellVal w g0 q.1 q.2 := by
    intro q hq
    by_cases hqp : q = p
    · subst hqp
      rw [hg1_def, cellVal_set_self _ hlen hpInB, hG q hq, if_neg hpM,
        if_pos (Finset.mem_insert_self q M)]
    · have hqp2 : (p.1, p.2) ≠ (q.1, q.2) := by
        intro hcc
        apply hqp
        rw [show q = (q.1, q.2) from rfl, show p = (p.1, p.2) from rfl, hcc]
      rw [hg1_def, cellVal_set_other _ hpInB hq hqp2, hG q hq]
      by_cases hqM : q ∈ M
      · rw [if_pos hqM, if_pos (Finset.mem_insert_of_mem hqM)]
      · rw [if_neg hqM,
          if_neg (fun hin => ((Finset.mem_insert.mp hin).elim hqp hqM))]
  have hins : ∀ q2 ∈ floodNbrs p, floodEligible (cellVal w g1 q2.1 q2.2) = true →
      FloodReach w g0 c q2 ∧ InteriorCell w h q2 ∧ q2 ∉ insert p M := by
    intro q2 hq2 hel
    have hq2b : InB w h q2.1 q2.2 := interior_nbr_inb hpInt hq2
    simp only [floodEligible, Bool.and_eq_true] at hel
    obtain ⟨⟨hel0, hel40⟩, hel80⟩ := hel
    by_cases hmem : q2 ∈ insert p M
    · exfalso
      have hv := hG1 q2 hq2b
      rw [if_pos hmem] at hv
      rw [hv] at hel80
      have hmk := mark_keeps_80 _ (val0_mem hg0 q2 hq2b)
      simp only [beq_iff_eq] at hel80
      exact hmk hel80
    · have hv := hG1 q2 hq2b
      rw [if_neg hmem] at hv
      rw [hv] at hel0 hel40
      have hE : Elig0 w g0 q2 = true := by
        simp only [Elig0, Bool.and_eq_true]
        exact ⟨hel0, hel40⟩
      refine ⟨FloodReach.step hpR hq2 hE, ?_, hmem⟩
      exact (elig_props hg0 q2 hq2b hE).2.1
  refine ⟨insert p M, ?_, ?_, ?_, ?_, ?_, ?_⟩
  · rw [← hgg]
    exact hlen1
  · intro q hq
    rcases Finset.mem_insert.mp hq with h2 | h2
    · subst h2
      exact ⟨hpR, hpInt⟩
    · exact hM q h2
  · intro q hq
    have hq4 := (hmem4 q).mp hq
    rcases hq4 with h2 | ⟨he, hel⟩ | ⟨he, hel⟩ | ⟨he, hel⟩ | ⟨he, hel⟩
    · obtain ⟨hne, hmem⟩ := Finset.mem_erase.mp h2
      obtain ⟨hR, hInt, hM0⟩ := hT q hmem
      refine ⟨hR, hInt, ?_⟩
      intro hin
      rcases Finset.mem_insert.mp hin with h3 | h3
      · exact hne h3
      · exact hM0 h3
    · subst he
      exact hins (p.1 + 1, p.2) (by simp [floodNbrs]) hel
    · subst he
      exact hins (p.1 - 1, p.2) (by simp [floodNbrs]) hel
    · subst he
      exact hins (p.1, p.2 + 1) (by simp [floodNbrs]) hel
    · subst he
      exact hins (p.1, p.2 - 1) (by simp [floodNbrs]) hel
  · intro q hq
    rw [← hgg]
    exact hG1 q hq
  · intro m hm q hq hE
    rcases Finset.mem_insert.mp hm with h2 | h2
    · subst h2
      by_cases hmem : q ∈ insert m M
      · exact Or.inl hmem
      · right
        have hqb : InB w h q.1 q.2 := interior_nbr_inb hpInt hq
        obtain ⟨hVO, hInt, h80⟩ := elig_props hg0 q hqb hE
        have hv := hG1 q hqb
        rw [if_neg hmem] at hv
        have hfe : floodEligible (cellVal w g1 q.1 q.2) = true := by
          rw [hv]
          simp only [floodEligible, Bool.and_eq_true]
          simp only [Elig0, Bool.and_eq_true] at hE
          exact ⟨⟨hE.1, hE.2⟩, by simp [h80]⟩
        apply (hmem4 q).mpr
        simp only [floodNbrs, List.mem_cons, List.not_mem_nil, or_false] at hq
        rcases hq with h3 | h3 | h3 | h3
        · subst h3
          right
          left
          exact ⟨rfl, hfe⟩
        · subst h3
          right
          right
          left
          exact ⟨rfl, hfe⟩
        · subst h3
          right
          right
          right
          left
          exact ⟨rfl, hfe⟩
        · subst h3
          right
          right
          right
          right
          exact ⟨rfl, hfe⟩
    · rcases hF m h2 q hq hE with h3 | h3
      · exact Or.inl (Finset.mem_insert_of_mem h3)
      · by_cases hqp : q = p
        · subst hqp
          exact Or.inl (Finset.mem_insert_self _ _)
        · right
          apply (hmem4 q).mpr
          left
          exact Finset.mem_erase.mpr ⟨hqp, h3⟩
  · rcases hS with h2 | h2
    · exact Or.inl (Finset.mem_insert_of_mem h2)
    · by_cases hcp : c = p
      · subst hcp
        exact Or.inl (Finset.mem_insert_self _ _)
      · right
        apply (hmem4 c).mpr
        left
        exact Finset.mem_erase.mpr ⟨hcp, h2⟩

theorem floodRun_inv {w h : Nat} {g0 : List Int} {c : Int × Int} {cfg0 cfg : FloodCfg}
    (hg0 : Grid0OK w h g0)
    (hrun : Relation.ReflTransGen (FloodStepRel w) cfg0 cfg)
    (hinv : FloodInv w h g0 c cfg0) : FloodInv w h g0 c cfg := by
  induction hrun with
  | refl => exact hinv
  | tail h1 h2 ih =>
    obtain ⟨p, hp, hstep⟩ := h2
    exact floodStep_inv hg0 ih hp hstep

/-- Two complete runs of the worklist from the same well-formed start end
in the same configuration. -/
theorem completeRun_unique {w h : Nat} {g0 : List Int} {c : Int × Int}
    {cfg0 c1 c2 : FloodCfg} (hg0 : Grid0OK w h g0) (hinv : FloodInv w h g0 c cfg0)
    (h1 : CompleteRun w cfg0 c1) (h2 : CompleteRun w cfg0 c2) : c1 = c2 := by
  obtain ⟨hr1, he1⟩ := h1
  obtain ⟨hr2, he2⟩ := h2
  obtain ⟨M1, hlen1, hM1, hT1, hG1, hF1, hS1⟩ := floodRun_inv hg0 hr1 hinv
  obtain ⟨M2, hlen2, hM2, hT2, hG2, hF2, hS2⟩ := floodRun_inv hg0 hr2 hinv
  have hRM1 : ∀ q, FloodReach w g0 c q → q ∈ M1 := by
    intro q hq
    induction hq with
    | base =>
      rcases hS1 with hh | hh
      · exact hh
      · rw [he1] at hh
        exact absurd hh (Finset.not_mem_empty _)
    | step hp hnb hE ih =>
      rcases hF1 _ ih _ hnb hE with hh | hh
      · exact hh
      · rw [he1] at hh
        exact absurd hh (Finset.not_mem_empty _)
  have hRM2 : ∀ q, FloodReach w g0 c q → q ∈ M2 := by
    intro q hq
    induction hq with
    | base =>
      rcases hS2 with hh | hh
      · exact hh
      · rw [he2] at hh
        exact absurd hh (Finset.not_mem_empty _)
    | step hp hnb hE ih =>
      rcases hF2 _ ih _ hnb hE with hh | hh
      · exact hh
      · rw [he2] at hh
        exact absurd hh (Finset.not_mem_empty _)
  have hMM : ∀ q, q ∈ M1 ↔ q ∈ M2 :=
    fun q => ⟨fun hh => hRM2 q (hM1 q hh).1, fun hh => hRM1 q (hM2 q hh).1⟩
  have hgeq : c1.grid = c2.grid := by
    apply List.ext_getElem
    · rw [hlen1, hlen2]
    · intro n hn1 hn2
      have hn : n < w * h := by
        rw [← hlen1]
        exact hn1
      obtain ⟨hbco, hco⟩ := flat_coords hn
      have hv1 := hG1 (((n % w : Nat) : Int), ((n / w : Nat) : Int)) hbco
      have hv2 := hG2 (((n % w : Nat) : Int), ((n / w : Nat) : Int)) hbco
      dsimp only at hv1 hv2
      rw [cellVal_flat hn] at hv1
      rw [cellVal_flat hn] at hv2
      rw [← List.getD_eq_getElem c1.grid 0 hn1, ← List.getD_eq_getElem c2.grid 0 hn2,
        hv1, hv2]
      by_cases hqm : ((((n % w : Nat) : Int), ((n / w : Nat) : Int)) : Int × Int) ∈ M1
      · rw [if_pos hqm, if_pos ((hMM _).mp hqm)]
      · rw [if_neg hqm, if_neg (fun hh => hqm ((hMM _).mpr hh))]
  have hteq : c1.todo = c2.todo := by
    rw [he1, he2]
  cases c1 with
  | mk ga ta =>
    cases c2 with
    | mk gb tb =>
      dsimp only at hgeq hteq
      rw [hgeq, hteq]

theorem arr1_char {b : skb_map} (hval : b.Validated) :
    cellVal b.width (arr1 b) b.character.1 b.character.2 =
      pyland (cellVal b.width b.array b.character.1 b.character.2) (pynot 0x10) := by
  obtain ⟨hcIn, _, _, _, _⟩ := validated_char_facts hval
  unfold arr1
  exact cellVal_set_self _ hval.1 hcIn

theorem arr1_other {b : skb_map} (hval : b.Validated) {x' y' : Int}
    (hb : InB b.width b.height x' y')
    (hne : (x', y') ≠ (b.character.1, b.character.2)) :
    cellVal b.width (arr1 b) x' y' = cellVal b.width b.array x' y' := by
  obtain ⟨hcIn, _, _, _, _⟩ := validated_char_facts hval
  unfold arr1
  exact cellVal_set_other _ hcIn hb (fun hc => hne hc.symm)

/-- The grid the resolver starts from (the cell array with the character
flag cleared) is well formed on a validated board. -/
theorem grid0_ok {b : skb_map} (hval : b.Validated) :
    Grid0OK b.width b.height (arr1 b) := by
  obtain ⟨hcIn, hvcE, hopenc, hc40u, huniqF⟩ := validated_char_facts hval
  obtain ⟨hcVO, hcu1, hcu2, hcu3, hcu4, _⟩ := hopenc
  have hva := hval.validatedArr
  intro q hq
  by_cases hqc : q = (b.character.1, b.character.2)
  · subst hqc
    right
    right
    dsimp only at hq ⊢
    rw [arr1_char hval]
    obtain ⟨m1, _, _, _⟩ := clearChar_mem _ hcVO
    exact ⟨m1, hcu1, hcu2, hcu3, hcu4⟩
  · have hne : ((q.1, q.2) : Int × Int) ≠ (b.character.1, b.character.2) :=
      fun hcc => hqc ((show q = (q.1, q.2) from rfl).trans hcc)
    rw [arr1_other hval hq hne]
    rcases hva q.1 q.2 hq with h0 | h0 | h0
    · exact Or.inl h0
    · exact Or.inr (Or.inl h0)
    · obtain ⟨oVO, ou1, ou2, ou3, ou4, _⟩ := h0
      exact Or.inr (Or.inr ⟨oVO, ou1, ou2, ou3, ou4⟩)

theorem floodInitCfg_eq {b : skb_map} (hval : b.Validated) :
    floodInitCfg b.width b.array b.character = .ok ⟨arr1 b, {b.character}⟩ := by
  obtain ⟨hcIn, _, _, _, _⟩ := validated_char_facts hval
  unfold floodInitCfg
  dsimp only
  rw [show pyGet b.array (b.character.1 + b.character.2 * (b.width : Int)) =
      elemA b.width b.array b.character.1 b.character.2 from rfl,
    elemA_inb hval.1 hcIn]
  simp only [Bind.bind, Except.bind]
  rw [pySet_inb _ hval.1 hcIn]
  rfl

theorem floodInv_init {b : skb_map} (hval : b.Validated) :
    FloodInv b.width b.height (arr1 b) b.character ⟨arr1 b, {b.character}⟩ := by
  obtain ⟨hcIn, hvcE, hopenc, hc40u, huniqF⟩ := validated_char_facts hval
  obtain ⟨hcVO, hcu1, hcu2, hcu3, hcu4, _⟩ := hopenc
  refine ⟨∅, ?_, ?_, ?_, ?_, ?_, ?_⟩
  · show (arr1 b).length = _
    unfold arr1
    rw [List.length_set]
    exact hval.1
  · intro q hq
    exact absurd hq (Finset.not_mem_empty _)
  · intro q hq
    rw [Finset.mem_singleton] at hq
    subst hq
    exact ⟨FloodReach.base, ⟨hcu1, hcu2, hcu3, hcu4⟩, Finset.not_mem_empty _⟩
  · intro q hq
    rw [if_neg (Finset.not_mem_empty _)]
  · intro p hp
    exact absurd hp (Finset.not_mem_empty _)
  · exact Or.inr (Finset.mem_singleton_self _)

/-- Claim C3: on a validated board the reachability worklist is
order-independent — every complete run of the loop from the initial
configuration, whatever order the set's `pop` serves the pending
coordinates in, ends in the one same configuration (identical marked
grid, empty work-set); in particular two runs (two invocations of the
resolver) yield bit-identical reachability grids. -/
theorem sokoban_C3 (b : skb_map) (hval : b.Validated) (cfg0 cend1 cend2 : FloodCfg)
    (hinit : floodInitCfg b.width b.array b.character = .ok cfg0)
    (h1 : CompleteRun b.width cfg0 cend1) (h2 : CompleteRun b.width cfg0 cend2) :
    cend1 = cend2 := by
  rw [floodInitCfg_eq hval] at hinit
  injection hinit with hinit
  subst hinit
  exact completeRun_unique (grid0_ok hval) (floodInv_init hval) h1 h2

def tinyFloodCfg0 : FloodCfg :=
  { grid := [0,0,0,0,0, 0,0x01,0x41,0x21,0, 0,0,0,0,0], todo := {(1, 1)} }

def tinyFloodEnd : FloodCfg :=
  { grid := [0,0,0,0,0, 0,0x81,0x41,0x21,0, 0,0,0,0,0], todo := ∅ }

theorem sokoban_C3_witness : tinyFloodEnd = tinyFloodEnd :=
  sokoban_C3 tinyMap tinyMap_validated tinyFloodCfg0 tinyFloodEnd tinyFloodEnd (by rfl)
    ⟨Relation.ReflTransGen.single ⟨(1, 1), by decide, by rfl⟩, rfl⟩
    ⟨Relation.ReflTransGen.single ⟨(1, 1), by decide, by rfl⟩, rfl⟩

/-! ## The seen list as a canonical-state dedup (claim C2) -/

/-- Keep the first representative of each canonical state (reachability
grid), in first-seen order. -/
def compareDedup (l : List skb_map) : List skb_map :=
  l.foldl (fun acc nm => if acc.any (fun t => nm.compare t) then acc else acc ++ [nm]) []

theorem compareDedup_append (l : List skb_map) (nm : skb_map) :
    compareDedup (l ++ [nm]) =
      if (compareDedup l).any (fun t => nm.compare t) then compareDedup l
      else compareDedup l ++ [nm] := by
  unfold compareDedup
  rw [List.foldl_append]
  rfl

theorem searchStep_seen {binit : skb_map} {s s' : SearchState}
    (hstep : searchStep s = .ok s')
    (hseen : s.seen = compareDedup (binit :: s.produced)) :
    s'.seen = compareDedup (binit :: s'.produced) := by
  unfold searchStep at hstep
  cases hh : s.history with
  | nil =>
    rw [hh] at hstep
    injection hstep with hstep
    subst hstep
    exact hseen
  | cons f rest =>
    rw [hh] at hstep
    dsimp only at hstep
    by_cases hc : ((f.all_moves.length : Int) ≤ f.cur + 1)
    · rw [if_pos hc] at hstep
      injection hstep with hstep
      subst hstep
      exact hseen
    · rw [if_neg hc] at hstep
      cases hcr : f.all_moves.getD (f.cur + 1).toNat (0, 0, Dir.UP) with
      | mk x rest2 =>
        cases rest2 with
        | mk y dir =>
          rw [hcr] at hstep
          dsimp only at hstep
          cases hcrea : f.board.create_new_map_by_move x y dir with
          | error e =>
            rw [hcrea] at hstep
            exact absurd hstep (by simp [Bind.bind, Except.bind])
          | ok nm =>
            rw [hcrea] at hstep
            simp only [Bind.bind, Except.bind] at hstep
            by_cases hany : (s.seen.any fun t => nm.compare t) = true
            · rw [hany] at hstep
              simp only [if_true] at hstep
              injection hstep with hstep
              subst hstep
              dsimp only
              rw [show binit :: (s.produced ++ [nm]) = (binit :: s.produced) ++ [nm]
                  from rfl, compareDedup_append, ← hseen, if_pos hany]
            · simp only [Bool.not_eq_true] at hany
              rw [hany] at hstep
              simp only [Bool.false_eq_true, if_false] at hstep
              have hgoal : s.seen ++ [nm] =
                  compareDedup (binit :: (s.produced ++ [nm])) := by
                rw [show binit :: (s.produced ++ [nm]) = (binit :: s.produced) ++ [nm]
                    from rfl, compareDedup_append, ← hseen, hany]
                simp only [Bool.false_eq_true, if_false]
              by_cases hcomp : nm.completed = true
              · rw [hcomp] at hstep
                simp only [if_true] at hstep
                injection hstep with hstep
                subst hstep
                exact hgoal
              · simp only [Bool.not_eq_true] at hcomp
                rw [hcomp] at hstep
                simp only [Bool.false_eq_true, if_false] at hstep
                cases hms : nm.find_all_possible_moves with
                | error e =>
                  rw [hms] at hstep
                  exact absurd hstep (by simp [Bind.bind, Except.bind])
                | ok ms =>
                  rw [hms] at hstep
                  simp only [Except.bind] at hstep
                  injection hstep with hstep
                  subst hstep
                  exact hgoal

theorem searchRun_seen {binit : skb_map} :
    ∀ (n : Nat) {s0 s : SearchState}, searchRun n s0 = .ok s →
      s0.seen = compareDedup (binit :: s0.produced) →
      s.seen = compareDedup (binit :: s.produced) := by
  intro n
  induction n with
  | zero =>
    intro s0 s hrun h0
    injection hrun with hrun
    subst hrun
    exact h0
  | succ m ih =>
    intro s0 s hrun h0
    unfold searchRun at hrun
    cases hstep : searchStep s0 with
    | error e =>
      rw [hstep] at hrun
      exact absurd hrun (by simp [Bind.bind, Except.bind])
    | ok s1 =>
      rw [hstep] at hrun
      simp only [Bind.bind, Except.bind] at hrun
      exact ih hrun (searchStep_seen hstep h0)

/-- Claim C2: the engine never pushes a frame for a canonical state already
in `seen` (a push only happens in the branch where the linear `compare`
scan over `seen` found no match), and at any point of the run the `seen`
list — whose length the engine reports as "frames seen" — is exactly the
first-representative dedup by canonical state of the initial board
followed by every board the transition produced (solutions included),
so its length counts the distinct canonical boards produced. -/
theorem sokoban_C2 (b : skb_map) (s0 : SearchState) (hinit : initSearchState b = .ok s0)
    (n : Nat) (s : SearchState) (hrun : searchRun n s0 = .ok s) :
    (∀ t t' : SearchState, searchStep t = .ok t' →
      t.history.length < t'.history.length →
      ∃ f rest, t'.history = f :: rest ∧ ∀ u ∈ t.seen, f.board.compare u = false) ∧
    s.seen = compareDedup (b :: s.produced) := by
  constructor
  · intro t t' hstep hlen
    unfold searchStep at hstep
    cases hh : t.history with
    | nil =>
      rw [hh] at hstep
      injection hstep with hstep
      subst hstep
      exact absurd hlen (by omega)
    | cons f rest =>
      rw [hh] at hstep
      dsimp only at hstep
      by_cases hc : ((f.all_moves.length : Int) ≤ f.cur + 1)
      · rw [if_pos hc] at hstep
        injection hstep with hstep
        subst hstep
        rw [hh] at hlen
        simp only [List.length_cons] at hlen
        exact absurd hlen (by omega)
      · rw [if_neg hc] at hstep
        cases hcr : f.all_moves.getD (f.cur + 1).toNat (0, 0, Dir.UP) with
        | mk x rest2 =>
          cases rest2 with
          | mk y dir =>
            rw [hcr] at hstep
            dsimp only at hstep
            cases hcrea : f.board.create_new_map_by_move x y dir with
            | error e =>
              rw [hcrea] at hstep
              exact absurd hstep (by simp [Bind.bind, Except.bind])
            | ok nm =>
              rw [hcrea] at hstep
              simp only [Bind.bind, Except.bind] at hstep
              by_cases hany : (t.seen.any fun u => nm.compare u) = true
              · rw [hany] at hstep
                simp only [if_true] at hstep
                injection hstep with hstep
                subst hstep
                rw [hh] at hlen
                simp only [List.length_cons] at hlen
                exact absurd hlen (by omega)
              · simp only [Bool.not_eq_true] at hany
                rw [hany] at hstep
                simp only [Bool.false_eq_true, if_false] at hstep
                have hall : ∀ u ∈ t.seen, nm.compare u = false := by
                  intro u hu
                  have := List.any_eq_false.mp hany u hu
                  simpa using this
                by_cases hcomp : nm.completed = true
                · rw [hcomp] at hstep
                  simp only [if_true] at hstep
                  injection hstep with hstep
                  subst hstep
                  rw [hh] at hlen
                  simp only [List.length_cons] at hlen
                  exact absurd hlen (by omega)
                · simp only [Bool.not_eq_true] at hcomp
                  rw [hcomp] at hstep
                  simp only [Bool.false_eq_true, if_false] at hstep
                  cases hms : nm.find_all_possible_moves with
                  | error e =>
                    rw [hms] at hstep
                    exact absurd hstep (by simp [Bind.bind, Except.bind])
                  | ok ms =>
                    rw [hms] at hstep
                    simp only [Except.bind] at hstep
                    injection hstep with hstep
                    subst hstep
                    exact ⟨_, _, rfl, hall⟩
  · apply searchRun_seen n hrun
    unfold initSearchState at hinit
    cases hms : b.find_all_possible_moves with
    | error e =>
      rw [hms] at hinit
      exact absurd hinit (by simp [Bind.bind, Except.bind])
    | ok ms =>
      rw [hms] at hinit
      simp only [Bind.bind, Except.bind, pure, Except.pure] at hinit
      injection hinit with hinit
      subst hinit
      rfl

def tinySearchStart : SearchState :=
  { history := [{ board := tinyMap, all_moves := [(2, 1, Dir.RIGHT)], cur := -1 }],
    seen := [tinyMap], moves := 0, solutions := 0, produced := [] }

def tinySearchEnd : SearchState :=
  { history := [], seen := [tinyMap, solvedTiny], moves := 1, solutions := 1,
    produced := [solvedTiny] }

theorem sokoban_C2_witness :
    (∀ t t' : SearchState, searchStep t = .ok t' →
      t.history.length < t'.history.length →
      ∃ f rest, t'.history = f :: rest ∧ ∀ u ∈ t.seen, f.board.compare u = false) ∧
    tinySearchEnd.seen = compareDedup (tinyMap :: tinySearchEnd.produced) :=
  sokoban_C2 tinyMap tinySearchStart (by rfl) 2 tinySearchEnd (by rfl)

/-! ## Termination of the search (claim C8): value universes -/

/-- Every value a validated cell array can hold. -/
def baseVals : List Int := 0 :: (-1) :: validOpenVals

/-- Every value a reachability grid can hold: an array value, possibly
with the reachable mark OR-ed in. -/
def reachVals : List Int := baseVals ++ baseVals.map (fun v => pylor v 0x80)

theorem base_sub_reach : ∀ v ∈ baseVals, v ∈ reachVals := by decide

theorem mark_mem_reach : ∀ v ∈ reachVals, pylor v 0x80 ∈ reachVals := by decide

theorem zero_mem_reach : (0 : Int) ∈ reachVals := by decide

theorem getD_mem_reach {g : List Int} (hg : ∀ v ∈ g, v ∈ reachVals) (n : Nat) :
    g.getD n 0 ∈ reachVals := by
  by_cases hn : n < g.length
  · rw [List.getD_eq_getElem g 0 hn]
    exact hg _ (List.getElem_mem hn)
  · rw [List.getD_eq_default g 0 (by omega)]
    exact zero_mem_reach

theorem set_vals {g : List Int} (hg : ∀ v ∈ g, v ∈ reachVals) {x : Int}
    (hx : x ∈ reachVals) (i : Nat) : ∀ v ∈ g.set i x, v ∈ reachVals := by
  intro v hv
  rcases List.mem_or_eq_of_mem_set hv with h | h
  · exact hg v h
  · rw [h]
    exact hx

theorem floodPass_vals (w h : Nat) {g : List Int} (hg : ∀ v ∈ g, v ∈ reachVals) :
    ∀ v ∈ floodPass w h g, v ∈ reachVals := by
  unfold floodPass
  generalize rasterCoords w h = l
  induction l generalizing g with
  | nil => exact hg
  | cons p t ih =>
    rw [List.foldl_cons]
    by_cases hc : (floodEligible (cellAt w g p.1 p.2) &&
        (isMarked w g (p.1+1) p.2 || isMarked w g (p.1-1) p.2 ||
         isMarked w g p.1 (p.2+1) || isMarked w g p.1 (p.2-1))) = true
    · rw [if_pos hc]
      apply ih
      apply set_vals hg
      unfold cellAt
      by_cases hb : 0 ≤ p.1 ∧ p.1 < (w : Int) ∧ 0 ≤ p.2
      · rw [if_pos hb]
        exact mark_mem_reach _ (getD_mem_reach hg _)
      · rw [if_neg hb]
        exact mark_mem_reach _ zero_mem_reach
    · rw [if_neg hc]
      exact ih hg

theorem floodIter_vals (n w h : Nat) {g : List Int} (hg : ∀ v ∈ g, v ∈ reachVals) :
    ∀ v ∈ floodIter n w h g, v ∈ reachVals := by
  induction n generalizing g with
  | zero => exact hg
  | succ m ih =>
    unfold floodIter
    by_cases hc : (floodPass w h g == g) = true
    · rw [if_pos hc]
      exact hg
    · rw [if_neg hc]
      exact ih (floodPass_vals w h hg)

/-- The resolver's output grid only holds array values, possibly marked. -/
theorem resolve_vals {w h : Nat} {a : List Int} {c : Int × Int} {r : List Int}
    (hlen : a.length = w * h) (hb : InB w h c.1 c.2)
    (hvals : ∀ v ∈ a, v ∈ baseVals)
    (hcv : cellVal w a c.1 c.2 ∈ validOpenVals)
    (hres : resolve_reachableA w h a c = .ok r) : ∀ v ∈ r, v ∈ reachVals := by
  unfold resolve_reachableA at hres
  dsimp only at hres
  have hnn := idx_nonneg hb
  have hlt : c.1 + c.2 * (w : Int) < (a.length : Int) := by
    rw [hlen]
    exact_mod_cast idx_lt hb
  rw [pyGet_ok a _ hnn hlt] at hres
  simp only [Bind.bind, Except.bind] at hres
  rw [pySet_ok a _ _ hnn hlt] at hres
  dsimp only at hres
  have hcc : a.getD (c.1 + c.2 * (w : Int)).toNat 0 = cellVal w a c.1 c.2 := rfl
  have hccVO : pyland (a.getD (c.1 + c.2 * (w : Int)).toNat 0) (pynot 0x10) ∈
      validOpenVals := by
    rw [hcc]
    exact (clearChar_mem _ hcv).1
  have hvals1 : ∀ v ∈ a.set (c.1 + c.2 * (w : Int)).toNat
      (pyland (a.getD (c.1 + c.2 * (w : Int)).toNat 0) (pynot 0x10)), v ∈ reachVals := by
    apply set_vals
    · intro v hv
      exact base_sub_reach _ (hvals v hv)
    · exact base_sub_reach _ (by
        unfold baseVals
        exact List.mem_cons_of_mem _ (List.mem_cons_of_mem _ hccVO))
  set a1 := a.set (c.1 + c.2 * (w : Int)).toNat
    (pyland (a.getD (c.1 + c.2 * (w : Int)).toNat 0) (pynot 0x10)) with ha1_def
  have hlen1 : a1.length = a.length := List.length_set ..
  rw [pyGet_ok a1 _ hnn (by rw [hlen1]; exact hlt)] at hres
  simp only [Bind.bind, Except.bind] at hres
  rw [pySet_ok a1 _ _ hnn (by rw [hlen1]; exact hlt)] at hres
  simp only [Except.bind, pure, Except.pure, Except.ok.injEq] at hres
  subst hres
  apply floodIter_vals
  apply set_vals hvals1
  exact mark_mem_reach _ (getD_mem_reach hvals1 _)

/-- Every entry of a validated cell array is the wall, the sentinel, or a
valid open value. -/
theorem validated_arr_vals {b : skb_map} (hval : b.Validated) :
    ∀ v ∈ b.array, v ∈ baseVals := by
  intro v hv
  obtain ⟨n, hn, hget⟩ := List.mem_iff_getElem.mp hv
  have hn2 : n < b.width * b.height := by
    rw [← hval.1]
    exact hn
  have htri := hval.validatedArr _ _ (flat_coords hn2).1
  rw [cellVal_flat hn2, List.getD_eq_getElem b.array 0 hn, hget] at htri
  rcases htri with h0 | h0 | h0
  · rw [h0]
    exact List.mem_cons_self _ _
  · rw [h0]
    exact List.mem_cons_of_mem _ (List.mem_cons_self _ _)
  · have := h0.1
    rw [cellVal_flat hn2, List.getD_eq_getElem b.array 0 hn, hget] at this
    exact List.mem_cons_of_mem _ (List.mem_cons_of_mem _ this)

/-- `create_preserves`, extended with the facts the termination argument
needs: the child keeps the parent's dimensions and its reachability grid
only holds values from the finite universe `reachVals`. -/
theorem create_preserves_vals {b : skb_map} (hval : b.Validated) {x y : Int} {d : Dir}
    (hm : (x, y, d) ∈ legalMovesSpec b) :
    ∃ nm, b.create_new_map_by_move x y d = .ok nm ∧ nm.Validated ∧
      nm.width = b.width ∧ nm.height = b.height ∧
      nm.reachable.length = b.width * b.height ∧
      ∀ v ∈ nm.reachable, v ∈ reachVals := by
  obtain ⟨hb, hopenb, he40, htin, hopent, ht40, hdcA, hne⟩ := legalMove_facts hval hm
  obtain ⟨hcIn, _, _, _, _⟩ := validated_char_facts hval
  obtain ⟨reach, hres, hrlen, hsteps⟩ := createSteps_eq b x y (targetCell x y d).1
    (targetCell x y d).2 hval.1 hb hcIn htin
  have hmv := moveBoard_validated hval hb hopenb he40 htin hopent ht40 hdcA hne reach hrlen
  have hvt := validate_true_of_validated hmv
  refine ⟨moveBoard b x y (targetCell x y d).1 (targetCell x y d).2 reach,
    ?_, hmv, rfl, rfl, hrlen, ?_⟩
  · rw [create_unfold,
      show b.element x y = .ok (cellVal b.width b.array x y) from elemA_inb hval.1 hb]
    simp only [Bind.bind, Except.bind]
    have hcond : (pyland (cellVal b.width b.array x y) 0x40 == 0) = false := by
      rw [he40]
      decide
    rw [hcond]
    simp only [Bool.false_eq_true, if_false]
    rw [hsteps, hvt]
  · have hop := (validated_char_facts hmv).2.2.1
    have hl4 : (arr4 b x y (targetCell x y d).1 (targetCell x y d).2).length =
        b.width * b.height := hmv.1
    have hvalsA : ∀ v ∈ arr4 b x y (targetCell x y d).1 (targetCell x y d).2,
        v ∈ baseVals := validated_arr_vals hmv
    have hcvA : cellVal b.width (arr4 b x y (targetCell x y d).1 (targetCell x y d).2)
        x y ∈ validOpenVals := hop.1
    exact resolve_vals hl4 hb hvalsA hcvA hres

/-- All lists of a given length over a given value list, as a finite set. -/
def gridUniverse (vals : List Int) : Nat → Finset (List Int)
  | 0 => {[]}
  | n + 1 => Finset.image₂ List.cons vals.toFinset (gridUniverse vals n)

theorem mem_gridUniverse {vals : List Int} : ∀ {n : Nat} {l : List Int},
    l ∈ gridUniverse vals n ↔ l.length = n ∧ ∀ v ∈ l, v ∈ vals := by
  intro n
  induction n with
  | zero =>
    intro l
    unfold gridUniverse
    rw [Finset.mem_singleton]
    constructor
    · intro hh
      subst hh
      exact ⟨rfl, by simp⟩
    · intro ⟨hl, _⟩
      exact List.length_eq_zero.mp hl
  | succ m ih =>
    intro l
    unfold gridUniverse
    rw [Finset.mem_image₂]
    constructor
    · rintro ⟨a, ha, t, ht, he⟩
      subst he
      rw [List.mem_toFinset] at ha
      obtain ⟨htl, htv⟩ := ih.mp ht
      refine ⟨by simp [htl], ?_⟩
      intro v hv
      rcases List.mem_cons.mp hv with hh | hh
      · rw [hh]
        exact ha
      · exact htv v hh
    · rintro ⟨hl, hv⟩
      cases l with
      | nil => simp at hl
      | cons a t =>
        refine ⟨a, ?_, t, ?_, rfl⟩
        · rw [List.mem_toFinset]
          exact hv a (List.mem_cons_self _ _)
        · exact ih.mpr ⟨by simpa using hl, fun v hv2 => hv v (List.mem_cons_of_mem _ hv2)⟩

theorem nodup_length_le_card {α : Type} [DecidableEq α] {l : List α} {s : Finset α}
    (hnd : l.Nodup) (hsub : ∀ x ∈ l, x ∈ s) : l.length ≤ s.card := by
  rw [← List.toFinset_card_of_nodup hnd]
  exact Finset.card_le_card (fun x hx => hsub x (List.mem_toFinset.mp hx))

theorem rasterCoords_length (w h : Nat) : (rasterCoords w h).length = w * h := by
  unfold rasterCoords
  rw [List.length_flatMap]
  have : ∀ y : Nat, ((fun (y : Nat) =>
      (List.range w).map (fun (x : Nat) => ((x : Int), (y : Int)))) y).length = w := by
    intro y
    simp
  rw [List.map_congr_left (fun y _ => by rw [Function.comp_apply, List.length_map,
    List.length_range])]
  rw [show (List.map (fun _ : Nat => w) (List.range h)) = List.replicate h w from by
    rw [List.map_const', List.length_range]]
  rw [List.sum_replicate, smul_eq_mul, Nat.mul_comm]

theorem legalMovesSpec_length (b : skb_map) :
    (legalMovesSpec b).length ≤ 4 * (b.width * b.height) := by
  unfold legalMovesSpec
  rw [List.length_flatMap]
  have hbound : ∀ x ∈ (rasterCoords b.width b.height).map (fun p =>
      (([Dir.UP, Dir.RIGHT, Dir.DOWN, Dir.LEFT].filter
        (fun d => legalMoveSpec b p.1 p.2 d)).map (fun d => (p.1, p.2, d))).length),
      x ≤ 4 := by
    intro x hx
    rw [List.mem_map] at hx
    obtain ⟨p, _, he⟩ := hx
    subst he
    rw [List.length_map]
    calc (List.filter _ _).length ≤ [Dir.UP, Dir.RIGHT, Dir.DOWN, Dir.LEFT].length :=
          List.length_filter_le _ _
      _ = 4 := rfl
  calc ((rasterCoords b.width b.height).map _).sum ≤
        ((rasterCoords b.width b.height).map (fun p =>
          (([Dir.UP, Dir.RIGHT, Dir.DOWN, Dir.LEFT].filter
            (fun d => legalMoveSpec b p.1 p.2 d)).map (fun d => (p.1, p.2, d))).length)).length
          • 4 := List.sum_le_card_nsmul _ 4 hbound
    _ = (rasterCoords b.width b.height).length * 4 := by rw [List.length_map, smul_eq_mul]
    _ = 4 * (b.width * b.height) := by rw [rasterCoords_length, Nat.mul_comm]

/-- Moves left to try in a frame (the cursor starts at `-1`). -/
def remaining (f : Frame) : Nat := ((f.all_moves.length : Int) - f.cur).toNat

def sumRem (s : SearchState) : Nat := (s.history.map remaining).sum

/-- What stays true of every stack frame during the search. -/
def FrameOK (w0 h0 : Nat) (f : Frame) : Prop :=
  f.board.Validated ∧ f.board.width = w0 ∧ f.board.height = h0 ∧
  f.all_moves = legalMovesSpec f.board ∧ -1 ≤ f.cur

/-- The search-loop invariant backing termination: frames are validated
boards of the fixed dimensions carrying their own generator output, the
seen list holds pairwise-distinct reachability grids drawn from a finite
universe, and the stack never outgrows the seen list. -/
def TermInv (w0 h0 : Nat) (s : SearchState) : Prop :=
  (∀ f ∈ s.history, FrameOK w0 h0 f) ∧
  (∀ bd ∈ s.seen, bd.reachable ∈ gridUniverse reachVals (w0 * h0)) ∧
  (s.seen.map (fun bd => bd.reachable)).Nodup ∧
  s.history.length ≤ s.seen.length

theorem seen_bound {w0 h0 : Nat} {s : SearchState} (hinv : TermInv w0 h0 s) :
    s.seen.length ≤ (gridUniverse reachVals (w0 * h0)).card := by
  have hh := nodup_length_le_card hinv.2.2.1 (fun x hx => by
    rw [List.mem_map] at hx
    obtain ⟨bd, hbd, he⟩ := hx
    rw [← he]
    exact hinv.2.1 bd hbd)
  rw [List.length_map] at hh
  exact hh

theorem remaining_bound {w0 h0 : Nat} {f : Frame} (hf : FrameOK w0 h0 f) :
    remaining f ≤ 4 * (w0 * h0) + 1 := by
  obtain ⟨hval, hw, hhh, hms, hcur⟩ := hf
  have hlen : f.all_moves.length ≤ 4 * (w0 * h0) := by
    rw [hms]
    have := legalMovesSpec_length f.board
    rw [hw, hhh] at this
    exact this
  unfold remaining
  omega

theorem sumRem_bound {w0 h0 : Nat} {s : SearchState} (hinv : TermInv w0 h0 s) :
    sumRem s ≤ s.history.length * (4 * (w0 * h0) + 1) := by
  unfold sumRem
  calc (s.history.map remaining).sum ≤
      (s.history.map remaining).length • (4 * (w0 * h0) + 1) := by
        apply List.sum_le_card_nsmul
        intro x hx
        rw [List.mem_map] at hx
        obtain ⟨f, hf, he⟩ := hx
        rw [← he]
        exact remaining_bound (hinv.1 f hf)
    _ = s.history.length * (4 * (w0 * h0) + 1) := by
        rw [List.length_map, smul_eq_mul]

theorem lex3_lt {X Y a a2 b b2 c c2 : Nat} (hb2 : b2 < Y) (hc2 : c2 < X)
    (hcase : a2 < a ∨ (a2 = a ∧ (b2 < b ∨ (b2 = b ∧ c2 < c)))) :
    a2 * (Y * X) + b2 * X + c2 < a * (Y * X) + b * X + c := by
  rcases hcase with hh | ⟨he, hh⟩
  · have h1 : a2 * (Y * X) + b2 * X + c2 < a2 * (Y * X) + (b2 + 1) * X := by
      have : c2 < X := hc2
      nlinarith
    have h2 : a2 * (Y * X) + (b2 + 1) * X ≤ a2 * (Y * X) + Y * X := by
      have : b2 + 1 ≤ Y := hb2
      nlinarith
    have h3 : a2 * (Y * X) + Y * X ≤ a * (Y * X) := by
      have h5 : a2 + 1 ≤ a := hh
      calc a2 * (Y * X) + Y * X = (a2 + 1) * (Y * X) := by ring
        _ ≤ a * (Y * X) := Nat.mul_le_mul_right _ h5
    omega
  · subst he
    rcases hh with hh | ⟨he2, hh⟩
    · have h1 : a2 * (Y * X) + b2 * X + c2 < a2 * (Y * X) + (b2 + 1) * X := by
        nlinarith
      have h2 : a2 * (Y * X) + (b2 + 1) * X ≤ a2 * (Y * X) + b * X := by
        have : b2 + 1 ≤ b := hh
        nlinarith
      omega
    · subst he2
      omega

def sumRemL (l : List Frame) : Nat := (l.map remaining).sum

theorem sumRem_eq (s : SearchState) : sumRem s = sumRemL s.history := rfl

theorem sumRemL_cons (f : Frame) (t : List Frame) :
    sumRemL (f :: t) = remaining f + sumRemL t := by
  unfold sumRemL
  rw [List.map_cons, List.sum_cons]

/-- On a state satisfying the invariant with a nonempty stack, one loop
iteration succeeds, keeps the invariant, and strictly decreases the
lexicographic measure (new seen entry, else fewer pending moves, else a
shorter stack). -/
theorem searchStep_progress {w0 h0 : Nat} {s : SearchState} (hinv : TermInv w0 h0 s)
    (hne : s.history ≠ []) :
    ∃ s2, searchStep s = .ok s2 ∧ TermInv w0 h0 s2 ∧
      (s.seen.length < s2.seen.length ∨
       (s2.seen = s.seen ∧ sumRem s2 < sumRem s) ∨
       (s2.seen = s.seen ∧ sumRem s2 = sumRem s ∧
        s2.history.length < s.history.length)) := by
  obtain ⟨hfr, hsv, hnd, hhb⟩ := hinv
  cases hh : s.history with
  | nil => exact absurd hh hne
  | cons f rest =>
    have hfOK := hfr f (by rw [hh]; exact List.mem_cons_self _ _)
    obtain ⟨hbval, hbw, hbh, hbm, hbc⟩ := hfOK
    have hrestOK : ∀ g ∈ rest, FrameOK w0 h0 g := fun g hg =>
      hfr g (by rw [hh]; exact List.mem_cons_of_mem _ hg)
    have hhb2 : rest.length + 1 ≤ s.seen.length := by
      rw [hh] at hhb
      simpa using hhb
    have hsumS : sumRem s = remaining f + sumRemL rest := by
      rw [sumRem_eq, hh, sumRemL_cons]
    unfold searchStep
    rw [hh]
    dsimp only
    by_cases hc : ((f.all_moves.length : Int) ≤ f.cur + 1)
    · rw [if_pos hc]
      refine ⟨_, rfl, ⟨hrestOK, hsv, hnd, by dsimp only; omega⟩, ?_⟩
      rcases Nat.eq_zero_or_pos (remaining f) with h0 | h0
      · right
        right
        refine ⟨rfl, ?_, ?_⟩
        · rw [sumRem_eq]
          dsimp only
          rw [hsumS]
          omega
        · simp
      · right
        left
        refine ⟨rfl, ?_⟩
        rw [sumRem_eq]
        dsimp only
        rw [hsumS]
        omega
    · rw [if_neg hc]
      have hcnat : (f.cur + 1).toNat < f.all_moves.length := by omega
      cases hm : f.all_moves.getD (f.cur + 1).toNat (0, 0, Dir.UP) with
      | mk x yd =>
        cases yd with
        | mk y dir =>
          dsimp only
          have hmem : (x, y, dir) ∈ legalMovesSpec f.board := by
            rw [← hbm, ← hm, List.getD_eq_getElem _ _ hcnat]
            exact List.getElem_mem hcnat
          obtain ⟨nm, hcr, hnmval, hnw, hnh, hnrl, hnrv⟩ := create_preserves_vals hbval hmem
          rw [hcr]
          simp only [Bind.bind, Except.bind]
          have hfrOK1 : FrameOK w0 h0 { f with cur := f.cur + 1 } :=
            ⟨hbval, hbw, hbh, hbm, by show (-1 : Int) ≤ f.cur + 1; omega⟩
          have hremdec : remaining { f with cur := f.cur + 1 } < remaining f := by
            unfold remaining
            dsimp only
            omega
          have hconsOK : ∀ g ∈ { f with cur := f.cur + 1 } :: rest, FrameOK w0 h0 g := by
            intro g hg
            rcases List.mem_cons.mp hg with hh2 | hh2
            · rw [hh2]
              exact hfrOK1
            · exact hrestOK g hh2
          by_cases hany : (s.seen.any fun t => nm.compare t) = true
          · rw [hany]
            simp only [if_true]
            refine ⟨_, rfl, ⟨hconsOK, hsv, hnd, by dsimp only; simpa using hhb2⟩, ?_⟩
            right
            left
            refine ⟨rfl, ?_⟩
            rw [sumRem_eq]
            dsimp only
            rw [sumRemL_cons, hsumS]
            omega
          · simp only [Bool.not_eq_true] at hany
            rw [hany]
            simp only [Bool.false_eq_true, if_false]
            have hnotmem : nm.reachable ∉ s.seen.map (fun bd => bd.reachable) := by
              intro hmm2
              rw [List.mem_map] at hmm2
              obtain ⟨bd, hbd, he⟩ := hmm2
              have hfa := List.any_eq_false.mp hany bd hbd
              unfold skb_map.compare at hfa
              rw [← he] at hfa
              simp at hfa
            have hnd2 : ((s.seen ++ [nm]).map (fun bd => bd.reachable)).Nodup := by
              rw [List.map_append, List.nodup_append]
              refine ⟨hnd, by simp, ?_⟩
              intro a ha hb2
              simp only [List.map_cons, List.map_nil, List.mem_singleton] at hb2
              subst hb2
              exact hnotmem ha
            have hsv2 : ∀ bd ∈ s.seen ++ [nm],
                bd.reachable ∈ gridUniverse reachVals (w0 * h0) := by
              intro bd hbd
              rcases List.mem_append.mp hbd with hh2 | hh2
              · exact hsv bd hh2
              · rw [List.mem_singleton] at hh2
                subst hh2
                rw [mem_gridUniverse]
                refine ⟨?_, hnrv⟩
                rw [hnrl, hbw, hbh]
            by_cases hcomp : nm.completed = true
            · rw [hcomp]
              simp only [if_true]
              refine ⟨_, rfl, ⟨hconsOK, hsv2, hnd2, ?_⟩, ?_⟩
              · dsimp only
                simp only [List.length_cons, List.length_append, List.length_singleton]
                omega
              · left
                dsimp only
                simp
            · simp only [Bool.not_eq_true] at hcomp
              rw [hcomp]
              simp only [Bool.false_eq_true, if_false]
              rw [find_all_eq hnmval]
              dsimp only
              refine ⟨_, rfl, ⟨?_, hsv2, hnd2, ?_⟩, ?_⟩
              · intro g hg
                rcases List.mem_cons.mp hg with hh2 | hh2
                · rw [hh2]
                  exact ⟨hnmval, by rw [hnw, hbw], by rw [hnh, hbh], rfl,
                    by show (-1 : Int) ≤ -1; omega⟩
                · exact hconsOK g hh2
              · dsimp only
                simp only [List.length_cons, List.length_append, List.length_singleton]
                omega
              · left
                dsimp only
                simp

def searchMeasure (w0 h0 : Nat) (s : SearchState) : Nat :=
  ((gridUniverse reachVals (w0 * h0)).card - s.seen.length) *
      (((gridUniverse reachVals (w0 * h0)).card * (4 * (w0 * h0) + 1) + 1) *
        ((gridUniverse reachVals (w0 * h0)).card + 1)) +
    sumRem s * ((gridUniverse reachVals (w0 * h0)).card + 1) + s.history.length

theorem searchMeasure_decrease {w0 h0 : Nat} {s s2 : SearchState}
    (hinv : TermInv w0 h0 s) (hinv2 : TermInv w0 h0 s2)
    (hdec : s.seen.length < s2.seen.length ∨
      (s2.seen = s.seen ∧ sumRem s2 < sumRem s) ∨
      (s2.seen = s.seen ∧ sumRem s2 = sumRem s ∧
       s2.history.length < s.history.length)) :
    searchMeasure w0 h0 s2 < searchMeasure w0 h0 s := by
  have hsb2 := seen_bound hinv2
  have hsb := seen_bound hinv
  have hsr2 := sumRem_bound hinv2
  have hhl2 := hinv2.2.2.2
  have hhl := hinv.2.2.2
  unfold searchMeasure
  apply lex3_lt
  · have h1 : s2.history.length * (4 * (w0 * h0) + 1) ≤
        (gridUniverse reachVals (w0 * h0)).card * (4 * (w0 * h0) + 1) :=
      Nat.mul_le_mul_right _ (le_trans hhl2 hsb2)
    omega
  · omega
  · rcases hdec with h | ⟨hse, h⟩ | ⟨hse, he, h⟩
    · left
      omega
    · right
      refine ⟨by rw [hse], Or.inl h⟩
    · right
      refine ⟨by rw [hse], Or.inr ⟨he, h⟩⟩

theorem searchRun_term {w0 h0 : Nat} :
    ∀ (fuel : Nat) (s : SearchState), TermInv w0 h0 s →
      searchMeasure w0 h0 s ≤ fuel →
      ∃ n s2, searchRun n s = .ok s2 ∧ s2.history = [] := by
  intro fuel
  induction fuel with
  | zero =>
    intro s hinv hfu
    by_cases hhe : s.history = []
    · exact ⟨0, s, rfl, hhe⟩
    · exfalso
      have hl : s.history.length ≠ 0 := fun hc => hhe (List.length_eq_zero.mp hc)
      unfold searchMeasure at hfu
      omega
  | succ m ih =>
    intro s hinv hfu
    by_cases hhe : s.history = []
    · exact ⟨0, s, rfl, hhe⟩
    · obtain ⟨s2, hstep, hinv2, hdec⟩ := searchStep_progress hinv hhe
      have hlt := searchMeasure_decrease hinv hinv2 hdec
      obtain ⟨n, s3, hrun, hend⟩ := ih s2 hinv2 (by omega)
      refine ⟨n + 1, s3, ?_, hend⟩
      unfold searchRun
      rw [hstep]
      simp only [Bind.bind, Except.bind]
      exact hrun

/-- Claim C8: from any validated initial board (with its stored
reachability grid the resolver's own output), the search loop terminates:
some finite number of iterations empties the frame stack.  The finiteness
of the canonical state space (`gridUniverse`) and the global uniqueness of
accepted children in `seen` bound the lexicographic measure strictly
decreased by every iteration. -/
theorem sokoban_C8 (b : skb_map) (hval : b.Validated)
    (hres : resolve_reachableA b.width b.height b.array b.character = .ok b.reachable)
    (s0 : SearchState) (hinit : initSearchState b = .ok s0) :
    ∃ n s, searchRun n s0 = .ok s ∧ s.history = [] := by
  unfold initSearchState at hinit
  rw [find_all_eq hval] at hinit
  simp only [Bind.bind, Except.bind, pure, Except.pure] at hinit
  injection hinit with hinit
  subst hinit
  have hrv : ∀ v ∈ b.reachable, v ∈ reachVals := by
    obtain ⟨hcIn, _, hop, _, _⟩ := validated_char_facts hval
    exact resolve_vals hval.1 hcIn (validated_arr_vals hval) hop.1 hres
  have hinv : TermInv b.width b.height
      { history := [{ board := b, all_moves := legalMovesSpec b, cur := -1 }],
        seen := [b], moves := 0, solutions := 0, produced := [] } := by
    refine ⟨?_, ?_, ?_, ?_⟩
    · intro f hf
      rw [List.mem_singleton] at hf
      subst hf
      exact ⟨hval, rfl, rfl, rfl, by show (-1 : Int) ≤ -1; omega⟩
    · intro bd hbd
      rw [List.mem_singleton] at hbd
      subst hbd
      rw [mem_gridUniverse]
      exact ⟨hval.2.1, hrv⟩
    · simp
    · simp
  exact searchRun_term _ _ hinv (le_refl _)

theorem sokoban_C8_witness :
    ∃ n s, searchRun n tinySearchStart = .ok s ∧ s.history = [] :=
  sokoban_C8 tinyMap tinyMap_validated (by rfl) tinySearchStart (by rfl)
